import Mathlib

/-!
Shallow embedding of the geometric/structural core of the tldraw editor
(`packages/editor/src/lib/editor/Editor.ts`), for checking the spec's claims.

Modelling conventions:
* Scalars are `ℚ` (the code computes with IEEE doubles; the claims under test
  are about exact structural/algebraic behaviour, so we model real arithmetic).
* A shape's `rotation` is represented by the point `(cos r, sin r)` on the unit
  circle (`Rot`), because the code only consumes rotations through the entries
  of affine matrices (`Mat.rotate` multiplies by the rotation matrix), and
  `Mat.rotation()` recovers the angle from the matrix entries `(a, b)`.
  Angle subtraction becomes `Rot.sub` (the angle-difference formulas).
* Record lookups (`store.get`) are lookups in a list of shape records.
* Unbounded recursions over parent chains (which the code runs on a store it
  trusts to be acyclic) take an explicit fuel argument; theorems carry a
  decidable `chainOk` hypothesis stating that the fuel suffices.
-/

namespace Tldraw

/-- A 2D point (the code's `Vec` / `VecLike`). -/
structure Vec where
  x : ℚ
  y : ℚ
deriving DecidableEq

/-- A rotation, represented by its cosine and sine (see the module docstring). -/
structure Rot where
  c : ℚ
  s : ℚ
deriving DecidableEq

/-- The rotation is a genuine angle: its representation lies on the unit circle. -/
def Rot.IsUnit (r : Rot) : Prop := r.c ^ 2 + r.s ^ 2 = 1

instance (r : Rot) : Decidable r.IsUnit := by
  unfold Rot.IsUnit
  infer_instance

/-- Angle difference `r1 - r2`, on unit-circle representatives
(`cos (a-b) = cos a cos b + sin a sin b`, `sin (a-b) = sin a cos b - cos a sin b`).
This embeds the code's `pageTransform.rotation() - parentPageRotation`. -/
def Rot.sub (r1 r2 : Rot) : Rot :=
  ⟨r1.c * r2.c + r1.s * r2.s, r1.s * r2.c - r1.c * r2.s⟩

/-- A 2D affine transform, as in the editor's `Mat` class: the matrix
`[[a, c, e], [b, d, f]]`, mapping `(x, y)` to `(a x + c y + e, b x + d y + f)`. -/
structure Mat where
  a : ℚ
  b : ℚ
  c : ℚ
  d : ℚ
  e : ℚ
  f : ℚ
deriving DecidableEq

/-- `Mat.Identity()`. -/
def Mat.identity : Mat := ⟨1, 0, 0, 1, 0, 0⟩

/-- `Mat.Compose(m, n)` / `m.multiply(n)`: the transform applying `n` first,
then `m` (matrix product). -/
def Mat.mul (m n : Mat) : Mat :=
  ⟨m.a * n.a + m.c * n.b,
   m.b * n.a + m.d * n.b,
   m.a * n.c + m.c * n.d,
   m.b * n.c + m.d * n.d,
   m.a * n.e + m.c * n.f + m.e,
   m.b * n.e + m.d * n.f + m.f⟩

/-- `m.translate(x, y)`: post-compose with a translation. -/
def Mat.translate (m : Mat) (x y : ℚ) : Mat := Mat.mul m ⟨1, 0, 0, 1, x, y⟩

/-- `m.rotate(r)`: post-compose with a rotation (given on the unit circle). -/
def Mat.rotateBy (m : Mat) (r : Rot) : Mat := Mat.mul m ⟨r.c, r.s, -r.s, r.c, 0, 0⟩

/-- `m.applyToPoint(p)`. -/
def Mat.applyToPoint (m : Mat) (p : Vec) : Vec :=
  ⟨m.a * p.x + m.c * p.y + m.e, m.b * p.x + m.d * p.y + m.f⟩

/-- `m.point()`: the translation component `(e, f)`. -/
def Mat.point (m : Mat) : Vec := ⟨m.e, m.f⟩

/-- `m.rotation()`: the rotation angle of the matrix. For the rigid matrices the
editor produces, the column `(a, b)` is exactly `(cos θ, sin θ)`. -/
def Mat.rotation (m : Mat) : Rot := ⟨m.a, m.b⟩

/-- Determinant of the linear part. -/
def Mat.det (m : Mat) : ℚ := m.a * m.d - m.b * m.c

/-- Modelled from the spec: the inverse affine transform ("applying the inverse
of the new parent's page transform"); the code's `Mat.Inverse` is in
`primitives/Mat.ts`, which is not among the provided sources. Standard 2x3
affine inverse. -/
def Mat.invert (m : Mat) : Mat :=
  ⟨m.d / m.det, -m.b / m.det, -m.c / m.det, m.a / m.det,
   (m.c * m.f - m.d * m.e) / m.det, (m.b * m.e - m.a * m.f) / m.det⟩

/-- A rigid motion: rotation part is a rotation matrix. Every page transform the
editor builds is a composition of translations and rotations, hence rigid. -/
def Mat.IsRigid (m : Mat) : Prop := m.d = m.a ∧ m.c = -m.b ∧ m.a ^ 2 + m.b ^ 2 = 1

/- ------------------------------------------------------------------ -/
/- The store: shape records.                                           -/
/- ------------------------------------------------------------------ -/

/-- `TLParentId`: a page id or a shape id. -/
inductive ParentId where
  | page (i : Nat)
  | shape (i : Nat)
deriving DecidableEq

/-- An arrow terminal (`TLArrowTerminal`): a fixed point in arrow space, or a
binding to a target shape. -/
inductive Terminal where
  | point (x y : ℚ)
  | binding (boundShapeId : Nat)
deriving DecidableEq

/-- The shape types the embedded code branches on. -/
inductive SType where
  | arrow
  | frame
  | geo
  | group
  | other
deriving DecidableEq

/-- Type-specific props, restricted to what the embedded code reads. -/
inductive Props where
  | arrowProps (startT endT : Terminal)
  | otherProps
deriving DecidableEq

/-- An arrow handle tag. -/
inductive HandleId where
  | hstart
  | hend
deriving DecidableEq

/-- A shape record (`TLShape`), restricted to the fields the embedded code
reads: id, parent, local transform fields, fractional index (modelled in `ℚ`),
lock flag, type tag and props. -/
structure Shape where
  id : Nat
  parentId : ParentId
  x : ℚ
  y : ℚ
  rot : Rot
  index : ℚ
  isLocked : Bool
  stype : SType
  props : Props
deriving DecidableEq

/-- The record store, restricted to shape and page records, plus the
read-only flag of the instance state. -/
structure Store where
  shapes : List Shape
  pages : List Nat
  isReadonly : Bool
deriving DecidableEq

/-- `editor.getShape(id)` / `store.get(id)` for a shape id. -/
def getShape (st : Store) (i : Nat) : Option Shape :=
  st.shapes.find? (fun s => s.id == i)

/-- `editor.getShape(parentId)`: returns `undefined` unless the id is a shape id. -/
def getShapeP (st : Store) (p : ParentId) : Option Shape :=
  match p with
  | .page _ => none
  | .shape i => getShape st i

/-- `editor.getShapeParent(shape)`: the parent record, when the parent is a shape. -/
def getShapeParentOf (st : Store) (s : Shape) : Option Shape :=
  getShapeP st s.parentId

/-- `editor.getShapeLocalTransform(shape)`:
`Mat.Identity().translate(shape.x, shape.y).rotate(shape.rotation)`. -/
def localTransform (s : Shape) : Mat :=
  (Mat.identity.translate s.x s.y).rotateBy s.rot

/-- Fuel-indexed certificate that a parent chain terminates (at a page record,
or at a missing record) within the given fuel. Decidable; theorems assume it
where the code assumes acyclicity. -/
def chainOk (st : Store) : Nat → ParentId → Bool
  | _, .page _ => true
  | 0, .shape i => (getShape st i).isNone
  | fuel + 1, .shape i =>
    match getShape st i with
    | none => true
    | some s => chainOk st fuel s.parentId

/-- The page-transform cache body (`_getShapePageTransformCache`), fuel-indexed:
for an existing shape, its local transform if its parent is a page, else the
composition of the parent's (cached) page transform — identity when the parent
record does not exist — with the shape's local transform. `none` = cache miss
(missing record, or out of fuel). -/
def ptcF (st : Store) : Nat → Nat → Option Mat
  | 0, _ => none
  | fuel + 1, i =>
    (getShape st i).map fun s =>
      match s.parentId with
      | .page _ => localTransform s
      | .shape p => Mat.mul ((ptcF st fuel p).getD Mat.identity) (localTransform s)

/-- `editor.getShapePageTransform(id)`: the cached page transform, or the
identity matrix. Fuel is the store size, enough for any acyclic chain. -/
def getShapePageTransform (st : Store) (i : Nat) : Mat :=
  (ptcF st st.shapes.length i).getD Mat.identity

/-- `editor.hasAncestor(shape, ancestorId)` (fuel-indexed): the shape's
`parentId` equals the ancestor's shape id, or the parent record (when present)
has that ancestor. -/
def hasAncestorF (st : Store) : Nat → Option Nat → Nat → Bool
  | _, none, _ => false
  | fuel, some i, anc =>
    match getShape st i with
    | none => false
    | some s =>
      if s.parentId == ParentId.shape anc then true
      else
        match fuel with
        | 0 => false
        | f + 1 => hasAncestorF st f ((getShapeParentOf st s).map (fun p => p.id)) anc

/-- `editor.hasAncestor` with the store-size fuel. -/
def hasAncestor (st : Store) (i anc : Nat) : Bool :=
  hasAncestorF st st.shapes.length (some i) anc

/-- `editor.findShapeAncestor(shape, predicate)` (fuel-indexed): the first
ancestor record matching the predicate. -/
def findShapeAncestorF (st : Store) : Nat → Option Nat → (Shape → Bool) → Option Shape
  | _, none, _ => none
  | fuel, some i, pred =>
    match getShape st i with
    | none => none
    | some s =>
      match s.parentId with
      | .page _ => none
      | .shape p =>
        match getShape st p with
        | none => none
        | some parent =>
          if pred parent then some parent
          else
            match fuel with
            | 0 => none
            | f + 1 => findShapeAncestorF st f (some parent.id) pred

/-- The `while (ancestor)` walk of `editor.findCommonAncestor`: climb from an
ancestor candidate, skipping candidates failing the predicate, returning the
first one that is an ancestor of every other shape. -/
def findCommonAncestorWalk (st : Store) (others : List Nat)
    (pred : Option (Shape → Bool)) : Nat → Option Shape → Option Nat
  | _, none => none
  | 0, some _ => none
  | fuel + 1, some anc =>
    if (match pred with | some pr => !(pr anc) | none => false) then
      findCommonAncestorWalk st others pred fuel (getShapeParentOf st anc)
    else if others.all (fun o => hasAncestor st o anc.id) then some anc.id
    else findCommonAncestorWalk st others pred fuel (getShapeParentOf st anc)

/-- `editor.findCommonAncestor(shapes, predicate?)`. -/
def findCommonAncestor (st : Store) (ids : List Nat)
    (pred : Option (Shape → Bool)) : Option Nat :=
  match ids with
  | [] => none
  | _ :: _ =>
    match ids.filterMap (getShape st) with
    | [] => none
    | [f0] =>
      match f0.parentId with
      | .page _ => none
      | .shape p =>
        match pred with
        | some pr => (findShapeAncestorF st st.shapes.length (some f0.id) pr).map (fun a => a.id)
        | none => some p
    | nodeA :: others =>
      findCommonAncestorWalk st (others.map (fun s => s.id)) pred
        st.shapes.length (getShapeParentOf st nodeA)

/-- `editor.getAncestorPageId(shape)` (fuel-indexed). -/
def getAncestorPageIdF (st : Store) : Nat → Option Nat → Option Nat
  | _, none => none
  | fuel, some i =>
    match getShape st i with
    | none => none
    | some s =>
      match s.parentId with
      | .page pg => some pg
      | .shape p =>
        match fuel with
        | 0 => none
        | f + 1 => getAncestorPageIdF st f ((getShape st p).map (fun t => t.id))

/-- `editor.getAncestorPageId` with the store-size fuel. -/
def getAncestorPageId (st : Store) (i : Nat) : Option Nat :=
  getAncestorPageIdF st st.shapes.length (some i)

/-- `editor.isShapeOrAncestorLocked(shape)` (fuel-indexed). -/
def isShapeOrAncestorLockedF (st : Store) : Nat → Option Shape → Bool
  | _, none => false
  | fuel, some s =>
    if s.isLocked then true
    else
      match fuel with
      | 0 => false
      | f + 1 => isShapeOrAncestorLockedF st f (getShapeParentOf st s)

/- ------------------------------------------------------------------ -/
/- Child index and fractional indices.                                 -/
/- ------------------------------------------------------------------ -/

/-- Insertion step for sorting sibling records by their fractional index. -/
def insertByIndex (s : Shape) : List Shape → List Shape
  | [] => [s]
  | t :: ts => if s.index ≤ t.index then s :: t :: ts else t :: insertByIndex s ts

/-- Sort sibling records by fractional index (insertion sort). -/
def sortByIndex (l : List Shape) : List Shape := l.foldr insertByIndex []

/-- Modelled from the spec: the child index ("parent-id → ordered child-id
list, ordered by order key"); the `parentsToChildren` derivation is in
`derivations/parentsToChildren.ts`, not among the provided sources. Embeds
`editor.getSortedChildIdsForParent`. -/
def getSortedChildIdsForParent (st : Store) (p : ParentId) : List Nat :=
  (sortByIndex (st.shapes.filter (fun s => s.parentId == p))).map (fun s => s.id)

/-- Modelled from the spec: fractional order keys ("inserting a new value
strictly between any two existing keys"), realised in `ℚ`; the actual string
keys come from the external `getIndexAbove` utility. -/
def getIndexAbove (i : ℚ) : ℚ := i + 1

/-- Modelled from the spec: a key strictly between two keys. -/
def getIndexBetween (a b : ℚ) : ℚ := (a + b) / 2

/-- Modelled from the spec: `n` fresh keys above `i`. -/
def getIndicesAbove (i : ℚ) (n : Nat) : List ℚ :=
  (List.range n).map (fun k : Nat => i + 1 + (k : ℚ))

/-- Modelled from the spec: `n` fresh keys strictly between `a` and `b`. -/
def getIndicesBetween (a b : ℚ) (n : Nat) : List ℚ :=
  (List.range n).map (fun k : Nat => a + ((k : ℚ) + 1) * (b - a) / (n + 1))

/-- Modelled from the spec: `n` base keys for an empty parent. -/
def getIndices (n : Nat) : List ℚ :=
  (List.range n).map (fun k : Nat => (k : ℚ) + 1)

/- ------------------------------------------------------------------ -/
/- Shape updates (`updateShapes`) and the store write primitives.      -/
/- ------------------------------------------------------------------ -/

/-- A `TLShapePartial`, restricted to the fields the embedded code writes. A
`some` field means the key is present in the partial. -/
structure ShapePartial where
  id : Nat
  x : Option ℚ := none
  y : Option ℚ := none
  rot : Option Rot := none
  parentId : Option ParentId := none
  index : Option ℚ := none
  isLocked : Option Bool := none
  props : Option Props := none

/-- `applyPartialToShape`: merge a partial into a record (the `id`/`type` keys
are never overwritten). -/
def applyPartialToShape (s : Shape) (p : ShapePartial) : Shape :=
  { s with
    x := p.x.getD s.x
    y := p.y.getD s.y
    rot := p.rot.getD s.rot
    parentId := p.parentId.getD s.parentId
    index := p.index.getD s.index
    isLocked := p.isLocked.getD s.isLocked
    props := p.props.getD s.props }

/-- `store.put([u])` for a single record: replace the records with the same id,
or append the record if its id is new. -/
def putOne (st : Store) (u : Shape) : Store :=
  if st.shapes.any (fun s => s.id == u.id) then
    { st with shapes := st.shapes.map (fun s => if s.id == u.id then u else s) }
  else
    { st with shapes := st.shapes ++ [u] }

/-- `store.put(records)`. -/
def storePut (st : Store) (us : List Shape) : Store := us.foldl putOne st

/-- `store.remove(ids)`. -/
def storeRemove (st : Store) (ids : List Nat) : Store :=
  { st with shapes := st.shapes.filter (fun s => !(ids.contains s.id)) }

/-- `editor.updateShapes(partials)`: drop partials whose target is missing, or
locked (directly or through an ancestor) unless the partial carries the
`isLocked` key; then apply the surviving partials against the current store
and put the results. (The code's `updated === shape` fast path skips putting an
unchanged record, which leaves the same store contents.) -/
def updateShapes (st : Store) (ps : List ShapePartial) : Store :=
  if st.isReadonly then st
  else
    storePut st
      ((ps.filter fun p =>
          match getShape st p.id with
          | none => false
          | some s =>
            !(isShapeOrAncestorLockedF st st.shapes.length (some s) && p.isLocked.isNone)).filterMap
        fun p => (getShape st p.id).map fun s => applyPartialToShape s p)

/- ------------------------------------------------------------------ -/
/- `reparentShapes`.                                                   -/
/- ------------------------------------------------------------------ -/

/-- The `indices` computed by `reparentShapes` for the moved shapes: at the
requested insertion point (between colliding/next-higher siblings), or above
the current top sibling. -/
def reparentIndices (sibs : List Shape) (insertIndex : Option ℚ) (n : Nat) : List ℚ :=
  match insertIndex with
  | some idx =>
    match sibs.find? (fun s => s.index == idx) with
    | some _ =>
      match sibs[sibs.findIdx (fun s => s.index == idx) + 1]? with
      | some sibAbove => getIndicesBetween idx sibAbove.index n
      | none => getIndicesAbove idx n
    | none =>
      match (sortByIndex sibs).find? (fun s => idx < s.index) with
      | some sibAbove => getIndicesBetween idx sibAbove.index n
      | none => getIndicesAbove idx n
  | none =>
    match sibs.getLast? with
    | some sib => getIndicesAbove sib.index n
    | none => getIndices n

/-- The unlock step of `reparentShapes`: when some moved shapes are locked,
unlock them before the structural write. -/
def reparentUnlockedStore (st : Store) (shapesToReparent : List Shape) : Store :=
  let lockedShapes := shapesToReparent.filter (fun s => s.isLocked)
  if lockedShapes.isEmpty then st
  else updateShapes st (lockedShapes.map fun s => { id := s.id, isLocked := some false })

/-- One change record built by `reparentShapes`: new parent, page position and
rotation pulled into the new parent's local space, destination index, and the
original lock flag (re-locking locked shapes). -/
def reparentChange (st1 : Store) (invertedParentTransform : Mat)
    (parentPageRotation : Rot) (parentId : ParentId) (si : Shape × ℚ) : ShapePartial :=
  let pageTransform := getShapePageTransform st1 si.1.id
  let newPoint := invertedParentTransform.applyToPoint pageTransform.point
  { id := si.1.id
    parentId := some parentId
    x := some newPoint.x
    y := some newPoint.y
    rot := some (Rot.sub pageTransform.rotation parentPageRotation)
    index := some si.2
    isLocked := some si.1.isLocked }

/-- `editor.reparentShapes(ids, parentId, insertIndex?)`: compute sibling
indices at the destination, temporarily unlock locked shapes, rewrite each
moved shape's `(x, y, rotation)` through the inverse of the new parent's page
transform (so the page placement is preserved), set the new parent and index,
and restore each shape's lock flag. -/
def reparentShapes (st : Store) (ids : List Nat) (parentId : ParentId)
    (insertIndex : Option ℚ) : Store :=
  match ids with
  | [] => st
  | _ :: _ =>
    let parentTransform := match parentId with
      | .page _ => Mat.identity
      | .shape p => getShapePageTransform st p
    let sibs := (getSortedChildIdsForParent st parentId).filterMap (getShape st)
    let indices := reparentIndices sibs insertIndex ids.length
    let shapesToReparent := ids.filterMap (getShape st)
    let st1 := reparentUnlockedStore st shapesToReparent
    updateShapes st1
      ((shapesToReparent.zip indices).map
        (reparentChange st1 parentTransform.invert parentTransform.rotation parentId))

/- ------------------------------------------------------------------ -/
/- Arrow bindings, unbinding on delete, `reparentArrow`.               -/
/- ------------------------------------------------------------------ -/

/-- Read an arrow terminal by handle tag. -/
def getTerminal (p : Props) (h : HandleId) : Option Terminal :=
  match p, h with
  | .arrowProps a _, .hstart => some a
  | .arrowProps _ b, .hend => some b
  | .otherProps, _ => none

/-- Write an arrow terminal by handle tag. -/
def setTerminal (p : Props) (h : HandleId) (t : Terminal) : Props :=
  match p, h with
  | .arrowProps _ b, .hstart => .arrowProps t b
  | .arrowProps a _, .hend => .arrowProps a t
  | .otherProps, _ => .otherProps

/-- Modelled from the spec: one record's contribution to the arrow-bindings
index — the `(arrowId, handleId)` pairs of its terminals bound to the target. -/
def bindingContrib (target : Nat) (s : Shape) : List (Nat × HandleId) :=
  if s.stype == SType.arrow then
    match s.props with
    | .arrowProps a b =>
      (if a == Terminal.binding target then [(s.id, HandleId.hstart)] else []) ++
      (if b == Terminal.binding target then [(s.id, HandleId.hend)] else [])
    | .otherProps => []
  else []

/-- Modelled from the spec: the arrow-bindings index ("an endpoint reference
from a connector shape to a target shape id plus a handle tag"); the
`arrowBindingsIndex` derivation is in `derivations/arrowBindingsIndex.ts`, not
among the provided sources. Lists `(arrowId, handleId)` for every arrow
terminal bound to the target. -/
def bindingsTo (st : Store) (target : Nat) : List (Nat × HandleId) :=
  st.shapes.foldr (fun s acc => bindingContrib target s ++ acc) []

/-- Modelled from the spec: `getArrowTerminalsInArrowSpace` (in
`shapes/shared/arrow/shared.ts`, not among the provided sources) — "that
endpoint's last resolved page-space position", expressed in the arrow's local
space. A `point` terminal already stores arrow-space coordinates; a `binding`
terminal resolves to the bound shape's page-space origin pulled back through
the inverse of the arrow's page transform. -/
def getArrowTerminalsInArrowSpace (st : Store) (arrow : Shape) (h : HandleId) : Vec :=
  match getTerminal arrow.props h with
  | some (.point x y) => ⟨x, y⟩
  | some (.binding b) =>
    (getShapePageTransform st arrow.id).invert.applyToPoint
      ((getShapePageTransform st b).point)
  | none => ⟨0, 0⟩

/-- `unbindArrowTerminal(arrow, handleId)`: replace the terminal by a `point`
terminal at its current arrow-space position. -/
def unbindArrowTerminal (st : Store) (arrow : Shape) (h : HandleId) : Store :=
  let v := getArrowTerminalsInArrowSpace st arrow h
  storePut st [{ arrow with props := setTerminal arrow.props h (Terminal.point v.x v.y) }]

/-- One binding-cleanup step of the `beforeDelete` shape side effect: look the
arrow up in the current store and unbind the recorded handle. -/
def unbindStep (acc : Store) (pr : Nat × HandleId) : Store :=
  match getShape acc pr.1 with
  | none => acc
  | some arrow => unbindArrowTerminal acc arrow pr.2

/-- The arrow-related part of the `beforeDelete` shape side effect: for every
binding to the record being deleted, unbind the corresponding arrow terminal.
(The effect's other work — parent `onChildrenChange` scheduling and page-state
cleanup — touches records outside this model.) -/
def beforeDeleteShape (st : Store) (record : Shape) : Store :=
  (bindingsTo st record.id).foldl unbindStep st

/-- The ids visited by `visitDescendants` (fuel-indexed). -/
def descendantIdsF (st : Store) : Nat → Nat → List Nat
  | 0, _ => []
  | fuel + 1, i =>
    (getSortedChildIdsForParent st (.shape i)).flatMap
      (fun c => c :: descendantIdsF st fuel c)

/-- Insertion-ordered deduplication (a JS `Set` keeps the first occurrence). -/
def uniqFirst (l : List Nat) : List Nat :=
  l.foldl (fun acc a => if a ∈ acc then acc else acc ++ [a]) []

/-- `editor.deleteShapes(ids)`: drop locked ids, extend to descendants, then —
per removed record — run the `beforeDelete` side effect and remove the record. -/
def deleteShapes (st : Store) (ids : List Nat) : Store :=
  if st.isReadonly then st
  else if (ids.filter
      (fun i => !(((getShape st i).map (fun s => s.isLocked)).getD false))).isEmpty then st
  else
    (uniqFirst
      ((ids.filter (fun i => !(((getShape st i).map (fun s => s.isLocked)).getD false))) ++
        (ids.filter
          (fun i => !(((getShape st i).map (fun s => s.isLocked)).getD false))).flatMap
          (fun i => descendantIdsF st st.shapes.length i))).foldl
      (fun acc i =>
        match getShape acc i with
        | none => acc
        | some r => storeRemove (beforeDeleteShape acc r) [i])
      st

/-- `editor.getShapeNearestSibling(siblingShape, targetShape)`: the target
itself when it is a sibling, else its ancestor that is a sibling. -/
def getShapeNearestSibling (st : Store) (siblingShape : Shape)
    (targetShape : Option Shape) : Option Shape :=
  match targetShape with
  | none => none
  | some t =>
    if t.parentId == siblingShape.parentId then some t
    else
      findShapeAncestorF st st.shapes.length (some t.id)
        (fun anc => anc.parentId == siblingShape.parentId)

/-- The `nextParentId` choice of `reparentArrow`: common ancestor of the two
bound shapes (the page if none) for two bindings; the bound shape's parent when
it matches the arrow's current parent, else the page, for one binding; nothing
(the effect returns early) for none. -/
def arrowNextParentId (st : Store) (arrow : Shape) (startShape endShape : Option Shape)
    (parentPageId : Nat) : Option ParentId :=
  match startShape, endShape with
  | some ss, some es =>
    some (((findCommonAncestor st [ss.id, es.id] none).map ParentId.shape).getD
      (ParentId.page parentPageId))
  | some ss, none =>
    some (if ss.parentId == arrow.parentId then arrow.parentId
          else ParentId.page parentPageId)
  | none, some es =>
    some (if es.parentId == arrow.parentId then arrow.parentId
          else ParentId.page parentPageId)
  | none, none => none

/-- The `highestSibling` choice of `reparentArrow`: of the two bound shapes'
nearest siblings, the one with the higher fractional index. -/
def arrowHighestSibling (st1 : Store) (reparentedArrow : Shape)
    (startShape endShape : Option Shape) : Option Shape :=
  match getShapeNearestSibling st1 reparentedArrow startShape,
        getShapeNearestSibling st1 reparentedArrow endShape with
  | some s1, some s2 => some (if s2.index < s1.index then s1 else s2)
  | some s1, none => some s1
  | none, some s2 => some s2
  | none, none => none

/-- The `higherSiblings` of `reparentArrow`: siblings above the highest bound
sibling, in index order. -/
def arrowHigherSiblings (st1 : Store) (hSib : Shape) : List Shape :=
  ((getSortedChildIdsForParent st1 hSib.parentId).filterMap (getShape st1)).filter
    (fun s => hSib.index < s.index)

/-- The index-fixing tail of `reparentArrow`: raise the arrow's sibling index
above its highest bound sibling; `none` embeds the
`throw Error('no reparented arrow')` path. -/
def arrowIndexTail (st1 : Store) (arrowId : Nat)
    (startShape endShape : Option Shape) : Option Store :=
  match getShape st1 arrowId with
  | none => none
  | some reparentedArrow =>
    match arrowHighestSibling st1 reparentedArrow startShape endShape with
    | none => some st1
    | some hSib =>
      match arrowHigherSiblings st1 hSib with
      | [] =>
        if getIndexAbove hSib.index != reparentedArrow.index then
          some (updateShapes st1
            [{ id := arrowId, index := some (getIndexAbove hSib.index) }])
        else some st1
      | first :: rest =>
        if hSib.index < reparentedArrow.index &&
            (match (first :: rest).find? (fun s => !(s.stype == SType.arrow)) with
             | none => true
             | some nna => reparentedArrow.index < nna.index) then
          some st1
        else
          if getIndexBetween hSib.index first.index != reparentedArrow.index then
            some (updateShapes st1
              [{ id := arrowId, index := some (getIndexBetween hSib.index first.index) }])
          else some st1

/-- `reparentArrow(arrowId)` (the binding-consistency side effect): choose the
arrow's parent from its bound shapes — common ancestor for two bindings, the
bound shape's parent or the page for one — reparent if needed, then fix the
arrow's sibling index to sit above its highest bound sibling. `none` embeds the
`throw Error('no reparented arrow')` path (and a call on a non-arrow record,
which would fault reading `props.start`). -/
def reparentArrow (st : Store) (arrowId : Nat) : Option Store :=
  match getShape st arrowId with
  | none => some st
  | some arrow =>
    match arrow.props with
    | .otherProps => none
    | .arrowProps a b =>
      let startShape := match a with | .binding sId => getShape st sId | _ => none
      let endShape := match b with | .binding eId => getShape st eId | _ => none
      match getAncestorPageId st arrowId with
      | none => some st
      | some parentPageId =>
        match arrowNextParentId st arrow startShape endShape parentPageId with
        | none => some st
        | some nextParentId =>
          arrowIndexTail
            (if nextParentId != arrow.parentId then
              reparentShapes st [arrowId] nextParentId none
             else st)
            arrowId startShape endShape

/-- Every record's shape parent is present in the store (the well-formedness
the editor maintains; `hasAncestor` and `findCommonAncestor` agree on lowest
common ancestors only on such stores). -/
def parentsPresent (st : Store) : Bool :=
  st.shapes.all (fun s =>
    match s.parentId with
    | ParentId.page _ => true
    | ParentId.shape p => (getShape st p).isSome)

/- ------------------------------------------------------------------ -/
/- Geometry primitives: boxes and point-in-polygon.                    -/
/- ------------------------------------------------------------------ -/

/-- Modelled from the spec: an axis-aligned box ("axis-aligned box of
page-transformed vertices"); the code's `Box` class is in `primitives/Box.ts`,
not among the provided sources. -/
structure Box where
  x : ℚ
  y : ℚ
  w : ℚ
  h : ℚ
deriving DecidableEq

/-- Modelled from the spec: `box.containsPoint(point, margin)` — the point lies
in the box expanded by the margin. -/
def Box.containsPoint (b : Box) (p : Vec) (m : ℚ) : Bool :=
  decide (b.x - m ≤ p.x) && decide (p.x ≤ b.x + b.w + m) &&
  decide (b.y - m ≤ p.y) && decide (p.y ≤ b.y + b.h + m)

/-- Modelled from the spec: `a.contains(b)` — box `b` lies strictly inside box
`a` ("the shape is bigger than the viewport"). -/
def Box.containsBox (a b : Box) : Bool :=
  decide (a.x < b.x) && decide (a.y < b.y) &&
  decide (b.x + b.w < a.x + a.w) && decide (b.y + b.h < a.y + a.h)

/-- The corners of a box, counter-clockwise from the origin corner. -/
def Box.corners (b : Box) : List Vec :=
  [⟨b.x, b.y⟩, ⟨b.x + b.w, b.y⟩, ⟨b.x + b.w, b.y + b.h⟩, ⟨b.x, b.y + b.h⟩]

/-- Modelled from the spec: `Box.FromPoints` — the bounding box of a point set. -/
def boxFromPoints (ps : List Vec) : Box :=
  match ps with
  | [] => ⟨0, 0, 0, 0⟩
  | p :: rest =>
    let lo := rest.foldl (fun acc q => (min acc.1 q.x, min acc.2 q.y)) (p.x, p.y)
    let hi := rest.foldl (fun acc q => (max acc.1 q.x, max acc.2 q.y)) (p.x, p.y)
    ⟨lo.1, lo.2, hi.1 - lo.1, hi.2 - lo.2⟩

/-- Modelled from the spec: the `pointInPolygon` primitive used to test a point
against a clip mask (`primitives/utils.ts`, not among the provided sources);
standard even-odd ray crossing. A polygon with no vertices contains nothing. -/
def pointInPolygon (p : Vec) (poly : List Vec) : Bool :=
  (poly.zip (poly.drop 1 ++ poly.take 1)).foldl
    (fun inside e =>
      if decide (p.y < e.1.y) != decide (p.y < e.2.y) then
        if p.x < e.1.x + (p.y - e.1.y) * (e.2.x - e.1.x) / (e.2.y - e.1.y) then !inside
        else inside
      else inside)
    false

/-- The `_getShapeMaskedPageBoundsCache` body, as a function of the shape's
cached page bounds and clip mask (mask construction itself needs the external
`intersectPolygonPolygon`, passed in as `ipp`): no page bounds ⇒ none; no mask
⇒ the page bounds; a zero-vertex mask ⇒ none; a mask equal to the bounds
corners ⇒ the page bounds; else the bounding box of the mask ∩ corners
intersection (none when empty). -/
def maskedPageBoundsCalc (ipp : List Vec → List Vec → Option (List Vec))
    (pageBounds : Option Box) (pageMask : Option (List Vec)) : Option Box :=
  match pageBounds with
  | none => none
  | some pb =>
    match pageMask with
    | none => some pb
    | some mask =>
      if mask.length == 0 then none
      else if 4 ≤ mask.length && pb.corners == mask.take 4 then some pb
      else
        match ipp mask pb.corners with
        | none => none
        | some intersection => some (boxFromPoints intersection)

/- ------------------------------------------------------------------ -/
/- The hit-test engine (`getShapeAtPoint`).                            -/
/- ------------------------------------------------------------------ -/

/-- One child of a composite (`Group2d`) geometry, restricted to the
observables `getShapeAtPoint` reads. The Geometry Provider Registry is an
external collaborator, so child geometries are data here. -/
structure HGeomChild where
  isLabel : Bool
  isFilled : Bool
  isPointInBounds : Vec → Bool
  distanceToPoint : Vec → Bool → ℚ

/-- A shape's geometry (`Geometry2d`), restricted to the observables
`getShapeAtPoint` reads; `children = some _` embeds `geometry instanceof
Group2d`. -/
structure HGeom where
  isClosed : Bool
  isFilled : Bool
  area : ℚ
  bounds : Box
  children : Option (List HGeomChild)
  distanceToPoint : Vec → Bool → ℚ
  hitTestPoint : Vec → ℚ → Bool → Bool

/-- A shape as the hit-test engine consumes it: the record fields it branches
on together with its cached derivations (geometry, clip mask, page bounds, and
the page-to-local map `getPointInShapeSpace`). -/
structure HShape where
  id : Nat
  stype : SType
  fillNone : Bool
  textNonempty : Bool
  geometry : HGeom
  mask : Option (List Vec)
  pageBounds : Box
  toLocal : Vec → Vec

/-- The options of `getShapeAtPoint`. -/
structure HitOpts where
  margin : ℚ
  hitInside : Bool
  hitLabels : Bool
  hitFrameInside : Bool
  filter : Option (HShape → Bool)

/-- The ambient editor state `getShapeAtPoint` reads: the zoom level, the
viewport page bounds, and the `HIT_TEST_MARGIN` constant (external
`constants.ts`). -/
structure HitEnv where
  zoomLevel : ℚ
  viewportPageBounds : Box
  hitTestMargin : ℚ

/-- The label check: an arrow, or an unfilled geo shape, with nonempty text,
whose geometry has a label child containing the point. -/
def labelHitB (pt : Vec) (s : HShape) : Bool :=
  ((s.stype == SType.arrow || (s.stype == SType.geo && s.fillNone)) && s.textNonempty) &&
  (s.geometry.children.getD []).any
    (fun c => c.isLabel && c.isPointInBounds (s.toLocal pt))

/-- Minimum distance over the non-label children of a composite geometry
(`none` = `Infinity`: no child measured). -/
def groupMinDistance (cs : List HGeomChild) (pips : Vec)
    (hitLabels hitInside : Bool) : Option ℚ :=
  cs.foldl
    (fun acc c =>
      if c.isLabel && !hitLabels then acc
      else
        let t := c.distanceToPoint pips hitInside
        match acc with
        | none => some t
        | some m => if t < m then some t else some m)
    none

/-- The `distance` computed per shape by `getShapeAtPoint` (`none` =
`Infinity`, the failed broad phase): minimum child distance for composite
geometry; else the actual distance when the margin is zero and the bounds are
thin, or when the broad-phase bounds check passes. -/
def shapeDistance (opts : HitOpts) (s : HShape) (pips : Vec) : Option ℚ :=
  match s.geometry.children with
  | some cs => groupMinDistance cs pips opts.hitLabels opts.hitInside
  | none =>
    if opts.margin == 0 && (decide (s.geometry.bounds.w < 1) || decide (s.geometry.bounds.h < 1)) then
      some (s.geometry.distanceToPoint pips opts.hitInside)
    else if s.geometry.bounds.containsPoint pips opts.margin then
      some (s.geometry.distanceToPoint pips opts.hitInside)
    else none

/-- Whether the closed-shape immediate-hit test treats the shape as filled:
`geometry.isFilled || (isGroup && geometry.children[0].isFilled)`. -/
def filledish (g : HGeom) : Bool :=
  g.isFilled || (match g.children with | some (c :: _) => c.isFilled | _ => false)

/-- Result of the candidate loop: an immediate return, or falling through with
the two tracked candidates (in-margin closest-to-edge, smallest-area hollow). -/
inductive LoopRes where
  | ret (r : Option HShape)
  | fell (im ih : Option (ℚ × HShape))

/-- The candidate loop of `getShapeAtPoint`, from topmost to bottommost. The
two accumulators pair the code's `inMarginClosestToEdgeDistance` /
`inMarginClosestToEdgeHit` (resp. `inHollowSmallestArea` /
`inHollowSmallestAreaHit`) variables; `none` is the initial
(`Infinity`, `null`) state. -/
def hitLoop (pt : Vec) (opts : HitOpts) (env : HitEnv) :
    List HShape → Option (ℚ × HShape) → Option (ℚ × HShape) → LoopRes
  | [], im, ih => .fell im ih
  | s :: rest, im, ih =>
    let g := s.geometry
    let pips := s.toLocal pt
    if labelHitB pt s then .ret (some s)
    else if s.stype == SType.frame then
      let distance := g.distanceToPoint pips opts.hitInside
      if |distance| ≤ opts.margin then .ret (some ((im.map Prod.snd).getD s))
      else if g.hitTestPoint pips 0 true then
        .ret ((im.map Prod.snd) <|> (ih.map Prod.snd) <|>
          (if opts.hitFrameInside then some s else none))
      else hitLoop pt opts env rest im ih
    else
      let distance := shapeDistance opts s pips
      if g.isClosed then
        match distance with
        | none => hitLoop pt opts env rest im ih
        | some d =>
          if d ≤ opts.margin then
            if filledish g then .ret (some ((im.map Prod.snd).getD s))
            else if s.pageBounds.containsBox env.viewportPageBounds then
              hitLoop pt opts env rest im ih
            else if |d| < opts.margin then
              let im' := match im with
                | none => some (|d|, s)
                | some (d0, c0) => if |d| < d0 then some (|d|, s) else some (d0, c0)
              hitLoop pt opts env rest im' ih
            else if im.isNone then
              let ih' := match ih with
                | none => some (g.area, s)
                | some (a0, c0) => if g.area < a0 then some (g.area, s) else some (a0, c0)
              hitLoop pt opts env rest im ih'
            else hitLoop pt opts env rest im ih
          else hitLoop pt opts env rest im ih
      else
        match distance with
        | none => hitLoop pt opts env rest im ih
        | some d =>
          if d < env.hitTestMargin / env.zoomLevel then .ret (some s)
          else hitLoop pt opts env rest im ih

/-- The candidate pre-filter (`shapesToCheck`): drop groups, shapes whose clip
mask excludes the point, and shapes rejected by the caller's filter. -/
def shapesToCheck (pt : Vec) (opts : HitOpts) (shapes : List HShape) : List HShape :=
  shapes.filter fun s =>
    !(s.stype == SType.group) &&
    (match s.mask with | some pm => pointInPolygon pt pm | none => true) &&
    (match opts.filter with | some f => f s | none => true)

/-- `editor.getShapeAtPoint(point, opts)`: run the candidate loop (topmost
first) over the pre-filtered sorted shapes of the current page
(bottommost-first input), and on fall-through return the in-margin candidate,
else the smallest-area hollow candidate, else nothing. -/
def getShapeAtPoint (pt : Vec) (opts : HitOpts) (env : HitEnv)
    (shapes : List HShape) : Option HShape :=
  match hitLoop pt opts env (shapesToCheck pt opts shapes).reverse none none with
  | .ret r => r
  | .fell im ih => (im.map Prod.snd) <|> (ih.map Prod.snd)

/-- `editor.isPointInShape(shape, point, opts)`: a definite miss when the clip
mask excludes the point, else the geometry's own hit test in shape space. -/
def isPointInShape (s : HShape) (pt : Vec) (margin : ℚ) (hitInside : Bool) : Bool :=
  match s.mask with
  | some pm =>
    if !(pointInPolygon pt pm) then false
    else s.geometry.hitTestPoint (s.toLocal pt) margin hitInside
  | none => s.geometry.hitTestPoint (s.toLocal pt) margin hitInside

/- ------------------------------------------------------------------ -/
/- Hit-test qualifier predicates (for stating the tie-break policy).   -/
/- ------------------------------------------------------------------ -/

/-- A shape the loop records as an in-margin candidate: no label hit, not a
frame, closed, distance within margin, not filled, not larger than the
viewport, and strictly within margin of the edge. -/
def marginQual (pt : Vec) (opts : HitOpts) (env : HitEnv) (s : HShape) : Bool :=
  !(labelHitB pt s) && !(s.stype == SType.frame) && s.geometry.isClosed &&
  (match shapeDistance opts s (s.toLocal pt) with
   | some d =>
     decide (d ≤ opts.margin) && !(filledish s.geometry) &&
     !(s.pageBounds.containsBox env.viewportPageBounds) && decide (|d| < opts.margin)
   | none => false)

/-- A shape the loop records as a hollow smallest-area candidate: as for the
in-margin candidate but not strictly within margin of the edge (at margin 0
this is a hollow closed shape containing the point). -/
def hollowQual (pt : Vec) (opts : HitOpts) (env : HitEnv) (s : HShape) : Bool :=
  !(labelHitB pt s) && !(s.stype == SType.frame) && s.geometry.isClosed &&
  (match shapeDistance opts s (s.toLocal pt) with
   | some d =>
     decide (d ≤ opts.margin) && !(filledish s.geometry) &&
     !(s.pageBounds.containsBox env.viewportPageBounds) && !(decide (|d| < opts.margin))
   | none => false)

/-- The absolute edge distance of a shape (meaningful on qualifiers). -/
def mdist (pt : Vec) (opts : HitOpts) (s : HShape) : ℚ :=
  match shapeDistance opts s (s.toLocal pt) with
  | some d => |d|
  | none => 0

/-- The immediate-return decision of one candidate-loop step: `some r` when the
loop returns `r` at this shape, `none` when it falls through to the next shape.
Mirrors the return branches of `hitLoop`; which branch fires never depends on
the accumulators, only the returned value does. -/
def stepRet (pt : Vec) (opts : HitOpts) (env : HitEnv) (s : HShape)
    (im ih : Option (ℚ × HShape)) : Option (Option HShape) :=
  if labelHitB pt s then some (some s)
  else if s.stype == SType.frame then
    if |s.geometry.distanceToPoint (s.toLocal pt) opts.hitInside| ≤ opts.margin then
      some (some ((im.map Prod.snd).getD s))
    else if s.geometry.hitTestPoint (s.toLocal pt) 0 true then
      some ((im.map Prod.snd) <|> (ih.map Prod.snd) <|>
        (if opts.hitFrameInside then some s else none))
    else none
  else if s.geometry.isClosed then
    match shapeDistance opts s (s.toLocal pt) with
    | none => none
    | some d =>
      if d ≤ opts.margin then
        if filledish s.geometry then some (some ((im.map Prod.snd).getD s)) else none
      else none
  else
    match shapeDistance opts s (s.toLocal pt) with
    | none => none
    | some d => if d < env.hitTestMargin / env.zoomLevel then some (some s) else none

/-- The in-margin accumulator update of one (falling-through) candidate-loop
step: record the shape when it qualifies and its edge distance beats the
incumbent. -/
def stepIm (pt : Vec) (opts : HitOpts) (env : HitEnv) (im : Option (ℚ × HShape))
    (s : HShape) : Option (ℚ × HShape) :=
  if marginQual pt opts env s then
    match im with
    | none => some (mdist pt opts s, s)
    | some (d0, c0) =>
      if mdist pt opts s < d0 then some (mdist pt opts s, s) else some (d0, c0)
  else im

/-- The hollow smallest-area accumulator update of one (falling-through)
candidate-loop step; only consulted while no in-margin candidate is held. -/
def stepIh (pt : Vec) (opts : HitOpts) (env : HitEnv) (im ih : Option (ℚ × HShape))
    (s : HShape) : Option (ℚ × HShape) :=
  if hollowQual pt opts env s && im.isNone then
    match ih with
    | none => some (s.geometry.area, s)
    | some (a0, c0) =>
      if s.geometry.area < a0 then some (s.geometry.area, s) else some (a0, c0)
  else ih

/-- Both accumulators folded over a list of falling-through candidates. -/
def candFold (pt : Vec) (opts : HitOpts) (env : HitEnv) :
    List HShape → Option (ℚ × HShape) × Option (ℚ × HShape) →
      Option (ℚ × HShape) × Option (ℚ × HShape)
  | [], acc => acc
  | s :: l, acc =>
    candFold pt opts env l (stepIm pt opts env acc.1 s, stepIh pt opts env acc.1 acc.2 s)

/-- Modelled from the spec: one step of the running-minimum selection ("the one
that had the shortest distance", "the hollow shape with the smallest area"):
record the shape when it qualifies and its key beats the incumbent strictly. -/
def minStep (key : HShape → ℚ) (qual : HShape → Bool)
    (acc : Option (ℚ × HShape)) (s : HShape) : Option (ℚ × HShape) :=
  if qual s then
    match acc with
    | none => some (key s, s)
    | some (d0, c0) => if key s < d0 then some (key s, s) else some (d0, c0)
  else acc

/-- Modelled from the spec: the tie-break selection ("return the margin-edge
candidate if any, else the smallest-area hollow candidate") as a running
minimum of a key over the qualifying shapes, earliest winner on ties. -/
def minByFold (key : HShape → ℚ) (qual : HShape → Bool) :
    List HShape → Option (ℚ × HShape) → Option (ℚ × HShape)
  | [], acc => acc
  | s :: l, acc => minByFold key qual l (minStep key qual acc s)

/- ------------------------------------------------------------------ -/
/- Drop-target selection (`getDroppingOverShape`).                     -/
/- ------------------------------------------------------------------ -/

/-- The ambient state `getDroppingOverShape` reads beyond the store: the
selection, the per-type `canDropShapes` capability (external shape utils), the
masked page bounds and point hit test (derived caches consuming external
geometry). -/
structure DropEnv where
  selectedShapeIds : List Nat
  canDropShapes : Shape → List Shape → Bool
  maskedPageBounds : Nat → Option Box
  hitTestInsideAt : Shape → Vec → Bool

/-- The candidate walk of `getDroppingOverShape`, topmost first: skip selected
shapes, shapes that cannot receive the dropped shapes, and — the explicit
ancestor walk — any shape that is one of the dropped shapes or a descendant of
one; accept the first remaining shape whose masked page bounds and geometry
contain the point. -/
def droppingLoop (st : Store) (env : DropEnv) (pt : Vec)
    (droppingShapes : List Shape) : List Shape → Option Shape
  | [] => none
  | s :: rest =>
    if env.selectedShapeIds.contains s.id ||
        !(env.canDropShapes s droppingShapes) ||
        (droppingShapes.any (fun d => d.id == s.id || hasAncestor st s.id d.id)) then
      droppingLoop st env pt droppingShapes rest
    else
      match env.maskedPageBounds s.id with
      | some mpb =>
        if mpb.containsPoint pt 0 && env.hitTestInsideAt s pt then some s
        else droppingLoop st env pt droppingShapes rest
      | none => droppingLoop st env pt droppingShapes rest

/-- `editor.getDroppingOverShape(point, droppingShapes)` over the sorted
shapes of the current page (bottommost-first input). -/
def getDroppingOverShape (st : Store) (env : DropEnv) (sortedShapes : List Shape)
    (pt : Vec) (droppingShapes : List Shape) : Option Shape :=
  droppingLoop st env pt droppingShapes sortedShapes.reverse

/- ------------------------------------------------------------------ -/
/- Projections used to state store-congruence lemmas.                  -/
/- ------------------------------------------------------------------ -/

/-- The fields of a record that page transforms depend on: id, parent, and the
local transform fields. -/
def coreOf (s : Shape) : Nat × ParentId × ℚ × ℚ × Rot :=
  (s.id, s.parentId, s.x, s.y, s.rot)

/-- Two stores agree, at an id, on the record fields page transforms read. -/
def coreEq (st st' : Store) (j : Nat) : Prop :=
  (getShape st j).map coreOf = (getShape st' j).map coreOf

instance (st st' : Store) (j : Nat) : Decidable (coreEq st st' j) := by
  unfold coreEq
  infer_instance

/-- The ids along a shape's parent chain (fuel-indexed), the shape included. -/
def chainIdsF (st : Store) : Nat → Nat → List Nat
  | 0, i => [i]
  | fuel + 1, i =>
    i ::
      (match getShape st i with
       | some s =>
         match s.parentId with
         | .shape p => chainIdsF st fuel p
         | .page _ => []
       | none => [])

/- ------------------------------------------------------------------ -/
/- Concrete stores and shapes used by witnesses and counterexamples.   -/
/- ------------------------------------------------------------------ -/

/-- A sample shape record builder for witnesses. -/
def sampleShape (i : Nat) (p : ParentId) (x y : ℚ) (r : Rot) : Shape :=
  ⟨i, p, x, y, r, (i : ℚ), false, SType.geo, Props.otherProps⟩

/-- Witness store: shape 1 on page 0, shape 2 a child of shape 1, shape 3 with
a missing parent record. -/
def storeA : Store :=
  ⟨[sampleShape 1 (.page 0) 2 3 ⟨0, 1⟩,
    sampleShape 2 (.shape 1) 5 7 ⟨1, 0⟩,
    sampleShape 3 (.shape 9) 1 1 ⟨1, 0⟩], [0], false⟩

/-- Counterexample store: shape 1 on page 0, shape 2 a child of shape 1. -/
def storeB : Store :=
  ⟨[sampleShape 1 (.page 0) 0 0 ⟨1, 0⟩,
    sampleShape 2 (.shape 1) 0 0 ⟨1, 0⟩], [0], false⟩

/-- The store after asking `reparentShapes` to move shape 1 under its own
child, shape 2. -/
def storeBAfter : Store := reparentShapes storeB [1] (ParentId.shape 2) none

/-- Witness data for drop-target selection: a frame on page 0 and a dropped
shape. -/
def dropFrame : Shape := ⟨1, .page 0, 0, 0, ⟨1, 0⟩, 1, false, SType.frame, Props.otherProps⟩

/-- The shape being dragged in the drop-target witness. -/
def dropShape : Shape := ⟨2, .page 0, 1, 1, ⟨1, 0⟩, 2, false, SType.geo, Props.otherProps⟩

/-- The store for the drop-target witness. -/
def storeDrop : Store := ⟨[dropFrame, dropShape], [0], false⟩

/-- The environment for the drop-target witness: nothing selected, frames can
receive drops, the frame occupies a 10 x 10 box. -/
def dropEnv : DropEnv :=
  ⟨[], fun s _ => s.stype == SType.frame,
   fun i => if i == 1 then some ⟨0, 0, 10, 10⟩ else none,
   fun _ _ => true⟩

/-- A rotated frame on the page, used as the reparent target in the round-trip
witness. -/
def frameW : Shape := ⟨1, .page 0, 10, 20, ⟨3/5, 4/5⟩, 1, false, SType.frame, Props.otherProps⟩

/-- A rotated shape on the page, the shape moved in the round-trip witness. -/
def shapeW : Shape := ⟨2, .page 0, 5, 7, ⟨4/5, -3/5⟩, 2, false, SType.geo, Props.otherProps⟩

/-- The store for the round-trip witness. -/
def storeW : Store := ⟨[frameW, shapeW], [0], false⟩

/-- A locked shape on the page, moved in the lock-preservation witness. -/
def lockedShape : Shape := ⟨3, .page 0, 1, 2, ⟨1, 0⟩, 3, true, SType.geo, Props.otherProps⟩

/-- The store for the lock-preservation witness. -/
def storeL : Store :=
  ⟨[sampleShape 1 (.page 0) 0 0 ⟨1, 0⟩, lockedShape], [0], false⟩

/-- A label child geometry containing every point. -/
def cexLabel : HGeomChild := ⟨true, false, fun _ => true, fun _ _ => 100⟩

/-- A closed hollow geometry carrying a label child. -/
def cexGeom : HGeom :=
  ⟨true, false, 100, ⟨0, 0, 40, 40⟩, some [cexLabel], fun _ _ => 0, fun _ _ _ => true⟩

/-- A hollow unfilled geo shape with page bounds bigger than the viewport and a
label containing the query point. -/
def cexShape10 : HShape :=
  ⟨7, SType.geo, true, true, cexGeom, none, ⟨-10, -10, 200, 200⟩, fun v => v⟩

/-- The same shape with empty text, so the label check cannot fire. -/
def skipShape10 : HShape :=
  ⟨7, SType.geo, true, false, cexGeom, none, ⟨-10, -10, 200, 200⟩, fun v => v⟩

/-- Hit options for the viewport-skip scenario: zero margin, no inside hits. -/
def opts10 : HitOpts := ⟨0, false, false, false, none⟩

/-- Hit environment for the viewport-skip scenario. -/
def env10 : HitEnv := ⟨1, ⟨0, 0, 100, 100⟩, 8⟩

/-- Query point for the viewport-skip scenario. -/
def pt10 : Vec := ⟨5, 5⟩

/-- A frame geometry whose border is at distance 0 from every point. -/
def frameGeom : HGeom :=
  ⟨true, true, 2500, ⟨0, 0, 50, 50⟩, none, fun _ _ => 0, fun _ _ _ => true⟩

/-- A frame shape for the frame-handling witness. -/
def frame4 : HShape :=
  ⟨11, SType.frame, false, false, frameGeom, none, ⟨0, 0, 50, 50⟩, fun v => v⟩

/-- Hit options for the frame-handling witness: margin 8. -/
def opts4 : HitOpts := ⟨8, false, false, false, none⟩

/-- A filled closed geometry for the zero-vertex-mask witness. -/
def maskGeom : HGeom :=
  ⟨true, true, 100, ⟨0, 0, 10, 10⟩, none, fun _ _ => 0, fun _ _ _ => true⟩

/-- A shape whose clip mask has zero vertices, though its geometry contains
every point. -/
def maskShape5 : HShape :=
  ⟨21, SType.geo, false, false, maskGeom, some [], ⟨0, 0, 10, 10⟩, fun v => v⟩

/-- A closed hollow geometry of a given area whose border passes through every
query point (edge distance 0). -/
def hollowGeo (ar : ℚ) : HGeom :=
  ⟨true, false, ar, ⟨0, 0, 40, 40⟩, none, fun _ _ => 0, fun _ _ _ => true⟩

/-- The area-100 hollow shape of the tie-break scenario. -/
def hollow100 : HShape :=
  ⟨31, SType.geo, false, false, hollowGeo 100, none, ⟨0, 0, 10, 10⟩, fun v => v⟩

/-- The area-400 hollow shape of the tie-break scenario. -/
def hollow400 : HShape :=
  ⟨32, SType.geo, false, false, hollowGeo 400, none, ⟨0, 0, 20, 20⟩, fun v => v⟩

/-- The deletion target of the unbind witness: a shape at page point (3, 4). -/
def tgtC6 : Shape := ⟨5, .page 0, 3, 4, ⟨1, 0⟩, 1, false, SType.geo, Props.otherProps⟩

/-- An arrow whose start terminal is bound to the deletion target. -/
def arrowC6 : Shape :=
  ⟨6, .page 0, 0, 0, ⟨1, 0⟩, 2, false, SType.arrow,
   Props.arrowProps (Terminal.binding 5) (Terminal.point 0 0)⟩

/-- The store of the unbind witness. -/
def storeC6 : Store := ⟨[tgtC6, arrowC6], [0], false⟩

/-- A frame holding both bound shapes of the connector-parent witness. -/
def frame7 : Shape := ⟨1, .page 0, 0, 0, ⟨1, 0⟩, 1, false, SType.frame, Props.otherProps⟩

/-- The start-bound shape of the connector-parent witness. -/
def shapeSS : Shape := ⟨2, .shape 1, 1, 1, ⟨1, 0⟩, 2, false, SType.geo, Props.otherProps⟩

/-- The end-bound shape of the connector-parent witness. -/
def shapeES : Shape := ⟨3, .shape 1, 2, 2, ⟨1, 0⟩, 3, false, SType.geo, Props.otherProps⟩

/-- The connector of the connector-parent witness, bound at both ends. -/
def arrow7 : Shape :=
  ⟨4, .page 0, 0, 0, ⟨1, 0⟩, 4, false, SType.arrow,
   Props.arrowProps (Terminal.binding 2) (Terminal.binding 3)⟩

/-- The store of the connector-parent witness. -/
def storeArr : Store := ⟨[frame7, shapeSS, shapeES, arrow7], [0], false⟩

end Tldraw

/- ==================================================================== -/
/- Theorems.                                                            -/
/- ==================================================================== -/

namespace Tldraw

/-- Composing with the identity on the left is the identity. -/
theorem Mat.identity_mul (m : Mat) : Mat.mul Mat.identity m = m := by
  cases m
  simp [Mat.mul, Mat.identity]

/-- The page-transform cache is stable once the fuel covers the parent chain. -/
theorem ptcF_stable (st : Store) :
    ∀ f i, chainOk st f (ParentId.shape i) = true →
      ∀ f', f ≤ f' → ptcF st f' i = ptcF st f i := by
  intro f
  induction f with
  | zero =>
    intro i h f' _
    have hnone : getShape st i = none := by
      simpa [chainOk, Option.isNone_iff_eq_none] using h
    cases f' with
    | zero => rfl
    | succ g => simp [ptcF, hnone]
  | succ g ih =>
    intro i h f' hle
    obtain ⟨g', rfl⟩ : ∃ g', f' = g' + 1 := ⟨f' - 1, by omega⟩
    cases hG : getShape st i with
    | none => simp [ptcF, hG]
    | some s =>
      have hch : chainOk st g s.parentId = true := by
        simpa [chainOk, hG] using h
      cases hp : s.parentId with
      | page pg => simp [ptcF, hG, hp]
      | shape p =>
        rw [hp] at hch
        simp [ptcF, hG, hp, ih p hch g' (by omega)]

/-- Claim C1: for a shape whose parent is a page, `getShapePageTransform`
equals the shape's local transform built from `(x, y, rotation)`; for a shape
whose parent is another shape, it equals the composition of the parent's page
transform with the shape's local transform; and when the parent record does
not exist in the store, the parent's cached transform falls back to the
identity matrix, so the result equals the shape's local transform. -/
theorem claim1_page_transform_recursion (st : Store) (s : Shape)
    (hs : getShape st s.id = some s)
    (hok : chainOk st st.shapes.length (ParentId.shape s.id) = true) :
    (∀ pg, s.parentId = ParentId.page pg →
       getShapePageTransform st s.id = localTransform s) ∧
    (∀ p, s.parentId = ParentId.shape p →
       getShapePageTransform st s.id =
         Mat.mul (getShapePageTransform st p) (localTransform s)) ∧
    (∀ p, s.parentId = ParentId.shape p → getShape st p = none →
       getShapePageTransform st s.id = localTransform s) := by
  have hmem : s ∈ st.shapes := by
    have := List.mem_of_find?_eq_some hs
    exact this
  have hpos : 0 < st.shapes.length := List.length_pos.mpr (by
    intro hnil
    rw [hnil] at hmem
    simp at hmem)
  obtain ⟨m, hm⟩ : ∃ m, st.shapes.length = m + 1 := ⟨st.shapes.length - 1, by omega⟩
  have hch : chainOk st m s.parentId = true := by
    rw [hm] at hok
    simpa [chainOk, hs] using hok
  refine ⟨?_, ?_, ?_⟩
  · intro pg hp
    simp [getShapePageTransform, hm, ptcF, hs, hp]
  · intro p hp
    rw [hp] at hch
    have hstab := ptcF_stable st m p hch (m + 1) (by omega)
    simp [getShapePageTransform, hm, ptcF, hs, hp, hstab]
  · intro p hp hnone
    rw [hp] at hch
    have hnone' : ptcF st m p = none := by
      cases m with
      | zero => rfl
      | succ k => simp [ptcF, hnone]
    simp [getShapePageTransform, hm, ptcF, hs, hp, hnone', Mat.identity_mul]

/-- Witness for C1: in `storeA`, shape 2's page transform composes shape 1's
page transform with its local transform, and shape 3 (missing parent record)
falls back to its local transform. -/
theorem claim1_witness :
    (getShape storeA 2 = some (sampleShape 2 (.shape 1) 5 7 ⟨1, 0⟩) ∧
     chainOk storeA storeA.shapes.length (ParentId.shape 2) = true ∧
     getShapePageTransform storeA 2 =
       Mat.mul (getShapePageTransform storeA 1)
         (localTransform (sampleShape 2 (.shape 1) 5 7 ⟨1, 0⟩))) ∧
    (getShape storeA 3 = some (sampleShape 3 (.shape 9) 1 1 ⟨1, 0⟩) ∧
     getShape storeA 9 = none ∧
     getShapePageTransform storeA 3 =
       localTransform (sampleShape 3 (.shape 9) 1 1 ⟨1, 0⟩)) :=
  ⟨⟨by decide, by decide,
    (claim1_page_transform_recursion storeA (sampleShape 2 (.shape 1) 5 7 ⟨1, 0⟩)
      (by decide) (by decide)).2.1 1 rfl⟩,
   ⟨by decide, by decide,
    (claim1_page_transform_recursion storeA (sampleShape 3 (.shape 9) 1 1 ⟨1, 0⟩)
      (by decide) (by decide)).2.2 9 rfl (by decide)⟩⟩

/- ------------------------------------------------------------------ -/
/- Store-write lemmas.                                                 -/
/- ------------------------------------------------------------------ -/

/-- A found shape record carries the id it was found under. -/
theorem getShape_id {st : Store} {i : Nat} {s : Shape} (h : getShape st i = some s) :
    s.id = i := by
  have := List.find?_some h
  simpa using this

/-- Replacing records of a different id does not change a lookup. -/
theorem find?_replace_ne (u : Shape) (j : Nat) (hne : u.id ≠ j) :
    ∀ l : List Shape,
      (l.map (fun s => if s.id == u.id then u else s)).find? (fun s => s.id == j) =
      l.find? (fun s => s.id == j) := by
  intro l
  induction l with
  | nil => rfl
  | cons a l ih =>
    simp only [List.map_cons]
    by_cases ha : a.id = u.id
    · rw [if_pos (by simpa using ha)]
      rw [List.find?_cons_of_neg _ (by simpa using hne),
          List.find?_cons_of_neg _ (by simp [ha, hne]), ih]
    · rw [if_neg (by simpa using ha)]
      by_cases haj : a.id = j
      · rw [List.find?_cons_of_pos _ (by simpa using haj),
            List.find?_cons_of_pos _ (by simpa using haj)]
      · rw [List.find?_cons_of_neg _ (by simpa using haj),
            List.find?_cons_of_neg _ (by simpa using haj), ih]

/-- Replacing the records with the put id makes the lookup find the new record. -/
theorem find?_replace_eq (u : Shape) :
    ∀ l : List Shape, l.any (fun s => s.id == u.id) = true →
      (l.map (fun s => if s.id == u.id then u else s)).find? (fun s => s.id == u.id) =
      some u := by
  intro l
  induction l with
  | nil => simp
  | cons a l ih =>
    intro hany
    simp only [List.map_cons]
    by_cases ha : a.id = u.id
    · rw [if_pos (by simpa using ha)]
      rw [List.find?_cons_of_pos _ (by simp)]
    · rw [if_neg (by simpa using ha)]
      rw [List.find?_cons_of_neg _ (by simpa using ha)]
      exact ih (by simpa [ha] using hany)

/-- Lookup after `putOne`: the put record under its id, otherwise unchanged. -/
theorem getShape_putOne (st : Store) (u : Shape) (j : Nat) :
    getShape (putOne st u) j = if u.id = j then some u else getShape st j := by
  by_cases hj : u.id = j
  · subst hj
    rw [if_pos rfl]
    unfold putOne
    by_cases hA : st.shapes.any (fun s => s.id == u.id) = true
    · simp only [hA, if_true]
      exact find?_replace_eq u st.shapes hA
    · simp only [Bool.not_eq_true] at hA
      simp only [hA, Bool.false_eq_true, if_false]
      show (st.shapes ++ [u]).find? (fun s => s.id == u.id) = some u
      have hnone : st.shapes.find? (fun s => s.id == u.id) = none := by
        rw [List.find?_eq_none]
        intro x hx
        intro hxx
        have : st.shapes.any (fun s => s.id == u.id) = true :=
          List.any_eq_true.mpr ⟨x, hx, hxx⟩
        rw [hA] at this
        exact absurd this (by simp)
      rw [List.find?_append, hnone]
      simp
  · rw [if_neg hj]
    unfold putOne
    by_cases hA : st.shapes.any (fun s => s.id == u.id) = true
    · simp only [hA, if_true]
      exact find?_replace_ne u j hj st.shapes
    · simp only [Bool.not_eq_true] at hA
      simp only [hA, Bool.false_eq_true, if_false]
      show (st.shapes ++ [u]).find? (fun s => s.id == j) = getShape st j
      rw [List.find?_append]
      have : ([u].find? (fun s => s.id == j)) = none := by simp [hj]
      rw [this]
      simp [getShape]

/-- Lookup after `storePut` when no put record carries the id: unchanged. -/
theorem getShape_storePut_of_not_mem (j : Nat) :
    ∀ (us : List Shape) (st : Store), (∀ u ∈ us, u.id ≠ j) →
      getShape (storePut st us) j = getShape st j := by
  intro us
  induction us with
  | nil => intro st _; rfl
  | cons v us ih =>
    intro st h
    show getShape (storePut (putOne st v) us) j = getShape st j
    rw [ih (putOne st v) (fun u hu => h u (List.mem_cons_of_mem v hu))]
    rw [getShape_putOne]
    rw [if_neg (h v (List.mem_cons_self v us))]

/-- Lookup after `storePut` finds the (unique) put record with the id. -/
theorem getShape_storePut_of_mem (j : Nat) :
    ∀ (us : List Shape) (st : Store) (u : Shape), u ∈ us →
      (us.map (fun t => t.id)).Nodup → u.id = j →
      getShape (storePut st us) j = some u := by
  intro us
  induction us with
  | nil => intro st u hu; exact absurd hu (List.not_mem_nil u)
  | cons v us ih =>
    intro st u hu hnd hj
    have hnd' : (us.map (fun t => t.id)).Nodup := (List.nodup_cons.mp hnd).2
    rcases List.mem_cons.mp hu with hv | hu'
    · subst hv
      show getShape (storePut (putOne st u) us) j = some u
      rw [getShape_storePut_of_not_mem j us (putOne st u) ?_]
      · rw [getShape_putOne, if_pos hj]
      · intro w hw hwj
        have : u.id ∈ us.map (fun t => t.id) := by
          rw [hj, ← hwj]
          exact List.mem_map_of_mem _ hw
        exact (List.nodup_cons.mp hnd).1 this
    · exact ih (putOne st v) u hu' hnd' hj

/-- Presence of a record is preserved by `storePut`. -/
theorem getShape_storePut_isSome (j : Nat) :
    ∀ (us : List Shape) (st : Store), (getShape st j).isSome = true →
      (getShape (storePut st us) j).isSome = true := by
  intro us
  induction us with
  | nil => intro st h; exact h
  | cons v us ih =>
    intro st h
    show (getShape (storePut (putOne st v) us) j).isSome = true
    apply ih
    rw [getShape_putOne]
    by_cases hv : v.id = j
    · simp [hv]
    · simpa [hv] using h

/-- `applyPartialToShape` never changes the record id. -/
theorem applyPartialToShape_id (s : Shape) (p : ShapePartial) :
    (applyPartialToShape s p).id = s.id := rfl

/-- The records computed by `updateShapes` carry ids from the partials. -/
theorem updates_ids_sublist (st : Store) :
    ∀ ps : List ShapePartial,
      List.Sublist
        ((ps.filterMap fun p => (getShape st p.id).map fun s => applyPartialToShape s p).map
          (fun t => t.id))
        (ps.map (fun p => p.id)) := by
  intro ps
  induction ps with
  | nil => simp
  | cons p ps ih =>
    simp only [List.filterMap_cons, List.map_cons]
    cases hs : getShape st p.id with
    | none => exact ih.cons p.id
    | some s =>
      simp only [Option.map_some', List.map_cons]
      have : (applyPartialToShape s p).id = p.id := by
        rw [applyPartialToShape_id, getShape_id hs]
      rw [this]
      exact ih.cons₂ p.id

/-- Lookup after `updateShapes` when no partial targets the id: unchanged. -/
theorem getShape_updateShapes_of_not_mem (st : Store) (ps : List ShapePartial) (j : Nat)
    (h : ∀ p ∈ ps, p.id ≠ j) :
    getShape (updateShapes st ps) j = getShape st j := by
  unfold updateShapes
  by_cases hro : st.isReadonly = true
  · rw [if_pos hro]
  · simp only [Bool.not_eq_true] at hro
    simp only [hro, Bool.false_eq_true, if_false]
    apply getShape_storePut_of_not_mem
    intro u hu
    rcases List.mem_filterMap.mp hu with ⟨p, hp, hpu⟩
    cases hs : getShape st p.id with
    | none => rw [hs] at hpu; exact absurd hpu (by simp)
    | some s =>
      rw [hs] at hpu
      have : u.id = p.id := by
        have := Option.some_injective _ hpu
        rw [← this, applyPartialToShape_id, getShape_id hs]
      rw [this]
      exact h p (List.mem_of_mem_filter hp)

/-- Lookup after `updateShapes` at a targeted id (unique among the partials,
passing the lock filter): the partial applied to the current record. -/
theorem getShape_updateShapes_of_mem (st : Store) (ps : List ShapePartial)
    (p : ShapePartial) (s : Shape)
    (hro : st.isReadonly = false)
    (hnd : (ps.map (fun q => q.id)).Nodup)
    (hp : p ∈ ps)
    (hs : getShape st p.id = some s)
    (hpass : (!(isShapeOrAncestorLockedF st st.shapes.length (some s) && p.isLocked.isNone)) = true) :
    getShape (updateShapes st ps) p.id = some (applyPartialToShape s p) := by
  unfold updateShapes
  simp only [hro, Bool.false_eq_true, if_false]
  have hpc : p ∈ ps.filter (fun q =>
      match getShape st q.id with
      | none => false
      | some s => !(isShapeOrAncestorLockedF st st.shapes.length (some s) && q.isLocked.isNone)) := by
    rw [List.mem_filter]
    refine ⟨hp, ?_⟩
    rw [hs]
    exact hpass
  apply getShape_storePut_of_mem
  · exact List.mem_filterMap.mpr ⟨p, hpc, by rw [hs]; rfl⟩
  · have h1 := (updates_ids_sublist st (ps.filter (fun q =>
        match getShape st q.id with
        | none => false
        | some s =>
          !(isShapeOrAncestorLockedF st st.shapes.length (some s) && q.isLocked.isNone)))).trans
      ((List.filter_sublist ps).map (fun q => q.id))
    exact h1.nodup hnd
  · rw [applyPartialToShape_id, getShape_id hs]

/-- Presence of a record is preserved by `updateShapes`. -/
theorem getShape_updateShapes_isSome (st : Store) (ps : List ShapePartial) (j : Nat)
    (h : (getShape st j).isSome = true) :
    (getShape (updateShapes st ps) j).isSome = true := by
  unfold updateShapes
  by_cases hro : st.isReadonly = true
  · simp [hro, h]
  · simp only [Bool.not_eq_true] at hro
    simp only [hro, Bool.false_eq_true, if_false]
    exact getShape_storePut_isSome j _ st h

/-- `putOne` does not touch the read-only flag. -/
theorem putOne_isReadonly (st : Store) (u : Shape) :
    (putOne st u).isReadonly = st.isReadonly := by
  unfold putOne
  by_cases h : st.shapes.any (fun s => s.id == u.id) = true <;> simp [h]

/-- `storePut` does not touch the read-only flag. -/
theorem storePut_isReadonly :
    ∀ (us : List Shape) (st : Store), (storePut st us).isReadonly = st.isReadonly := by
  intro us
  induction us with
  | nil => intro st; rfl
  | cons v us ih =>
    intro st
    show (storePut (putOne st v) us).isReadonly = st.isReadonly
    rw [ih, putOne_isReadonly]

/-- `updateShapes` does not touch the read-only flag. -/
theorem updateShapes_isReadonly (st : Store) (ps : List ShapePartial) :
    (updateShapes st ps).isReadonly = st.isReadonly := by
  unfold updateShapes
  by_cases hro : st.isReadonly = true
  · simp [hro]
  · simp only [Bool.not_eq_true] at hro
    simp only [hro, Bool.false_eq_true, if_false]
    rw [storePut_isReadonly]
    exact hro

/-- The unlock step does not touch the read-only flag. -/
theorem reparentUnlockedStore_isReadonly (st : Store) (sh : List Shape) :
    (reparentUnlockedStore st sh).isReadonly = st.isReadonly := by
  unfold reparentUnlockedStore
  by_cases h : (sh.filter (fun s => s.isLocked)).isEmpty = true
  · simp [h]
  · simp only [Bool.not_eq_true] at h
    simp [h, updateShapes_isReadonly]

/-- The unlock step preserves record presence. -/
theorem reparentUnlockedStore_isSome (st : Store) (sh : List Shape) (j : Nat)
    (h : (getShape st j).isSome = true) :
    (getShape (reparentUnlockedStore st sh) j).isSome = true := by
  unfold reparentUnlockedStore
  by_cases hE : (sh.filter (fun s => s.isLocked)).isEmpty = true
  · simpa [hE] using h
  · simp only [Bool.not_eq_true] at hE
    simp only [hE, Bool.false_eq_true, if_false]
    exact getShape_updateShapes_isSome st _ j h

/-- Each fresh-key helper yields as many keys as requested. -/
theorem getIndicesAbove_length (i : ℚ) (n : Nat) : (getIndicesAbove i n).length = n := by
  rw [getIndicesAbove, List.length_map, List.length_range]

/-- Each fresh-key helper yields as many keys as requested. -/
theorem getIndicesBetween_length (a b : ℚ) (n : Nat) :
    (getIndicesBetween a b n).length = n := by
  rw [getIndicesBetween, List.length_map, List.length_range]

/-- Each fresh-key helper yields as many keys as requested. -/
theorem getIndices_length (n : Nat) : (getIndices n).length = n := by
  rw [getIndices, List.length_map, List.length_range]

/-- Every branch of `reparentIndices` yields one index per moved shape. -/
theorem reparentIndices_length (sibs : List Shape) (insertIndex : Option ℚ) (n : Nat) :
    (reparentIndices sibs insertIndex n).length = n := by
  unfold reparentIndices
  cases insertIndex with
  | none =>
    cases h : sibs.getLast? <;>
      simp [h, getIndicesAbove_length, getIndices_length]
  | some idx =>
    cases h1 : sibs.find? (fun s => s.index == idx) with
    | none =>
      cases h2 : (sortByIndex sibs).find? (fun s => idx < s.index) <;>
        simp [h1, h2, getIndicesAbove_length, getIndicesBetween_length]
    | some sib =>
      cases h2 : sibs[sibs.findIdx (fun s => s.index == idx) + 1]? <;>
        simp [h1, h2, getIndicesAbove_length, getIndicesBetween_length]

/-- The ids of looked-up records form a sublist of the queried ids. -/
theorem filterMap_getShape_ids_sublist (st : Store) :
    ∀ ids : List Nat,
      List.Sublist ((ids.filterMap (getShape st)).map (fun s => s.id)) ids := by
  intro ids
  induction ids with
  | nil => simp
  | cons a ids ih =>
    simp only [List.filterMap_cons]
    cases hs : getShape st a with
    | none => exact ih.cons a
    | some s =>
      simp only [List.map_cons, getShape_id hs]
      exact ih.cons₂ a

/-- Looking up the records set by the change list of `reparentShapes`: the
moved shape keeps its original lock flag (and gets the requested parent). -/
theorem changes_lookup (st1 : Store) (m : Mat) (r : Rot) (parentId : ParentId)
    (sh : List Shape) (indices : List ℚ) (s : Shape) (i : Nat)
    (hro : st1.isReadonly = false)
    (hnd : (sh.map (fun t => t.id)).Nodup)
    (hmem : s ∈ sh) (hsid : s.id = i)
    (hlen : sh.length ≤ indices.length)
    (hsome : (getShape st1 i).isSome = true) :
    ∃ s1 idx, getShape st1 i = some s1 ∧
      getShape (updateShapes st1 ((sh.zip indices).map (reparentChange st1 m r parentId))) i =
        some (applyPartialToShape s1 (reparentChange st1 m r parentId (s, idx))) := by
  obtain ⟨s1, hs1⟩ := Option.isSome_iff_exists.mp hsome
  obtain ⟨k, hk, hks⟩ := List.getElem_of_mem hmem
  have hkz : k < (sh.zip indices).length := by
    rw [List.length_zip]
    exact Nat.lt_min.mpr ⟨hk, lt_of_lt_of_le hk hlen⟩
  have hkget : (sh.zip indices)[k] = (s, indices.get ⟨k, lt_of_lt_of_le hk hlen⟩) := by
    rw [List.getElem_zip, hks]
    rfl
  have hpairmem : (s, indices.get ⟨k, lt_of_lt_of_le hk hlen⟩) ∈ sh.zip indices := by
    rw [← hkget]
    exact List.getElem_mem hkz
  refine ⟨s1, indices.get ⟨k, lt_of_lt_of_le hk hlen⟩, hs1, ?_⟩
  have hid : (reparentChange st1 m r parentId
      (s, indices.get ⟨k, lt_of_lt_of_le hk hlen⟩)).id = i := by
    rw [← hsid]; rfl
  rw [← hid]
  apply getShape_updateShapes_of_mem
  · exact hro
  · have : ((sh.zip indices).map (reparentChange st1 m r parentId)).map (fun q => q.id) =
        sh.map (fun t => t.id) := by
      rw [List.map_map]
      have hfst : (sh.zip indices).map Prod.fst = sh := List.map_fst_zip sh indices hlen
      calc ((sh.zip indices).map ((fun q => ShapePartial.id q) ∘ reparentChange st1 m r parentId))
          = ((sh.zip indices).map (fun si => si.1.id)) := rfl
        _ = ((sh.zip indices).map (Prod.fst)).map (fun t => t.id) := by rw [List.map_map]; rfl
        _ = sh.map (fun t => t.id) := by rw [hfst]
    rw [this]
    exact hnd
  · exact List.mem_map_of_mem _ hpairmem
  · rw [hid]; exact hs1
  · simp [reparentChange]

/-- Claim C9: `reparentShapes` preserves each moved shape's `isLocked` flag —
locked shapes are temporarily unlocked for the structural write and re-locked
by the change record. -/
theorem claim9_reparent_preserves_lock (st : Store) (ids : List Nat) (parentId : ParentId)
    (insertIndex : Option ℚ) (i : Nat) (s : Shape)
    (hro : st.isReadonly = false) (hnd : ids.Nodup) (hi : i ∈ ids)
    (hs : getShape st i = some s) :
    (getShape (reparentShapes st ids parentId insertIndex) i).map (fun t => t.isLocked) =
      some s.isLocked := by
  cases ids with
  | nil => exact absurd hi (List.not_mem_nil i)
  | cons a rest =>
    simp only [reparentShapes]
    have hmem : s ∈ (a :: rest).filterMap (getShape st) := by
      apply List.mem_filterMap.mpr
      exact ⟨i, hi, hs⟩
    have hnd' : (((a :: rest).filterMap (getShape st)).map (fun t => t.id)).Nodup :=
      (filterMap_getShape_ids_sublist st (a :: rest)).nodup hnd
    have hro1 : (reparentUnlockedStore st ((a :: rest).filterMap (getShape st))).isReadonly = false := by
      rw [reparentUnlockedStore_isReadonly]; exact hro
    have hsome1 : (getShape (reparentUnlockedStore st ((a :: rest).filterMap (getShape st))) i).isSome = true :=
      reparentUnlockedStore_isSome st _ i (by rw [hs]; rfl)
    have hlen : ((a :: rest).filterMap (getShape st)).length ≤
        (reparentIndices ((getSortedChildIdsForParent st parentId).filterMap (getShape st))
          insertIndex (a :: rest).length).length := by
      rw [reparentIndices_length]
      exact List.length_filterMap_le _ _
    obtain ⟨s1, idx, hs1, hfinal⟩ := changes_lookup
      (reparentUnlockedStore st ((a :: rest).filterMap (getShape st)))
      (match parentId with
        | .page _ => Mat.identity
        | .shape p => getShapePageTransform st p).invert
      (match parentId with
        | .page _ => Mat.identity
        | .shape p => getShapePageTransform st p).rotation
      parentId ((a :: rest).filterMap (getShape st))
      (reparentIndices ((getSortedChildIdsForParent st parentId).filterMap (getShape st))
        insertIndex (a :: rest).length)
      s i hro1 hnd' hmem (getShape_id hs) hlen hsome1
    rw [hfinal]
    simp [applyPartialToShape, reparentChange]

/-- Witness for claim C9: a locked shape moved under another shape is still
locked after the reparent. -/
theorem claim9_witness :
    (getShape (reparentShapes storeL [3] (ParentId.shape 1) none) 3).map
        (fun t => t.isLocked) = some lockedShape.isLocked :=
  claim9_reparent_preserves_lock storeL [3] (ParentId.shape 1) none 3 lockedShape
    rfl (by decide) (by decide) (by with_unfolding_all decide)

/-- Counterexample to claim C2: `reparentShapes` performs no ancestor walk and
no rejection. In `storeB`, shape 2 is a child of shape 1; asking
`reparentShapes` to move shape 1 under shape 2 simply commits the request,
leaving shape 1 a child of shape 2 and shape 2 a child of shape 1 — a cycle,
witnessed by the parent chain of shape 1 no longer terminating
(`chainOk = false`). -/
theorem claim2_counterexample :
    (getShape storeBAfter 1).map (fun s => s.parentId) = some (ParentId.shape 2) ∧
    (getShape storeBAfter 2).map (fun s => s.parentId) = some (ParentId.shape 1) ∧
    chainOk storeBAfter storeBAfter.shapes.length (ParentId.shape 1) = false := by
  refine ⟨by decide, by decide, by decide⟩

/-- Claim C2 as amended: the explicit ancestor walk lives in drop-target
selection, not in `reparentShapes`: `getDroppingOverShape` never proposes one
of the dropped shapes, nor a descendant of one (checked through
`hasAncestor`), as the shape to drop onto. -/
theorem claim2_amended_drop_target_never_descendant (st : Store) (env : DropEnv)
    (sortedShapes : List Shape) (pt : Vec) (droppingShapes : List Shape) (r : Shape)
    (h : getDroppingOverShape st env sortedShapes pt droppingShapes = some r) :
    ∀ d ∈ droppingShapes, r.id ≠ d.id ∧ hasAncestor st r.id d.id = false := by
  rw [getDroppingOverShape] at h
  generalize hl : sortedShapes.reverse = l at h
  clear hl
  induction l with
  | nil => exact absurd h (by simp [droppingLoop])
  | cons s rest ih =>
    rw [droppingLoop] at h
    by_cases hskip : (env.selectedShapeIds.contains s.id ||
        !(env.canDropShapes s droppingShapes) ||
        (droppingShapes.any (fun d => d.id == s.id || hasAncestor st s.id d.id))) = true
    · rw [if_pos hskip] at h
      exact ih h
    · rw [if_neg hskip] at h
      simp only [Bool.or_eq_true, not_or, Bool.not_eq_true] at hskip
      have hany := hskip.2
      cases hmpb : env.maskedPageBounds s.id with
      | none =>
        simp only [hmpb] at h
        exact ih h
      | some mpb =>
        simp only [hmpb] at h
        by_cases hhit : (mpb.containsPoint pt 0 && env.hitTestInsideAt s pt) = true
        · rw [if_pos hhit] at h
          have hr : s = r := Option.some_injective _ h
          subst hr
          intro d hd
          have h2 : d.id ≠ s.id ∧ hasAncestor st s.id d.id = false := by
            simpa using List.any_eq_false.mp hany d hd
          exact ⟨fun hEq => h2.1 hEq.symm, h2.2⟩
        · rw [if_neg hhit] at h
          exact ih h

/-- Witness for the amended C2: in `storeDrop`, dropping `dropShape` at
`(5, 5)` proposes `dropFrame`, which is neither the dropped shape nor a
descendant of it. -/
theorem claim2_amended_witness :
    (getDroppingOverShape storeDrop dropEnv [dropFrame, dropShape] ⟨5, 5⟩ [dropShape] =
      some dropFrame) ∧
    (dropFrame.id ≠ dropShape.id ∧ hasAncestor storeDrop dropFrame.id dropShape.id = false) :=
  ⟨by with_unfolding_all decide,
   claim2_amended_drop_target_never_descendant storeDrop dropEnv [dropFrame, dropShape]
     ⟨5, 5⟩ [dropShape] dropFrame (by with_unfolding_all decide) dropShape (by simp)⟩

/- ------------------------------------------------------------------ -/
/- Rigid-motion algebra for the transform claims.                      -/
/- ------------------------------------------------------------------ -/

/-- The identity transform is rigid. -/
theorem Mat.identity_isRigid : Mat.identity.IsRigid := by
  refine ⟨rfl, by norm_num [Mat.identity], by norm_num [Mat.identity]⟩

/-- Rigidity is closed under composition. -/
theorem Mat.IsRigid.mul {m n : Mat} (hm : m.IsRigid) (hn : n.IsRigid) :
    (Mat.mul m n).IsRigid := by
  obtain ⟨hmd, hmc, hmu⟩ := hm
  obtain ⟨hnd, hnc, hnu⟩ := hn
  refine ⟨?_, ?_, ?_⟩
  · show m.b * n.c + m.d * n.d = m.a * n.a + m.c * n.b
    rw [hmd, hmc, hnd, hnc]
    ring
  · show m.a * n.c + m.c * n.d = -(m.b * n.a + m.d * n.b)
    rw [hmd, hmc, hnd, hnc]
    ring
  · show (m.a * n.a + m.c * n.b) ^ 2 + (m.b * n.a + m.d * n.b) ^ 2 = 1
    rw [hmd, hmc]
    calc (m.a * n.a + -m.b * n.b) ^ 2 + (m.b * n.a + m.a * n.b) ^ 2
        = (m.a ^ 2 + m.b ^ 2) * (n.a ^ 2 + n.b ^ 2) := by ring
      _ = 1 := by rw [hmu, hnu]; ring

/-- The local transform, written out: the rotation matrix of the shape's
rotation with the shape's `(x, y)` as translation. -/
theorem localTransform_eq (s : Shape) :
    localTransform s = ⟨s.rot.c, s.rot.s, -s.rot.s, s.rot.c, s.x, s.y⟩ := by
  show Mat.mul (Mat.mul Mat.identity ⟨1, 0, 0, 1, s.x, s.y⟩) _ = _
  simp only [Mat.mul, Mat.identity]
  norm_num

/-- The local transform of a shape with a unit rotation is rigid. -/
theorem localTransform_isRigid (s : Shape) (h : s.rot.IsUnit) :
    (localTransform s).IsRigid := by
  rw [localTransform_eq]
  exact ⟨rfl, rfl, h⟩

/-- Structure extensionality for affine matrices. -/
theorem Mat.ext' (m n : Mat) (h1 : m.a = n.a) (h2 : m.b = n.b) (h3 : m.c = n.c)
    (h4 : m.d = n.d) (h5 : m.e = n.e) (h6 : m.f = n.f) : m = n := by
  cases m
  cases n
  simp_all

/-- A rigid matrix has determinant one. -/
theorem Mat.IsRigid.det_eq_one {m : Mat} (hm : m.IsRigid) : m.det = 1 := by
  obtain ⟨hmd, hmc, hmu⟩ := hm
  show m.a * m.d - m.b * m.c = 1
  rw [hmd, hmc]
  calc m.a * m.a - m.b * -m.b = m.a ^ 2 + m.b ^ 2 := by ring
    _ = 1 := hmu

/-- The inverse of a rigid matrix, division-free. -/
theorem Mat.invert_of_isRigid {m : Mat} (hm : m.IsRigid) :
    m.invert = ⟨m.a, -m.b, m.b, m.a, -m.b * m.f - m.a * m.e, m.b * m.e - m.a * m.f⟩ := by
  have hdet : m.det = 1 := Mat.IsRigid.det_eq_one hm
  obtain ⟨hmd, hmc, _⟩ := hm
  unfold Mat.invert
  rw [hdet, hmd, hmc]
  apply Mat.ext' <;> simp

/-- The page transform cache produces rigid matrices when every rotation in
the store lies on the unit circle. -/
theorem ptcF_isRigid (st : Store) (hunit : ∀ t ∈ st.shapes, t.rot.IsUnit) :
    ∀ fuel i, ((ptcF st fuel i).getD Mat.identity).IsRigid := by
  intro fuel
  induction fuel with
  | zero => intro i; exact Mat.identity_isRigid
  | succ f ih =>
    intro i
    cases hs : getShape st i with
    | none => simpa [ptcF, hs] using Mat.identity_isRigid
    | some s =>
      have hsr : s.rot.IsUnit := hunit s (List.mem_of_find?_eq_some hs)
      cases hp : s.parentId with
      | page pg =>
        simpa [ptcF, hs, hp] using localTransform_isRigid s hsr
      | shape p =>
        have := Mat.IsRigid.mul (ih p) (localTransform_isRigid s hsr)
        simpa [ptcF, hs, hp] using this

/-- `getShapePageTransform` is rigid on unit-rotation stores. -/
theorem getShapePageTransform_isRigid (st : Store)
    (hunit : ∀ t ∈ st.shapes, t.rot.IsUnit) (i : Nat) :
    (getShapePageTransform st i).IsRigid :=
  ptcF_isRigid st hunit st.shapes.length i

/-- The reconstruction identity behind `reparentShapes`: writing a shape's page
position through the inverse of the new parent's transform, and its page
rotation minus the parent's rotation, makes the new parent's transform composed
with the new local transform reproduce the original page transform. -/
theorem rigid_reconstruct (P M : Mat) (t : Shape)
    (hP : P.IsRigid) (hM : M.IsRigid)
    (hx : t.x = (P.invert.applyToPoint M.point).x)
    (hy : t.y = (P.invert.applyToPoint M.point).y)
    (hr : t.rot = Rot.sub M.rotation P.rotation) :
    Mat.mul P (localTransform t) = M := by
  have hinv := Mat.invert_of_isRigid hP
  rw [hinv] at hx hy
  simp only [Mat.applyToPoint, Mat.point] at hx hy
  obtain ⟨hPd, hPc, hPu⟩ := hP
  obtain ⟨hMd, hMc, hMu⟩ := hM
  rw [localTransform_eq]
  apply Mat.ext'
  · simp only [Mat.mul, hr, Rot.sub, Mat.rotation]
    rw [hPc]
    linear_combination M.a * hPu
  · simp only [Mat.mul, hr, Rot.sub, Mat.rotation]
    rw [hPd]
    linear_combination M.b * hPu
  · simp only [Mat.mul, hr, Rot.sub, Mat.rotation]
    rw [hPc, hMc]
    linear_combination (-M.b) * hPu
  · simp only [Mat.mul, hr, Rot.sub, Mat.rotation]
    rw [hPd, hMd]
    linear_combination M.a * hPu
  · simp only [Mat.mul, hx, hy]
    rw [hPc]
    linear_combination (M.e - P.e) * hPu
  · simp only [Mat.mul, hx, hy]
    rw [hPd]
    linear_combination (M.f - P.f) * hPu

/-- The extraction identity behind the reparent round trip: pulling the page
point of `P ∘ local(s)` back through the inverse of `P` recovers `(s.x, s.y)`,
and subtracting `P`'s rotation from its rotation recovers `s.rot`. -/
theorem rigid_extract (P : Mat) (s : Shape) (hP : P.IsRigid) :
    P.invert.applyToPoint ((Mat.mul P (localTransform s)).point) = ⟨s.x, s.y⟩ ∧
    Rot.sub ((Mat.mul P (localTransform s)).rotation) P.rotation = s.rot := by
  have hinv := Mat.invert_of_isRigid hP
  obtain ⟨hPd, hPc, hPu⟩ := hP
  rw [hinv, localTransform_eq]
  constructor
  · simp only [Mat.mul, Mat.applyToPoint, Mat.point]
    rw [hPc, hPd]
    refine congrArg₂ Vec.mk ?_ ?_
    · linear_combination s.x * hPu
    · linear_combination s.y * hPu
  · simp only [Mat.mul, Mat.rotation, Rot.sub]
    rw [hPc, hPd]
    refine congrArg₂ Rot.mk ?_ ?_
    · linear_combination s.rot.c * hPu
    · linear_combination s.rot.s * hPu

/- ------------------------------------------------------------------ -/
/- Store congruence: page transforms only read core record fields.     -/
/- ------------------------------------------------------------------ -/

/-- Case analysis for a lookup after `storePut`. -/
theorem getShape_storePut_cases :
    ∀ (us : List Shape) (st : Store) (j : Nat),
      getShape (storePut st us) j = getShape st j ∨
      ∃ u ∈ us, u.id = j ∧ getShape (storePut st us) j = some u := by
  intro us
  induction us with
  | nil => intro st j; exact Or.inl rfl
  | cons v us ih =>
    intro st j
    have hfold : storePut st (v :: us) = storePut (putOne st v) us := rfl
    rcases ih (putOne st v) j with h | ⟨u, hu, huj, hres⟩
    · rw [getShape_putOne] at h
      by_cases hv : v.id = j
      · right
        refine ⟨v, List.mem_cons_self v us, hv, ?_⟩
        rw [hfold, h, if_pos hv]
      · left
        rw [hfold, h, if_neg hv]
    · right
      exact ⟨u, List.mem_cons_of_mem v hu, huj, by rw [hfold]; exact hres⟩

/-- `updateShapes` with partials that touch none of the core fields leaves
every record's core unchanged. -/
theorem updateShapes_coreEq (st : Store) (ps : List ShapePartial)
    (hfree : ∀ p ∈ ps, p.x = none ∧ p.y = none ∧ p.rot = none ∧ p.parentId = none) :
    ∀ j, coreEq st (updateShapes st ps) j := by
  intro j
  unfold coreEq updateShapes
  by_cases hro : st.isReadonly = true
  · rw [if_pos hro]
  · simp only [Bool.not_eq_true] at hro
    simp only [hro, Bool.false_eq_true, if_false]
    rcases getShape_storePut_cases _ st j with h | ⟨u, hu, huj, hres⟩
    · rw [h]
    · rw [hres]
      rcases List.mem_filterMap.mp hu with ⟨p, hpf, hpu⟩
      cases hsp : getShape st p.id with
      | none => rw [hsp] at hpu; exact absurd hpu (by simp)
      | some s =>
        rw [hsp] at hpu
        have hup : u = applyPartialToShape s p := (Option.some_injective _ hpu).symm
        have hpin : p ∈ ps := List.mem_of_mem_filter hpf
        obtain ⟨hx, hy, hr, hpid⟩ := hfree p hpin
        have hcore : coreOf u = coreOf s := by
          rw [hup]
          simp [coreOf, applyPartialToShape, hx, hy, hr, hpid]
        have hjid : j = p.id := by
          rw [← huj, hup, applyPartialToShape_id, getShape_id hsp]
        rw [hjid, hsp]
        simp [hcore]

/-- Page transforms agree between stores whose records agree (on core fields)
along the parent chain. -/
theorem ptcF_congr_chain (st st' : Store) :
    ∀ fuel i, (∀ j ∈ chainIdsF st fuel i, coreEq st st' j) →
      ptcF st fuel i = ptcF st' fuel i := by
  intro fuel
  induction fuel with
  | zero => intro i _; rfl
  | succ f ih =>
    intro i h
    have hcore : coreEq st st' i := h i (by rw [chainIdsF]; exact List.mem_cons_self _ _)
    unfold coreEq at hcore
    cases hs : getShape st i with
    | none =>
      rw [hs] at hcore
      have hs' : getShape st' i = none := by
        cases hx : getShape st' i with
        | none => rfl
        | some s' => rw [hx] at hcore; exact absurd hcore (by simp)
      simp [ptcF, hs, hs']
    | some s =>
      rw [hs] at hcore
      cases hs' : getShape st' i with
      | none => rw [hs'] at hcore; exact absurd hcore (by simp)
      | some s' =>
        rw [hs'] at hcore
        have hcc : coreOf s = coreOf s' := by simpa using hcore
        have hfields : s.id = s'.id ∧ s.parentId = s'.parentId ∧ s.x = s'.x ∧
            s.y = s'.y ∧ s.rot = s'.rot := by
          simpa [coreOf, Prod.ext_iff] using hcc
        have hlocal : localTransform s = localTransform s' := by
          rw [localTransform_eq, localTransform_eq, hfields.2.2.1, hfields.2.2.2.1,
            hfields.2.2.2.2]
        cases hp : s.parentId with
        | page pg =>
          have hp' : s'.parentId = ParentId.page pg := by rw [← hfields.2.1, hp]
          simp [ptcF, hs, hs', hp, hp', hlocal]
        | shape p =>
          have hp' : s'.parentId = ParentId.shape p := by rw [← hfields.2.1, hp]
          have hch : ∀ j ∈ chainIdsF st f p, coreEq st st' j := by
            intro j hj
            apply h
            rw [chainIdsF]
            simp only [hs, hp]
            exact List.mem_cons_of_mem _ hj
          simp [ptcF, hs, hs', hp, hp', hlocal, ih p hch]

/-- `getShapePageTransform` agrees between stores of equal size whose records
agree along the parent chain. -/
theorem getShapePageTransform_congr_chain (st st' : Store)
    (hlen : st'.shapes.length = st.shapes.length) (i : Nat)
    (h : ∀ j ∈ chainIdsF st st.shapes.length i, coreEq st st' j) :
    getShapePageTransform st' i = getShapePageTransform st i := by
  unfold getShapePageTransform
  rw [hlen, ptcF_congr_chain st st' st.shapes.length i h]

/-- Replacing a present record keeps each id's presence status. -/
theorem any_id_map_replace (u : Shape) (k : Nat) :
    ∀ l : List Shape,
      (l.map (fun s => if s.id == u.id then u else s)).any (fun s => s.id == k) =
      l.any (fun s => s.id == k) := by
  intro l
  induction l with
  | nil => rfl
  | cons a l ih =>
    simp only [List.map_cons, List.any_cons, ih]
    by_cases ha : a.id = u.id
    · rw [if_pos (by simpa using ha), ha]
    · rw [if_neg (by simpa using ha)]

/-- `putOne` on a present id keeps the store size. -/
theorem putOne_length (st : Store) (u : Shape)
    (hp : st.shapes.any (fun s => s.id == u.id) = true) :
    (putOne st u).shapes.length = st.shapes.length := by
  simp [putOne, hp]

/-- `putOne` on a present id keeps every id's presence status. -/
theorem putOne_any (st : Store) (u : Shape)
    (hp : st.shapes.any (fun s => s.id == u.id) = true) (k : Nat) :
    (putOne st u).shapes.any (fun s => s.id == k) = st.shapes.any (fun s => s.id == k) := by
  simp only [putOne, hp, if_true]
  exact any_id_map_replace u k st.shapes

/-- `storePut` of records with present ids keeps the store size. -/
theorem storePut_length :
    ∀ (us : List Shape) (st : Store),
      (∀ u ∈ us, st.shapes.any (fun s => s.id == u.id) = true) →
      (storePut st us).shapes.length = st.shapes.length := by
  intro us
  induction us with
  | nil => intro st _; rfl
  | cons v us ih =>
    intro st h
    have hv := h v (List.mem_cons_self v us)
    show (storePut (putOne st v) us).shapes.length = st.shapes.length
    rw [ih (putOne st v) (fun u hu => by
      rw [putOne_any st v hv]
      exact h u (List.mem_cons_of_mem v hu))]
    exact putOne_length st v hv

/-- A successful lookup means the id is present. -/
theorem any_of_getShape_eq_some {st : Store} {j : Nat} {s : Shape}
    (h : getShape st j = some s) :
    st.shapes.any (fun t => t.id == j) = true := by
  have h' : st.shapes.find? (fun t => t.id == j) = some s := h
  exact List.any_eq_true.mpr ⟨s, List.mem_of_find?_eq_some h', by simp [getShape_id h]⟩

/-- `updateShapes` keeps the store size. -/
theorem updateShapes_length (st : Store) (ps : List ShapePartial) :
    (updateShapes st ps).shapes.length = st.shapes.length := by
  unfold updateShapes
  by_cases hro : st.isReadonly = true
  · rw [if_pos hro]
  · simp only [Bool.not_eq_true] at hro
    simp only [hro, Bool.false_eq_true, if_false]
    apply storePut_length
    intro u hu
    rcases List.mem_filterMap.mp hu with ⟨p, _, hpu⟩
    cases hsp : getShape st p.id with
    | none => rw [hsp] at hpu; exact absurd hpu (by simp)
    | some s =>
      rw [hsp] at hpu
      have hup : u = applyPartialToShape s p := (Option.some_injective _ hpu).symm
      have huid : u.id = p.id := by rw [hup, applyPartialToShape_id, getShape_id hsp]
      rw [huid]
      exact any_of_getShape_eq_some hsp

/-- Unfolding equation for `getShapePageTransform`. -/
theorem getShapePageTransform_def (st : Store) (i : Nat) :
    getShapePageTransform st i = (ptcF st st.shapes.length i).getD Mat.identity := rfl

/-- The unlock step keeps the store size. -/
theorem reparentUnlockedStore_length (st : Store) (sh : List Shape) :
    (reparentUnlockedStore st sh).shapes.length = st.shapes.length := by
  unfold reparentUnlockedStore
  by_cases h : (sh.filter (fun s => s.isLocked)).isEmpty = true
  · rw [if_pos h]
  · simp only [Bool.not_eq_true] at h
    simp only [h, Bool.false_eq_true, if_false]
    exact updateShapes_length st _

/-- The unlock step touches no core record fields. -/
theorem reparentUnlockedStore_coreEq (st : Store) (sh : List Shape) :
    ∀ j, coreEq st (reparentUnlockedStore st sh) j := by
  intro j
  unfold reparentUnlockedStore
  by_cases h : (sh.filter (fun s => s.isLocked)).isEmpty = true
  · rw [if_pos h]
    unfold coreEq
    rfl
  · simp only [Bool.not_eq_true] at h
    simp only [h, Bool.false_eq_true, if_false]
    apply updateShapes_coreEq
    intro p hp
    rcases List.mem_map.mp hp with ⟨t, _, rfl⟩
    exact ⟨rfl, rfl, rfl, rfl⟩

/-- A record produced by looking up one of the queried ids carries one of the
queried ids. -/
theorem mem_filterMap_getShape_ids {st : Store} {ids : List Nat} {t : Shape}
    (h : t ∈ ids.filterMap (getShape st)) : t.id ∈ ids := by
  rcases List.mem_filterMap.mp h with ⟨b, hb, heq⟩
  rw [getShape_id heq]
  exact hb

/-- The engine behind the page-placement claim: committing the change records
of `reparentShapes` leaves the moved shape's page transform unchanged, given
that the destination parent's cached transform in the committed store equals
the parent transform the changes were computed against. -/
theorem reparent_core_transform (st ST1 : Store) (PT : Mat) (parentId : ParentId)
    (SH : List Shape) (IND : List ℚ) (s : Shape) (i : Nat)
    (hro1 : ST1.isReadonly = false)
    (hnd' : (SH.map (fun t => t.id)).Nodup)
    (hmem : s ∈ SH) (hsid : s.id = i)
    (hlen : SH.length ≤ IND.length)
    (hsome1 : (getShape ST1 i).isSome = true)
    (hL1 : ST1.shapes.length = st.shapes.length)
    (hM1 : getShapePageTransform ST1 i = getShapePageTransform st i)
    (hPTrigid : PT.IsRigid)
    (hMrigid : (getShapePageTransform st i).IsRigid)
    (hpos : 0 < st.shapes.length)
    (hparent : match parentId with
      | ParentId.page _ => PT = Mat.identity
      | ParentId.shape np =>
        (ptcF (updateShapes ST1
            ((SH.zip IND).map (reparentChange ST1 PT.invert PT.rotation parentId)))
          (st.shapes.length - 1) np).getD Mat.identity = PT) :
    getShapePageTransform
      (updateShapes ST1 ((SH.zip IND).map (reparentChange ST1 PT.invert PT.rotation parentId))) i =
      getShapePageTransform st i := by
  obtain ⟨s1, idx, hs1, hfinal⟩ :=
    changes_lookup ST1 PT.invert PT.rotation parentId SH IND s i hro1 hnd' hmem hsid hlen hsome1
  obtain ⟨m, hm⟩ : ∃ m, st.shapes.length = m + 1 := ⟨st.shapes.length - 1, by omega⟩
  have hL2 : (updateShapes ST1
      ((SH.zip IND).map (reparentChange ST1 PT.invert PT.rotation parentId))).shapes.length =
      m + 1 := by
    rw [updateShapes_length, hL1, hm]
  have hx : (applyPartialToShape s1 (reparentChange ST1 PT.invert PT.rotation parentId (s, idx))).x =
      (PT.invert.applyToPoint (getShapePageTransform st i).point).x := by
    simp [applyPartialToShape, reparentChange, hsid, hM1]
  have hy : (applyPartialToShape s1 (reparentChange ST1 PT.invert PT.rotation parentId (s, idx))).y =
      (PT.invert.applyToPoint (getShapePageTransform st i).point).y := by
    simp [applyPartialToShape, reparentChange, hsid, hM1]
  have hr : (applyPartialToShape s1 (reparentChange ST1 PT.invert PT.rotation parentId (s, idx))).rot =
      Rot.sub (getShapePageTransform st i).rotation PT.rotation := by
    simp [applyPartialToShape, reparentChange, hsid, hM1]
  have hrec := rigid_reconstruct PT (getShapePageTransform st i)
    (applyPartialToShape s1 (reparentChange ST1 PT.invert PT.rotation parentId (s, idx)))
    hPTrigid hMrigid hx hy hr
  have hparent' :
      (applyPartialToShape s1 (reparentChange ST1 PT.invert PT.rotation parentId (s, idx))).parentId =
      parentId := by
    simp [applyPartialToShape, reparentChange]
  conv_lhs => rw [getShapePageTransform_def, hL2]
  rw [ptcF, hfinal]
  simp only [Option.map_some', Option.getD_some, hparent']
  cases parentId with
  | page pg =>
    have hfin : localTransform
        (applyPartialToShape s1
          (reparentChange ST1 PT.invert PT.rotation (ParentId.page pg) (s, idx))) =
        getShapePageTransform st i := by
      calc localTransform
            (applyPartialToShape s1
              (reparentChange ST1 PT.invert PT.rotation (ParentId.page pg) (s, idx)))
          = Mat.mul Mat.identity
              (localTransform
                (applyPartialToShape s1
                  (reparentChange ST1 PT.invert PT.rotation (ParentId.page pg) (s, idx)))) :=
            (Mat.identity_mul _).symm
        _ = Mat.mul PT
              (localTransform
                (applyPartialToShape s1
                  (reparentChange ST1 PT.invert PT.rotation (ParentId.page pg) (s, idx)))) := by
            rw [hparent]
        _ = getShapePageTransform st i := hrec
    exact hfin
  | shape np =>
    rw [hm] at hparent
    simp only [Nat.add_sub_cancel] at hparent
    have hfin : Mat.mul
        ((ptcF (updateShapes ST1
            ((SH.zip IND).map (reparentChange ST1 PT.invert PT.rotation (ParentId.shape np))))
          m np).getD Mat.identity)
        (localTransform
          (applyPartialToShape s1
            (reparentChange ST1 PT.invert PT.rotation (ParentId.shape np) (s, idx)))) =
        getShapePageTransform st i := by
      rw [hparent]
      exact hrec
    exact hfin

/-- `reparentShapes` leaves a moved shape's page transform unchanged, provided
the destination parent's ancestor chain is well-founded and contains no moved
shape (claim C8, first half; proved here as a lemma so the round-trip statement
can reuse it). -/
theorem reparent_preserves_page_transform (st : Store) (ids : List Nat)
    (parentId : ParentId) (insertIndex : Option ℚ) (i : Nat) (s : Shape)
    (hro : st.isReadonly = false)
    (hnd : ids.Nodup)
    (hi : i ∈ ids)
    (hs : getShape st i = some s)
    (hunit : ∀ t ∈ st.shapes, t.rot.IsUnit)
    (hok : match parentId with
      | ParentId.page _ => True
      | ParentId.shape np => chainOk st (st.shapes.length - 1) (ParentId.shape np) = true)
    (havoid : match parentId with
      | ParentId.page _ => True
      | ParentId.shape np => ∀ k ∈ ids, k ∉ chainIdsF st (st.shapes.length - 1) np) :
    getShapePageTransform (reparentShapes st ids parentId insertIndex) i =
      getShapePageTransform st i := by
  cases ids with
  | nil => exact absurd hi (List.not_mem_nil i)
  | cons a rest =>
    have hmem : s ∈ (a :: rest).filterMap (getShape st) := List.mem_filterMap.mpr ⟨i, hi, hs⟩
    have hnd' : (((a :: rest).filterMap (getShape st)).map (fun t => t.id)).Nodup :=
      (filterMap_getShape_ids_sublist st (a :: rest)).nodup hnd
    have hro1 : (reparentUnlockedStore st ((a :: rest).filterMap (getShape st))).isReadonly = false := by
      rw [reparentUnlockedStore_isReadonly]
      exact hro
    have hsome1 : (getShape (reparentUnlockedStore st ((a :: rest).filterMap (getShape st))) i).isSome = true :=
      reparentUnlockedStore_isSome st _ i (by rw [hs]; rfl)
    have hL1 : (reparentUnlockedStore st ((a :: rest).filterMap (getShape st))).shapes.length =
        st.shapes.length :=
      reparentUnlockedStore_length st _
    have hlen : ((a :: rest).filterMap (getShape st)).length ≤
        (reparentIndices ((getSortedChildIdsForParent st parentId).filterMap (getShape st))
          insertIndex (a :: rest).length).length := by
      rw [reparentIndices_length]
      exact List.length_filterMap_le _ _
    have hM1 : getShapePageTransform (reparentUnlockedStore st ((a :: rest).filterMap (getShape st))) i =
        getShapePageTransform st i :=
      getShapePageTransform_congr_chain st _ hL1 i
        (fun j _ => reparentUnlockedStore_coreEq st _ j)
    have hMrigid := getShapePageTransform_isRigid st hunit i
    have hpos : 0 < st.shapes.length :=
      List.length_pos.mpr (by
        intro hnil
        have := List.mem_of_find?_eq_some hs
        rw [hnil] at this
        simp at this)
    have hPTrigid : (match parentId with
        | ParentId.page _ => Mat.identity
        | ParentId.shape p => getShapePageTransform st p).IsRigid := by
      cases parentId with
      | page pg => exact Mat.identity_isRigid
      | shape p => exact getShapePageTransform_isRigid st hunit p
    simp only [reparentShapes]
    refine reparent_core_transform st _ _ parentId _ _ s i hro1 hnd' hmem (getShape_id hs)
      hlen hsome1 hL1 hM1 hPTrigid hMrigid hpos ?_
    cases parentId with
    | page pg => rfl
    | shape np =>
      have hok' : chainOk st (st.shapes.length - 1) (ParentId.shape np) = true := hok
      have havoid' : ∀ k ∈ (a :: rest), k ∉ chainIdsF st (st.shapes.length - 1) np := havoid
      obtain ⟨m, hm⟩ : ∃ m, st.shapes.length = m + 1 := ⟨st.shapes.length - 1, by omega⟩
      have hm1 : st.shapes.length - 1 = m := by omega
      rw [hm1] at hok' havoid' ⊢
      have hchain : ∀ j ∈ chainIdsF st m np,
          coreEq st (updateShapes (reparentUnlockedStore st ((a :: rest).filterMap (getShape st)))
            ((((a :: rest).filterMap (getShape st)).zip
              (reparentIndices ((getSortedChildIdsForParent st (ParentId.shape np)).filterMap (getShape st))
                insertIndex (a :: rest).length)).map
              (reparentChange (reparentUnlockedStore st ((a :: rest).filterMap (getShape st)))
                (getShapePageTransform st np).invert
                (getShapePageTransform st np).rotation
                (ParentId.shape np)))) j := by
        intro j hj
        have hjnot : j ∉ (a :: rest) := fun hjmem => havoid' j hjmem hj
        have h21 : getShape (updateShapes (reparentUnlockedStore st ((a :: rest).filterMap (getShape st)))
            ((((a :: rest).filterMap (getShape st)).zip
              (reparentIndices ((getSortedChildIdsForParent st (ParentId.shape np)).filterMap (getShape st))
                insertIndex (a :: rest).length)).map
              (reparentChange (reparentUnlockedStore st ((a :: rest).filterMap (getShape st)))
                (getShapePageTransform st np).invert
                (getShapePageTransform st np).rotation
                (ParentId.shape np)))) j =
            getShape (reparentUnlockedStore st ((a :: rest).filterMap (getShape st))) j := by
          apply getShape_updateShapes_of_not_mem
          intro p hp
          rcases List.mem_map.mp hp with ⟨si, hsi, rfl⟩
          have hfst : si.1 ∈ (a :: rest).filterMap (getShape st) := (List.of_mem_zip hsi).1
          have : si.1.id ∈ (a :: rest) := mem_filterMap_getShape_ids hfst
          intro hcontra
          rw [show (reparentChange _ _ _ _ si).id = si.1.id from rfl] at hcontra
          rw [hcontra] at this
          exact hjnot this
        unfold coreEq
        rw [h21]
        exact reparentUnlockedStore_coreEq st _ j
      have hA := (ptcF_congr_chain st _ m np hchain).symm
      have hB : ptcF st (m + 1) np = ptcF st m np :=
        ptcF_stable st m np hok' (m + 1) (by omega)
      have hgoal : (ptcF (updateShapes (reparentUnlockedStore st ((a :: rest).filterMap (getShape st)))
          ((((a :: rest).filterMap (getShape st)).zip
            (reparentIndices ((getSortedChildIdsForParent st (ParentId.shape np)).filterMap (getShape st))
              insertIndex (a :: rest).length)).map
            (reparentChange (reparentUnlockedStore st ((a :: rest).filterMap (getShape st)))
              (getShapePageTransform st np).invert
              (getShapePageTransform st np).rotation
              (ParentId.shape np))))
          m np).getD Mat.identity = getShapePageTransform st np := by
        rw [hA, ← hB, getShapePageTransform_def, hm]
      exact hgoal

/-- `reparentShapes` keeps the store size. -/
theorem reparentShapes_length (st : Store) (ids : List Nat) (parentId : ParentId)
    (insertIndex : Option ℚ) :
    (reparentShapes st ids parentId insertIndex).shapes.length = st.shapes.length := by
  cases ids with
  | nil => rfl
  | cons a rest =>
    simp only [reparentShapes]
    rw [updateShapes_length, reparentUnlockedStore_length]

/-- `reparentShapes` does not touch the read-only flag. -/
theorem reparentShapes_isReadonly (st : Store) (ids : List Nat) (parentId : ParentId)
    (insertIndex : Option ℚ) :
    (reparentShapes st ids parentId insertIndex).isReadonly = st.isReadonly := by
  cases ids with
  | nil => rfl
  | cons a rest =>
    simp only [reparentShapes]
    rw [updateShapes_isReadonly, reparentUnlockedStore_isReadonly]

/-- The unlock step leaves records outside the moved set unchanged. -/
theorem getShape_reparentUnlockedStore_of_not_mem (st : Store) (sh : List Shape) (j : Nat)
    (h : ∀ t ∈ sh, t.id ≠ j) :
    getShape (reparentUnlockedStore st sh) j = getShape st j := by
  unfold reparentUnlockedStore
  by_cases hE : (sh.filter (fun s => s.isLocked)).isEmpty = true
  · rw [if_pos hE]
  · simp only [Bool.not_eq_true] at hE
    simp only [hE, Bool.false_eq_true, if_false]
    apply getShape_updateShapes_of_not_mem
    intro p hp
    rcases List.mem_map.mp hp with ⟨t, ht, rfl⟩
    exact h t (List.mem_of_mem_filter ht)

/-- `reparentShapes` leaves records outside the moved set unchanged. -/
theorem getShape_reparentShapes_of_not_mem (st : Store) (ids : List Nat) (parentId : ParentId)
    (insertIndex : Option ℚ) (j : Nat) (hj : j ∉ ids) :
    getShape (reparentShapes st ids parentId insertIndex) j = getShape st j := by
  cases ids with
  | nil => rfl
  | cons a rest =>
    simp only [reparentShapes]
    rw [getShape_updateShapes_of_not_mem, getShape_reparentUnlockedStore_of_not_mem]
    · intro t ht hcontra
      exact hj (hcontra ▸ mem_filterMap_getShape_ids ht)
    · intro p hp
      rcases List.mem_map.mp hp with ⟨si, hsi, rfl⟩
      have hfst : si.1 ∈ (a :: rest).filterMap (getShape st) := (List.of_mem_zip hsi).1
      intro hcontra
      have hcontra' : si.1.id = j := hcontra
      exact hj (hcontra' ▸ mem_filterMap_getShape_ids hfst)

/-- `reparentShapes` preserves record presence. -/
theorem getShape_reparentShapes_isSome (st : Store) (ids : List Nat) (parentId : ParentId)
    (insertIndex : Option ℚ) (j : Nat) (h : (getShape st j).isSome = true) :
    (getShape (reparentShapes st ids parentId insertIndex) j).isSome = true := by
  cases ids with
  | nil => exact h
  | cons a rest =>
    simp only [reparentShapes]
    exact getShape_updateShapes_isSome _ _ j (reparentUnlockedStore_isSome st _ j h)

/-- Longer fuel only extends a parent chain. -/
theorem chainIdsF_subset_succ (st : Store) :
    ∀ fuel i, chainIdsF st fuel i ⊆ chainIdsF st (fuel + 1) i := by
  intro fuel
  induction fuel with
  | zero =>
    intro i j hj
    rw [chainIdsF] at hj
    rcases List.mem_singleton.mp hj with rfl
    rw [chainIdsF]
    exact List.mem_cons_self _ _
  | succ f ih =>
    intro i j hj
    rw [chainIdsF] at hj
    rw [chainIdsF]
    rcases List.mem_cons.mp hj with rfl | htail
    · exact List.mem_cons_self _ _
    · apply List.mem_cons_of_mem
      cases hs : getShape st i with
      | none => rw [hs] at htail; simp at htail
      | some s =>
        rw [hs] at htail
        have htail' : j ∈ (match s.parentId with
            | ParentId.shape p => chainIdsF st f p
            | ParentId.page _ => ([] : List Nat)) := htail
        show j ∈ (match s.parentId with
            | ParentId.shape p => chainIdsF st (f + 1) p
            | ParentId.page _ => ([] : List Nat))
        cases hp : s.parentId with
        | page pg => rw [hp] at htail'; simp at htail'
        | shape p =>
          rw [hp] at htail'
          exact ih p htail'

/-- Chain membership is monotone in the fuel. -/
theorem chainIdsF_mono (st : Store) {f f' : Nat} (h : f ≤ f') :
    ∀ i, chainIdsF st f i ⊆ chainIdsF st f' i := by
  induction f' with
  | zero =>
    have : f = 0 := by omega
    subst this
    intro i
    exact fun j hj => hj
  | succ g ih =>
    by_cases hf : f = g + 1
    · subst hf
      intro i
      exact fun j hj => hj
    · have hle : f ≤ g := by omega
      intro i
      exact fun j hj => chainIdsF_subset_succ st g i (ih hle i hj)

/-- Unfolding the page transform through the parent, in the shape of the
`reparentShapes` parent-transform computation. -/
theorem pageTransform_parent_unfold (st : Store) (s : Shape)
    (hs : getShape st s.id = some s)
    (hok : chainOk st st.shapes.length (ParentId.shape s.id) = true) :
    getShapePageTransform st s.id =
      Mat.mul
        (match s.parentId with
          | ParentId.page _ => Mat.identity
          | ParentId.shape p => getShapePageTransform st p)
        (localTransform s) := by
  have hmem : s ∈ st.shapes := List.mem_of_find?_eq_some hs
  have hpos : 0 < st.shapes.length := List.length_pos.mpr (by
    intro hnil
    rw [hnil] at hmem
    simp at hmem)
  obtain ⟨m, hm⟩ : ∃ m, st.shapes.length = m + 1 := ⟨st.shapes.length - 1, by omega⟩
  have hch : chainOk st m s.parentId = true := by
    rw [hm] at hok
    simpa [chainOk, hs] using hok
  cases hp : s.parentId with
  | page pg =>
    simp [getShapePageTransform, hm, ptcF, hs, hp, Mat.identity_mul]
  | shape p =>
    rw [hp] at hch
    have hstab := ptcF_stable st m p hch (m + 1) (by omega)
    simp [getShapePageTransform, hm, ptcF, hs, hp, hstab]

/-- The reparent round trip: moving a shape to another parent and back to its
original parent restores its local `x`, `y` and rotation exactly (claim C8,
second half, as a lemma). -/
theorem reparent_round_trip (st : Store) (P2 : ParentId) (idx2 idx1 : Option ℚ)
    (i : Nat) (s : Shape)
    (hro : st.isReadonly = false)
    (hs : getShape st i = some s)
    (hunit : ∀ t ∈ st.shapes, t.rot.IsUnit)
    (hokI : chainOk st st.shapes.length (ParentId.shape i) = true)
    (hok2 : match P2 with
      | ParentId.page _ => True
      | ParentId.shape np => chainOk st (st.shapes.length - 1) (ParentId.shape np) = true)
    (havoid2 : match P2 with
      | ParentId.page _ => True
      | ParentId.shape np => i ∉ chainIdsF st (st.shapes.length - 1) np)
    (havoid1 : match s.parentId with
      | ParentId.page _ => True
      | ParentId.shape p1 => i ∉ chainIdsF st st.shapes.length p1) :
    ∃ t, getShape (reparentShapes (reparentShapes st [i] P2 idx2) [i] s.parentId idx1) i =
        some t ∧
      t.x = s.x ∧ t.y = s.y ∧ t.rot = s.rot := by
  have hsid : s.id = i := getShape_id hs
  set ST' := reparentShapes st [i] P2 idx2 with hST'
  have hroST' : ST'.isReadonly = false := by
    rw [hST', reparentShapes_isReadonly]
    exact hro
  have hlenST' : ST'.shapes.length = st.shapes.length := by
    rw [hST']
    exact reparentShapes_length st [i] P2 idx2
  have hM' : getShapePageTransform ST' i = getShapePageTransform st i := by
    rw [hST']
    apply reparent_preserves_page_transform st [i] P2 idx2 i s hro (by simp) (by simp) hs
      hunit hok2
    cases P2 with
    | page pg => trivial
    | shape np =>
      have havoid2' : i ∉ chainIdsF st (st.shapes.length - 1) np := havoid2
      intro k hk
      rcases List.mem_singleton.mp hk with rfl
      exact havoid2'
  have hsomeST' : (getShape ST' i).isSome = true := by
    rw [hST']
    exact getShape_reparentShapes_isSome st [i] P2 idx2 i (by rw [hs]; rfl)
  obtain ⟨s', hs'⟩ := Option.isSome_iff_exists.mp hsomeST'
  have hs'id : s'.id = i := getShape_id hs'
  have hSH' : [i].filterMap (getShape ST') = [s'] := by
    simp [List.filterMap_cons, hs']
  have hPT1' : (match s.parentId with
      | ParentId.page _ => Mat.identity
      | ParentId.shape p => getShapePageTransform ST' p) =
      (match s.parentId with
      | ParentId.page _ => Mat.identity
      | ParentId.shape p => getShapePageTransform st p) := by
    cases hp : s.parentId with
    | page pg => rfl
    | shape p1 =>
      rw [hp] at havoid1
      have havoid1' : i ∉ chainIdsF st st.shapes.length p1 := havoid1
      apply getShapePageTransform_congr_chain st ST' hlenST' p1
      intro j hj
      have hji : j ≠ i := fun hEq => havoid1' (hEq ▸ hj)
      have huntouched : getShape ST' j = getShape st j := by
        rw [hST']
        exact getShape_reparentShapes_of_not_mem st [i] P2 idx2 j (by simpa using hji)
      unfold coreEq
      rw [huntouched]
  have hPT1rigid : (match s.parentId with
      | ParentId.page _ => Mat.identity
      | ParentId.shape p => getShapePageTransform st p).IsRigid := by
    cases s.parentId with
    | page pg => exact Mat.identity_isRigid
    | shape p => exact getShapePageTransform_isRigid st hunit p
  have hsfresh : getShape st s.id = some s := by rw [hsid]; exact hs
  have hokfresh : chainOk st st.shapes.length (ParentId.shape s.id) = true := by
    rw [hsid]; exact hokI
  have hunfold := pageTransform_parent_unfold st s hsfresh hokfresh
  have hextract := rigid_extract
    (match s.parentId with
      | ParentId.page _ => Mat.identity
      | ParentId.shape p => getShapePageTransform st p) s hPT1rigid
  -- the unlock step of the second call
  have hro1' : (reparentUnlockedStore ST' [s']).isReadonly = false := by
    rw [reparentUnlockedStore_isReadonly]
    exact hroST'
  have hlen1' : (reparentUnlockedStore ST' [s']).shapes.length = ST'.shapes.length :=
    reparentUnlockedStore_length ST' [s']
  have hsome1' : (getShape (reparentUnlockedStore ST' [s']) i).isSome = true :=
    reparentUnlockedStore_isSome ST' [s'] i (by rw [hs']; rfl)
  have hunlockM : getShapePageTransform (reparentUnlockedStore ST' [s']) i =
      getShapePageTransform ST' i :=
    getShapePageTransform_congr_chain ST' _ hlen1' i
      (fun j _ => reparentUnlockedStore_coreEq ST' [s'] j)
  -- the committed value of the second call
  have hval : (match s.parentId with
      | ParentId.page _ => Mat.identity
      | ParentId.shape p => getShapePageTransform ST' p).invert.applyToPoint
      ((getShapePageTransform (reparentUnlockedStore ST' [s']) s'.id).point) = ⟨s.x, s.y⟩ := by
    rw [hs'id, hunlockM, hM', hPT1', ← hsid, hunfold]
    exact hextract.1
  have hrotval : Rot.sub
      ((getShapePageTransform (reparentUnlockedStore ST' [s']) s'.id).rotation)
      (match s.parentId with
        | ParentId.page _ => Mat.identity
        | ParentId.shape p => getShapePageTransform ST' p).rotation = s.rot := by
    rw [hs'id, hunlockM, hM', hPT1', ← hsid, hunfold]
    exact hextract.2
  simp only [reparentShapes, hSH']
  obtain ⟨s'1, idx', hs'1, hfinal⟩ :=
    changes_lookup (reparentUnlockedStore ST' [s'])
      (match s.parentId with
        | ParentId.page _ => Mat.identity
        | ParentId.shape p => getShapePageTransform ST' p).invert
      (match s.parentId with
        | ParentId.page _ => Mat.identity
        | ParentId.shape p => getShapePageTransform ST' p).rotation
      s.parentId [s']
      (reparentIndices ((getSortedChildIdsForParent ST' s.parentId).filterMap (getShape ST'))
        idx1 [i].length)
      s' i hro1' (by simp) (List.mem_singleton_self s') hs'id
      (by rw [reparentIndices_length]; simp)
      hsome1'
  refine ⟨_, hfinal, ?_, ?_, ?_⟩
  · show (applyPartialToShape s'1 _).x = s.x
    simp only [applyPartialToShape, reparentChange, Option.getD_some]
    rw [show (s', idx').1.id = s'.id from rfl] at *
    calc ((match s.parentId with
        | ParentId.page _ => Mat.identity
        | ParentId.shape p => getShapePageTransform ST' p).invert.applyToPoint
        ((getShapePageTransform (reparentUnlockedStore ST' [s']) s'.id).point)).x
        = (Vec.mk s.x s.y).x := by rw [hval]
      _ = s.x := rfl
  · show (applyPartialToShape s'1 _).y = s.y
    simp only [applyPartialToShape, reparentChange, Option.getD_some]
    calc ((match s.parentId with
        | ParentId.page _ => Mat.identity
        | ParentId.shape p => getShapePageTransform ST' p).invert.applyToPoint
        ((getShapePageTransform (reparentUnlockedStore ST' [s']) s'.id).point)).y
        = (Vec.mk s.x s.y).y := by rw [hval]
      _ = s.y := rfl
  · show (applyPartialToShape s'1 _).rot = s.rot
    simp only [applyPartialToShape, reparentChange, Option.getD_some]
    exact hrotval

/-- Claim C8: `reparentShapes` converts the moved shape's page-space position and
rotation into the new parent's local space via the inverse of the new parent's
page transform, so the shape's page transform is unchanged by the move; and
moving the shape to a new parent and then back to its original parent restores
its original local `x`, `y` and rotation exactly (the rational embedding has no
floating-point error, so the tolerance is zero). Hypotheses: the store is
writeable, the shape exists with a unit rotation field throughout the store,
both parent chains terminate at a page within the store-size fuel, and neither
requested parent chain passes through the moved shape. -/
theorem claim8_reparent_preserves_placement (st : Store) (P2 : ParentId)
    (idx2 idx1 : Option ℚ) (i : Nat) (s : Shape)
    (hro : st.isReadonly = false)
    (hs : getShape st i = some s)
    (hunit : ∀ t ∈ st.shapes, t.rot.IsUnit)
    (hokI : chainOk st st.shapes.length (ParentId.shape i) = true)
    (hok2 : match P2 with
      | ParentId.page _ => True
      | ParentId.shape np => chainOk st (st.shapes.length - 1) (ParentId.shape np) = true)
    (havoid2 : match P2 with
      | ParentId.page _ => True
      | ParentId.shape np => i ∉ chainIdsF st (st.shapes.length - 1) np)
    (havoid1 : match s.parentId with
      | ParentId.page _ => True
      | ParentId.shape p1 => i ∉ chainIdsF st st.shapes.length p1) :
    getShapePageTransform (reparentShapes st [i] P2 idx2) i = getShapePageTransform st i ∧
    ∃ t, getShape (reparentShapes (reparentShapes st [i] P2 idx2) [i] s.parentId idx1) i =
        some t ∧
      t.x = s.x ∧ t.y = s.y ∧ t.rot = s.rot := by
  constructor
  · apply reparent_preserves_page_transform st [i] P2 idx2 i s hro (by simp) (by simp) hs
      hunit hok2
    cases P2 with
    | page pg => trivial
    | shape np =>
      have havoid2' : i ∉ chainIdsF st (st.shapes.length - 1) np := havoid2
      intro k hk
      rcases List.mem_singleton.mp hk with rfl
      exact havoid2'
  · exact reparent_round_trip st P2 idx2 idx1 i s hro hs hunit hokI hok2 havoid2 havoid1

/-- One step of the candidate loop: an immediate return as decided by
`stepRet` (independent of the accumulators), or a fall-through to the rest of
the list with the accumulators updated by `stepIm` and `stepIh`. -/
theorem hitLoop_cons_eq (pt : Vec) (opts : HitOpts) (env : HitEnv) (a : HShape)
    (rest : List HShape) (im ih : Option (ℚ × HShape)) :
    hitLoop pt opts env (a :: rest) im ih =
      match stepRet pt opts env a im ih with
      | some r => .ret r
      | none =>
        hitLoop pt opts env rest (stepIm pt opts env im a) (stepIh pt opts env im ih a) := by
  by_cases h1 : labelHitB pt a = true
  · simp [hitLoop, stepRet, h1]
  · simp only [Bool.not_eq_true] at h1
    by_cases h2 : (a.stype == SType.frame) = true
    · by_cases h3 : |a.geometry.distanceToPoint (a.toLocal pt) opts.hitInside| ≤ opts.margin
      · simp [hitLoop, stepRet, h1, h2, h3]
      · by_cases h4 : a.geometry.hitTestPoint (a.toLocal pt) 0 true = true
        · simp [hitLoop, stepRet, h1, h2, h3, h4]
        · simp only [Bool.not_eq_true] at h4
          have hmq : marginQual pt opts env a = false := by simp [marginQual, h2]
          have hhq : hollowQual pt opts env a = false := by simp [hollowQual, h2]
          simp [hitLoop, stepRet, h1, h2, h3, h4, stepIm, stepIh, hmq, hhq]
    · simp only [Bool.not_eq_true] at h2
      cases hdist : shapeDistance opts a (a.toLocal pt) with
      | none =>
        have hmq : marginQual pt opts env a = false := by simp [marginQual, hdist]
        have hhq : hollowQual pt opts env a = false := by simp [hollowQual, hdist]
        by_cases h5 : a.geometry.isClosed = true
        · simp [hitLoop, stepRet, h1, h2, h5, hdist, stepIm, stepIh, hmq, hhq]
        · simp only [Bool.not_eq_true] at h5
          simp [hitLoop, stepRet, h1, h2, h5, hdist, stepIm, stepIh, hmq, hhq]
      | some d =>
        by_cases h5 : a.geometry.isClosed = true
        · by_cases h6 : d ≤ opts.margin
          · by_cases h7 : filledish a.geometry = true
            · simp [hitLoop, stepRet, h1, h2, h5, hdist, h6, h7]
            · simp only [Bool.not_eq_true] at h7
              by_cases h8 : a.pageBounds.containsBox env.viewportPageBounds = true
              · have hmq : marginQual pt opts env a = false := by
                  simp [marginQual, hdist, h8]
                have hhq : hollowQual pt opts env a = false := by
                  simp [hollowQual, hdist, h8]
                simp [hitLoop, stepRet, h1, h2, h5, hdist, h6, h7, h8, stepIm, stepIh,
                  hmq, hhq]
              · simp only [Bool.not_eq_true] at h8
                by_cases h9 : |d| < opts.margin
                · have hmq : marginQual pt opts env a = true := by
                    simp [marginQual, h1, h2, h5, hdist, h6, h7, h8, h9]
                  have hhq : hollowQual pt opts env a = false := by
                    simp [hollowQual, hdist, h9]
                  have hmd : mdist pt opts a = |d| := by simp [mdist, hdist]
                  simp [hitLoop, stepRet, h1, h2, h5, hdist, h6, h7, h8, h9, stepIm,
                    stepIh, hmq, hhq, hmd]
                · have hmq : marginQual pt opts env a = false := by
                    simp [marginQual, hdist, h9]
                  have hhq : hollowQual pt opts env a = true := by
                    simp [hollowQual, h1, h2, h5, hdist, h6, h7, h8, h9]
                  by_cases h10 : im.isNone = true
                  · simp [hitLoop, stepRet, h1, h2, h5, hdist, h6, h7, h8, h9, h10,
                      stepIm, stepIh, hmq, hhq]
                  · simp only [Bool.not_eq_true] at h10
                    simp [hitLoop, stepRet, h1, h2, h5, hdist, h6, h7, h8, h9, h10,
                      stepIm, stepIh, hmq, hhq]
          · have hmq : marginQual pt opts env a = false := by simp [marginQual, hdist, h6]
            have hhq : hollowQual pt opts env a = false := by simp [hollowQual, hdist, h6]
            simp [hitLoop, stepRet, h1, h2, h5, hdist, h6, stepIm, stepIh, hmq, hhq]
        · simp only [Bool.not_eq_true] at h5
          have hmq : marginQual pt opts env a = false := by simp [marginQual, h5]
          have hhq : hollowQual pt opts env a = false := by simp [hollowQual, h5]
          by_cases h6 : d < env.hitTestMargin / env.zoomLevel
          · simp [hitLoop, stepRet, h1, h2, h5, hdist, h6]
          · simp [hitLoop, stepRet, h1, h2, h5, hdist, h6, stepIm, stepIh, hmq, hhq]

/-- The candidate loop over a concatenation: run the first part; on an
immediate return stop, otherwise continue over the second part from the
accumulators the first part fell through with. -/
theorem hitLoop_append (pt : Vec) (opts : HitOpts) (env : HitEnv) :
    ∀ (l1 l2 : List HShape) (im ih : Option (ℚ × HShape)),
      hitLoop pt opts env (l1 ++ l2) im ih =
        match hitLoop pt opts env l1 im ih with
        | .ret r => .ret r
        | .fell im' ih' => hitLoop pt opts env l2 im' ih' := by
  intro l1
  induction l1 with
  | nil => intro l2 im ih; simp [hitLoop]
  | cons a l1 ih1 =>
    intro l2 im ih
    rw [List.cons_append, hitLoop_cons_eq, hitLoop_cons_eq]
    cases hsr : stepRet pt opts env a im ih with
    | some r => rfl
    | none => exact ih1 l2 _ _

/-- Counterexample to claim C10: the label check runs before the viewport-size
skip. A closed, unfilled, non-frame geo shape whose page bounds contain the
whole viewport is nonetheless returned by `getShapeAtPoint` when its label
contains the query point. -/
theorem claim10_counterexample :
    cexShape10.geometry.isClosed = true ∧
    filledish cexShape10.geometry = false ∧
    (cexShape10.stype == SType.frame) = false ∧
    cexShape10.pageBounds.containsBox env10.viewportPageBounds = true ∧
    getShapeAtPoint pt10 opts10 env10 [cexShape10] = some cexShape10 :=
  ⟨rfl, rfl, rfl, by with_unfolding_all decide, by with_unfolding_all rfl⟩

/-- Claim C10 as amended: the viewport-size skip applies only after the label
and frame checks. A closed, unfilled, non-frame shape whose page bounds
contain the viewport, and which does not score a label hit, is skipped
wherever it sits in the scan: it is neither returned nor recorded in either
accumulator, so deleting it from the scan changes nothing. (The original claim
fails without the no-label-hit proviso — see the counterexample.) -/
theorem claim10_amended_viewport_hollow_skipped (pt : Vec) (opts : HitOpts)
    (env : HitEnv) (s : HShape) (l1 l2 : List HShape) (im ih : Option (ℚ × HShape))
    (hnl : labelHitB pt s = false)
    (hnf : (s.stype == SType.frame) = false)
    (hcl : s.geometry.isClosed = true)
    (hnfill : filledish s.geometry = false)
    (hcont : s.pageBounds.containsBox env.viewportPageBounds = true) :
    hitLoop pt opts env (l1 ++ s :: l2) im ih = hitLoop pt opts env (l1 ++ l2) im ih := by
  induction l1 generalizing im ih with
  | nil =>
    have hsr : stepRet pt opts env s im ih = none := by
      cases hdist : shapeDistance opts s (s.toLocal pt) with
      | none => simp [stepRet, hnl, hnf, hcl, hdist]
      | some d => simp [stepRet, hnl, hnf, hcl, hnfill, hdist]
    have hmq : marginQual pt opts env s = false := by
      cases hdist : shapeDistance opts s (s.toLocal pt) with
      | none => simp [marginQual, hdist]
      | some d => simp [marginQual, hdist, hcont]
    have hhq : hollowQual pt opts env s = false := by
      cases hdist : shapeDistance opts s (s.toLocal pt) with
      | none => simp [hollowQual, hdist]
      | some d => simp [hollowQual, hdist, hcont]
    show hitLoop pt opts env (s :: l2) im ih = hitLoop pt opts env l2 im ih
    rw [hitLoop_cons_eq, hsr]
    simp [stepIm, stepIh, hmq, hhq]
  | cons b l1 ihb =>
    show hitLoop pt opts env (b :: (l1 ++ s :: l2)) im ih =
      hitLoop pt opts env (b :: (l1 ++ l2)) im ih
    rw [hitLoop_cons_eq, hitLoop_cons_eq]
    cases hsr : stepRet pt opts env b im ih with
    | some r => rfl
    | none => exact ihb _ _

/-- Witness for the amended claim C10: the counterexample shape with its text
emptied no longer label-hits, and the viewport-size skip removes it from the
scan. -/
theorem claim10_amended_witness :
    hitLoop pt10 opts10 env10 ([] ++ skipShape10 :: []) none none =
      hitLoop pt10 opts10 env10 ([] ++ []) none none :=
  claim10_amended_viewport_hollow_skipped pt10 opts10 env10 skipShape10 [] [] none none
    rfl rfl rfl rfl (by with_unfolding_all decide)

/-- Claim C4: frame handling in `getShapeAtPoint`. When the scan, having fallen
through the shapes above with accumulators `im`, `ih`, reaches a frame that did
not label-hit: a point within margin of the frame's border returns the pending
in-margin candidate, else the frame itself; a point inside the frame's interior
terminates the whole search with the pending in-margin candidate, else the
pending smallest-area hollow candidate, else the frame itself exactly when
`hitFrameInside` is set, else no hit; otherwise the frame is passed over. -/
theorem claim4_frame_handling (pt : Vec) (opts : HitOpts) (env : HitEnv)
    (shapes l1 rest : List HShape) (s : HShape) (im ih : Option (ℚ × HShape))
    (hshapes : (shapesToCheck pt opts shapes).reverse = l1 ++ s :: rest)
    (hpre : hitLoop pt opts env l1 none none = .fell im ih)
    (hnl : labelHitB pt s = false)
    (hf : (s.stype == SType.frame) = true) :
    getShapeAtPoint pt opts env shapes =
      (if |s.geometry.distanceToPoint (s.toLocal pt) opts.hitInside| ≤ opts.margin then
        some ((im.map Prod.snd).getD s)
      else if s.geometry.hitTestPoint (s.toLocal pt) 0 true then
        (im.map Prod.snd) <|> (ih.map Prod.snd) <|>
          (if opts.hitFrameInside then some s else none)
      else
        match hitLoop pt opts env rest im ih with
        | .ret r => r
        | .fell im2 ih2 => (im2.map Prod.snd) <|> (ih2.map Prod.snd)) := by
  have hrun : hitLoop pt opts env ((shapesToCheck pt opts shapes).reverse) none none =
      hitLoop pt opts env (s :: rest) im ih := by
    rw [hshapes, hitLoop_append pt opts env, hpre]
  unfold getShapeAtPoint
  rw [hrun, hitLoop_cons_eq]
  by_cases h3 : |s.geometry.distanceToPoint (s.toLocal pt) opts.hitInside| ≤ opts.margin
  · have hsr : stepRet pt opts env s im ih = some (some ((im.map Prod.snd).getD s)) := by
      simp [stepRet, hnl, hf, h3]
    rw [hsr]
    simp [h3]
  · by_cases h4 : s.geometry.hitTestPoint (s.toLocal pt) 0 true = true
    · have hsr : stepRet pt opts env s im ih =
          some ((im.map Prod.snd) <|> (ih.map Prod.snd) <|>
            (if opts.hitFrameInside then some s else none)) := by
        simp [stepRet, hnl, hf, h3, h4]
      rw [hsr]
      simp [h3, h4]
    · simp only [Bool.not_eq_true] at h4
      have hsr : stepRet pt opts env s im ih = none := by
        simp [stepRet, hnl, hf, h3, h4]
      have hmq : marginQual pt opts env s = false := by simp [marginQual, hf]
      have hhq : hollowQual pt opts env s = false := by simp [hollowQual, hf]
      rw [hsr]
      simp [stepIm, stepIh, hmq, hhq, h3, h4]

/-- Witness for claim C4: clicking within the border margin of a frame returns
the frame. -/
theorem claim4_witness :
    getShapeAtPoint pt10 opts4 env10 [frame4] = some frame4 :=
  (claim4_frame_handling pt10 opts4 env10 [frame4] [] [] frame4 none none
    rfl rfl rfl rfl).trans (by with_unfolding_all rfl)

/-- An in-margin accumulator value after one step is the current shape or was
already held. -/
theorem stepIm_snd (pt : Vec) (opts : HitOpts) (env : HitEnv)
    (im : Option (ℚ × HShape)) (a : HShape) (d : ℚ) (c : HShape)
    (h : stepIm pt opts env im a = some (d, c)) :
    c = a ∨ im = some (d, c) := by
  unfold stepIm at h
  by_cases hq : marginQual pt opts env a = true
  · rw [if_pos hq] at h
    cases im with
    | none =>
      have hc : some (mdist pt opts a, a) = some (d, c) := h
      simp only [Option.some.injEq, Prod.mk.injEq] at hc
      exact Or.inl hc.2.symm
    | some p =>
      obtain ⟨d0, c0⟩ := p
      have hc : (if mdist pt opts a < d0 then some (mdist pt opts a, a)
          else some (d0, c0)) = some (d, c) := h
      by_cases hlt : mdist pt opts a < d0
      · rw [if_pos hlt] at hc
        simp only [Option.some.injEq, Prod.mk.injEq] at hc
        exact Or.inl hc.2.symm
      · rw [if_neg hlt] at hc
        exact Or.inr hc
  · rw [if_neg hq] at h
    exact Or.inr h

/-- A hollow accumulator value after one step is the current shape or was
already held. -/
theorem stepIh_snd (pt : Vec) (opts : HitOpts) (env : HitEnv)
    (im ih : Option (ℚ × HShape)) (a : HShape) (x : ℚ) (c : HShape)
    (h : stepIh pt opts env im ih a = some (x, c)) :
    c = a ∨ ih = some (x, c) := by
  unfold stepIh at h
  by_cases hq : (hollowQual pt opts env a && im.isNone) = true
  · rw [if_pos hq] at h
    cases ih with
    | none =>
      have hc : some (a.geometry.area, a) = some (x, c) := h
      simp only [Option.some.injEq, Prod.mk.injEq] at hc
      exact Or.inl hc.2.symm
    | some p =>
      obtain ⟨a0, c0⟩ := p
      have hc : (if a.geometry.area < a0 then some (a.geometry.area, a)
          else some (a0, c0)) = some (x, c) := h
      by_cases hlt : a.geometry.area < a0
      · rw [if_pos hlt] at hc
        simp only [Option.some.injEq, Prod.mk.injEq] at hc
        exact Or.inl hc.2.symm
      · rw [if_neg hlt] at hc
        exact Or.inr hc
  · rw [if_neg hq] at h
    exact Or.inr h

/-- An immediate return of the candidate loop names the current shape or a
shape held in one of the accumulators. -/
theorem stepRet_mem (pt : Vec) (opts : HitOpts) (env : HitEnv) (a : HShape)
    (im ih : Option (ℚ × HShape)) (r : HShape)
    (h : stepRet pt opts env a im ih = some (some r)) :
    r = a ∨ (∃ d, im = some (d, r)) ∨ (∃ x, ih = some (x, r)) := by
  unfold stepRet at h
  by_cases h1 : labelHitB pt a = true
  · rw [if_pos h1] at h
    simp only [Option.some.injEq] at h
    exact Or.inl h.symm
  · rw [if_neg h1] at h
    by_cases h2 : (a.stype == SType.frame) = true
    · rw [if_pos h2] at h
      by_cases h3 : |a.geometry.distanceToPoint (a.toLocal pt) opts.hitInside| ≤ opts.margin
      · rw [if_pos h3] at h
        simp only [Option.some.injEq] at h
        cases im with
        | none => simp only [Option.map_none', Option.getD_none] at h; exact Or.inl h.symm
        | some p =>
          obtain ⟨d, c⟩ := p
          simp only [Option.map_some', Option.getD_some] at h
          exact Or.inr (Or.inl ⟨d, by rw [h]⟩)
      · rw [if_neg h3] at h
        by_cases h4 : a.geometry.hitTestPoint (a.toLocal pt) 0 true = true
        · rw [if_pos h4] at h
          simp only [Option.some.injEq] at h
          cases im with
          | some p =>
            obtain ⟨d, c⟩ := p
            simp only [Option.map_some', Option.some_orElse, Option.some.injEq] at h
            exact Or.inr (Or.inl ⟨d, by rw [h]⟩)
          | none =>
            simp only [Option.map_none', Option.none_orElse] at h
            cases ih with
            | some q =>
              obtain ⟨x, c⟩ := q
              simp only [Option.map_some', Option.some_orElse, Option.some.injEq] at h
              exact Or.inr (Or.inr ⟨x, by rw [h]⟩)
            | none =>
              simp only [Option.map_none', Option.none_orElse] at h
              by_cases h5 : opts.hitFrameInside = true
              · rw [if_pos h5] at h
                simp only [Option.some.injEq] at h
                exact Or.inl h.symm
              · rw [if_neg h5] at h
                exact absurd h (by simp)
        · rw [if_neg h4] at h
          exact absurd h (by simp)
    · rw [if_neg h2] at h
      by_cases h5 : a.geometry.isClosed = true
      · rw [if_pos h5] at h
        cases hdist : shapeDistance opts a (a.toLocal pt) with
        | none => rw [hdist] at h; exact absurd h (by simp)
        | some d =>
          rw [hdist] at h
          have hc : (if d ≤ opts.margin then
              (if filledish a.geometry then some (some ((im.map Prod.snd).getD a)) else none)
            else none) = some (some r) := h
          by_cases h6 : d ≤ opts.margin
          · rw [if_pos h6] at hc
            by_cases h7 : filledish a.geometry = true
            · rw [if_pos h7] at hc
              simp only [Option.some.injEq] at hc
              cases im with
              | none =>
                simp only [Option.map_none', Option.getD_none] at hc
                exact Or.inl hc.symm
              | some p =>
                obtain ⟨d0, c⟩ := p
                simp only [Option.map_some', Option.getD_some] at hc
                exact Or.inr (Or.inl ⟨d0, by rw [hc]⟩)
            · rw [if_neg h7] at hc
              exact absurd hc (by simp)
          · rw [if_neg h6] at hc
            exact absurd hc (by simp)
      · rw [if_neg h5] at h
        cases hdist : shapeDistance opts a (a.toLocal pt) with
        | none => rw [hdist] at h; exact absurd h (by simp)
        | some d =>
          rw [hdist] at h
          have hc : (if d < env.hitTestMargin / env.zoomLevel then some (some a) else none) =
              some (some r) := h
          by_cases h6 : d < env.hitTestMargin / env.zoomLevel
          · rw [if_pos h6] at hc
            simp only [Option.some.injEq] at hc
            exact Or.inl hc.symm
          · rw [if_neg h6] at hc
            exact absurd hc (by simp)

/-- A shape returned by the candidate loop lies in the scanned list or in one
of the starting accumulators. -/
theorem hitLoop_ret_mem (pt : Vec) (opts : HitOpts) (env : HitEnv) :
    ∀ (l : List HShape) (im ih : Option (ℚ × HShape)) (r : HShape),
      hitLoop pt opts env l im ih = .ret (some r) →
      r ∈ l ∨ (∃ d, im = some (d, r)) ∨ (∃ x, ih = some (x, r)) := by
  intro l
  induction l with
  | nil => intro im ih r h; exact absurd h (by simp [hitLoop])
  | cons a l ihl =>
    intro im ih r h
    rw [hitLoop_cons_eq] at h
    cases hsr : stepRet pt opts env a im ih with
    | some r0 =>
      rw [hsr] at h
      have h' : LoopRes.ret r0 = LoopRes.ret (some r) := h
      have h'' : r0 = some r := by injection h'
      rcases stepRet_mem pt opts env a im ih r (h'' ▸ hsr) with h3 | h3 | h3
      · exact Or.inl (by rw [h3]; exact List.mem_cons_self a l)
      · exact Or.inr (Or.inl h3)
      · exact Or.inr (Or.inr h3)
    | none =>
      rw [hsr] at h
      have h' : hitLoop pt opts env l (stepIm pt opts env im a)
          (stepIh pt opts env im ih a) = .ret (some r) := h
      rcases ihl _ _ r h' with h3 | h3 | h3
      · exact Or.inl (List.mem_cons_of_mem a h3)
      · obtain ⟨d, hd⟩ := h3
        rcases stepIm_snd pt opts env im a d r hd with h4 | h4
        · exact Or.inl (by rw [h4]; exact List.mem_cons_self a l)
        · exact Or.inr (Or.inl ⟨d, h4⟩)
      · obtain ⟨x, hx⟩ := h3
        rcases stepIh_snd pt opts env im ih a x r hx with h4 | h4
        · exact Or.inl (by rw [h4]; exact List.mem_cons_self a l)
        · exact Or.inr (Or.inr ⟨x, h4⟩)

/-- On a fall-through, the loop's final accumulators are the accumulator fold
over the scanned list. -/
theorem hitLoop_fell_eq (pt : Vec) (opts : HitOpts) (env : HitEnv) :
    ∀ (l : List HShape) (im ih imf ihf : Option (ℚ × HShape)),
      hitLoop pt opts env l im ih = .fell imf ihf →
      candFold pt opts env l (im, ih) = (imf, ihf) := by
  intro l
  induction l with
  | nil =>
    intro im ih imf ihf h
    have h' : LoopRes.fell im ih = LoopRes.fell imf ihf := h
    injection h' with h1 h2
    simp [candFold, h1, h2]
  | cons a l ihl =>
    intro im ih imf ihf h
    rw [hitLoop_cons_eq] at h
    cases hsr : stepRet pt opts env a im ih with
    | some r0 =>
      rw [hsr] at h
      exact absurd (show LoopRes.ret r0 = LoopRes.fell imf ihf from h) (by simp)
    | none =>
      rw [hsr] at h
      have h' : hitLoop pt opts env l (stepIm pt opts env im a)
          (stepIh pt opts env im ih a) = .fell imf ihf := h
      exact ihl _ _ _ _ h'

/-- A shape held in the first accumulator after the fold was scanned or was
held at the start. -/
theorem candFold_fst_mem (pt : Vec) (opts : HitOpts) (env : HitEnv) :
    ∀ (l : List HShape) (im ih : Option (ℚ × HShape)) (d : ℚ) (c : HShape),
      (candFold pt opts env l (im, ih)).1 = some (d, c) →
      c ∈ l ∨ im = some (d, c) := by
  intro l
  induction l with
  | nil => intro im ih d c h; exact Or.inr h
  | cons a l ihl =>
    intro im ih d c h
    have h' : (candFold pt opts env l
        (stepIm pt opts env im a, stepIh pt opts env im ih a)).1 = some (d, c) := h
    rcases ihl _ _ d c h' with h3 | h3
    · exact Or.inl (List.mem_cons_of_mem a h3)
    · rcases stepIm_snd pt opts env im a d c h3 with h4 | h4
      · exact Or.inl (by rw [h4]; exact List.mem_cons_self a l)
      · exact Or.inr h4

/-- A shape held in the second accumulator after the fold was scanned or was
held at the start. -/
theorem candFold_snd_mem (pt : Vec) (opts : HitOpts) (env : HitEnv) :
    ∀ (l : List HShape) (im ih : Option (ℚ × HShape)) (x : ℚ) (c : HShape),
      (candFold pt opts env l (im, ih)).2 = some (x, c) →
      c ∈ l ∨ ih = some (x, c) := by
  intro l
  induction l with
  | nil => intro im ih x c h; exact Or.inr h
  | cons a l ihl =>
    intro im ih x c h
    have h' : (candFold pt opts env l
        (stepIm pt opts env im a, stepIh pt opts env im ih a)).2 = some (x, c) := h
    rcases ihl _ _ x c h' with h3 | h3
    · exact Or.inl (List.mem_cons_of_mem a h3)
    · rcases stepIh_snd pt opts env im ih a x c h3 with h4 | h4
      · exact Or.inl (by rw [h4]; exact List.mem_cons_self a l)
      · exact Or.inr h4

/-- `getShapeAtPoint` only ever returns a shape that survived the candidate
pre-filter. -/
theorem getShapeAtPoint_mem (pt : Vec) (opts : HitOpts) (env : HitEnv)
    (shapes : List HShape) (r : HShape)
    (h : getShapeAtPoint pt opts env shapes = some r) :
    r ∈ shapesToCheck pt opts shapes := by
  unfold getShapeAtPoint at h
  cases hloop : hitLoop pt opts env (shapesToCheck pt opts shapes).reverse none none with
  | ret r0 =>
    rw [hloop] at h
    have h' : r0 = some r := h
    rcases hitLoop_ret_mem pt opts env _ none none r (h' ▸ hloop) with h3 | h3 | h3
    · exact List.mem_reverse.mp h3
    · obtain ⟨d, hd⟩ := h3; exact absurd hd (by simp)
    · obtain ⟨x, hx⟩ := h3; exact absurd hx (by simp)
  | fell im ih =>
    rw [hloop] at h
    have h' : ((im.map Prod.snd) <|> (ih.map Prod.snd)) = some r := h
    have hfold := hitLoop_fell_eq pt opts env _ none none im ih hloop
    cases im with
    | some p =>
      obtain ⟨d, c⟩ := p
      simp only [Option.map_some', Option.some_orElse, Option.some.injEq] at h'
      have h1 : (candFold pt opts env (shapesToCheck pt opts shapes).reverse
          (none, none)).1 = some (d, c) := by rw [hfold]
      rcases candFold_fst_mem pt opts env _ none none d c h1 with h3 | h3
      · exact List.mem_reverse.mp (h' ▸ h3)
      · exact absurd h3 (by simp)
    | none =>
      simp only [Option.map_none', Option.none_orElse] at h'
      cases ih with
      | none => exact absurd h' (by simp)
      | some q =>
        obtain ⟨x, c⟩ := q
        simp only [Option.map_some', Option.some.injEq] at h'
        have h1 : (candFold pt opts env (shapesToCheck pt opts shapes).reverse
            (none, none)).2 = some (x, c) := by rw [hfold]
        rcases candFold_snd_mem pt opts env _ none none x c h1 with h3 | h3
        · exact List.mem_reverse.mp (h' ▸ h3)
        · exact absurd h3 (by simp)

/-- `minStep` only returns nothing when nothing was held and the shape does
not qualify. -/
theorem minStep_none_elim (key : HShape → ℚ) (qual : HShape → Bool)
    (acc : Option (ℚ × HShape)) (a : HShape)
    (h : minStep key qual acc a = none) : acc = none ∧ qual a = false := by
  unfold minStep at h
  by_cases hq : qual a = true
  · rw [if_pos hq] at h
    cases acc with
    | none => exact absurd h (by simp)
    | some p =>
      obtain ⟨d0, c0⟩ := p
      have hc : (if key a < d0 then some (key a, a) else some (d0, c0)) = none := h
      by_cases hlt : key a < d0
      · rw [if_pos hlt] at hc; exact absurd hc (by simp)
      · rw [if_neg hlt] at hc; exact absurd hc (by simp)
  · rw [if_neg hq] at h
    simp only [Bool.not_eq_true] at hq
    exact ⟨h, hq⟩

/-- What `minStep` can hold: the fresh shape at its key, or the incumbent. -/
theorem minStep_mem (key : HShape → ℚ) (qual : HShape → Bool)
    (acc : Option (ℚ × HShape)) (a : HShape) (d' : ℚ) (c' : HShape)
    (h : minStep key qual acc a = some (d', c')) :
    (c' = a ∧ d' = key a ∧ qual a = true) ∨ acc = some (d', c') := by
  unfold minStep at h
  by_cases hq : qual a = true
  · rw [if_pos hq] at h
    cases acc with
    | none =>
      have hc : some (key a, a) = some (d', c') := h
      simp only [Option.some.injEq, Prod.mk.injEq] at hc
      exact Or.inl ⟨hc.2.symm, hc.1.symm, hq⟩
    | some p =>
      obtain ⟨d0, c0⟩ := p
      have hc : (if key a < d0 then some (key a, a) else some (d0, c0)) = some (d', c') := h
      by_cases hlt : key a < d0
      · rw [if_pos hlt] at hc
        simp only [Option.some.injEq, Prod.mk.injEq] at hc
        exact Or.inl ⟨hc.2.symm, hc.1.symm, hq⟩
      · rw [if_neg hlt] at hc
        exact Or.inr hc
  · rw [if_neg hq] at h
    exact Or.inr h

/-- After a qualifying shape's step, the held key is at most that shape's key. -/
theorem minStep_le_key (key : HShape → ℚ) (qual : HShape → Bool)
    (acc : Option (ℚ × HShape)) (a : HShape) (d' : ℚ) (c' : HShape)
    (hq : qual a = true) (h : minStep key qual acc a = some (d', c')) : d' ≤ key a := by
  unfold minStep at h
  rw [if_pos hq] at h
  cases acc with
  | none =>
    have hc : some (key a, a) = some (d', c') := h
    simp only [Option.some.injEq, Prod.mk.injEq] at hc
    exact le_of_eq hc.1.symm
  | some p =>
    obtain ⟨d0, c0⟩ := p
    have hc : (if key a < d0 then some (key a, a) else some (d0, c0)) = some (d', c') := h
    by_cases hlt : key a < d0
    · rw [if_pos hlt] at hc
      simp only [Option.some.injEq, Prod.mk.injEq] at hc
      exact le_of_eq hc.1.symm
    · rw [if_neg hlt] at hc
      simp only [Option.some.injEq, Prod.mk.injEq] at hc
      rw [← hc.1]
      exact le_of_not_lt hlt

/-- A step never raises the held key. -/
theorem minStep_acc_le (key : HShape → ℚ) (qual : HShape → Bool)
    (acc : Option (ℚ × HShape)) (a : HShape) (d0 : ℚ) (c0 : HShape)
    (hacc : acc = some (d0, c0)) :
    ∃ d1 c1, minStep key qual acc a = some (d1, c1) ∧ d1 ≤ d0 := by
  subst hacc
  unfold minStep
  by_cases hq : qual a = true
  · rw [if_pos hq]
    show ∃ d1 c1,
      (if key a < d0 then some (key a, a) else some (d0, c0)) = some (d1, c1) ∧ d1 ≤ d0
    by_cases hlt : key a < d0
    · exact ⟨key a, a, by rw [if_pos hlt], le_of_lt hlt⟩
    · exact ⟨d0, c0, by rw [if_neg hlt], le_refl d0⟩
  · rw [if_neg hq]
    exact ⟨d0, c0, rfl, le_refl d0⟩

/-- A qualifying shape forces the step to hold something. -/
theorem minStep_qual_some (key : HShape → ℚ) (qual : HShape → Bool)
    (acc : Option (ℚ × HShape)) (a : HShape) (hq : qual a = true) :
    ∃ p, minStep key qual acc a = some p := by
  unfold minStep
  rw [if_pos hq]
  cases acc with
  | none => exact ⟨(key a, a), rfl⟩
  | some p =>
    obtain ⟨d0, c0⟩ := p
    show ∃ p, (if key a < d0 then some (key a, a) else some (d0, c0)) = some p
    by_cases hlt : key a < d0
    · exact ⟨(key a, a), by rw [if_pos hlt]⟩
    · exact ⟨(d0, c0), by rw [if_neg hlt]⟩

/-- The running minimum comes out empty only when nothing was held and no
scanned shape qualified. -/
theorem minByFold_eq_none (key : HShape → ℚ) (qual : HShape → Bool) :
    ∀ (l : List HShape) (acc : Option (ℚ × HShape)),
      minByFold key qual l acc = none → acc = none ∧ ∀ s ∈ l, qual s = false := by
  intro l
  induction l with
  | nil =>
    intro acc h
    exact ⟨h, by intro s hs; exact absurd hs (List.not_mem_nil s)⟩
  | cons a l ihl =>
    intro acc h
    have h' : minByFold key qual l (minStep key qual acc a) = none := h
    obtain ⟨hstep, hrest⟩ := ihl _ h'
    obtain ⟨hacc, hqa⟩ := minStep_none_elim key qual acc a hstep
    refine ⟨hacc, ?_⟩
    intro s hs
    rcases List.mem_cons.mp hs with rfl | hs'
    · exact hqa
    · exact hrest s hs'

/-- The running minimum's held entry is a qualifying scanned shape at its own
key (or the starting entry), and its key is a lower bound of every qualifying
scanned shape's key and of the starting key. -/
theorem minByFold_some_spec (key : HShape → ℚ) (qual : HShape → Bool) :
    ∀ (l : List HShape) (acc : Option (ℚ × HShape)) (d : ℚ) (c : HShape),
      minByFold key qual l acc = some (d, c) →
      ((c ∈ l ∧ qual c = true ∧ d = key c) ∨ acc = some (d, c)) ∧
      (∀ s ∈ l, qual s = true → d ≤ key s) ∧
      (∀ d0 c0, acc = some (d0, c0) → d ≤ d0) := by
  intro l
  induction l with
  | nil =>
    intro acc d c h
    have h' : acc = some (d, c) := h
    refine ⟨Or.inr h', ?_, ?_⟩
    · intro s hs; exact absurd hs (List.not_mem_nil s)
    · intro d0 c0 hacc
      rw [h'] at hacc
      simp only [Option.some.injEq, Prod.mk.injEq] at hacc
      exact le_of_eq hacc.1
  | cons a l ihl =>
    intro acc d c h
    have h' : minByFold key qual l (minStep key qual acc a) = some (d, c) := h
    obtain ⟨ih1, ih2, ih3⟩ := ihl _ d c h'
    refine ⟨?_, ?_, ?_⟩
    · rcases ih1 with ⟨hm, hq, hk⟩ | hstep
      · exact Or.inl ⟨List.mem_cons_of_mem a hm, hq, hk⟩
      · rcases minStep_mem key qual acc a d c hstep with ⟨hca, hda, hqa⟩ | hacc
        · refine Or.inl ⟨?_, ?_, ?_⟩
          · rw [hca]; exact List.mem_cons_self a l
          · rw [hca]; exact hqa
          · rw [hca]; exact hda
        · exact Or.inr hacc
    · intro s hs hq
      rcases List.mem_cons.mp hs with rfl | hs'
      · obtain ⟨p, hp⟩ := minStep_qual_some key qual acc s hq
        obtain ⟨d1, c1⟩ := p
        exact le_trans (ih3 d1 c1 hp) (minStep_le_key key qual acc s d1 c1 hq hp)
      · exact ih2 s hs' hq
    · intro d0 c0 hacc
      obtain ⟨d1, c1, hstep, hle1⟩ := minStep_acc_le key qual acc a d0 c0 hacc
      exact le_trans (ih3 d1 c1 hstep) hle1

/-- The in-margin step of the loop is the spec's running minimum by edge
distance over the in-margin qualifiers. -/
theorem stepIm_eq_minStep (pt : Vec) (opts : HitOpts) (env : HitEnv)
    (im : Option (ℚ × HShape)) (a : HShape) :
    stepIm pt opts env im a = minStep (mdist pt opts) (marginQual pt opts env) im a := rfl

/-- While no in-margin candidate is held, the hollow step of the loop is the
spec's running minimum by area over the hollow qualifiers. -/
theorem stepIh_none_eq (pt : Vec) (opts : HitOpts) (env : HitEnv)
    (ih : Option (ℚ × HShape)) (a : HShape) :
    stepIh pt opts env none ih a =
      minStep (fun s => s.geometry.area) (hollowQual pt opts env) ih a := by
  unfold stepIh minStep
  simp

/-- The first loop accumulator is the running minimum by edge distance. -/
theorem candFold_fst_eq (pt : Vec) (opts : HitOpts) (env : HitEnv) :
    ∀ (l : List HShape) (im ih : Option (ℚ × HShape)),
      (candFold pt opts env l (im, ih)).1 =
        minByFold (mdist pt opts) (marginQual pt opts env) l im := by
  intro l
  induction l with
  | nil => intro im ih; rfl
  | cons a l ihl =>
    intro im ih
    show (candFold pt opts env l
        (stepIm pt opts env im a, stepIh pt opts env im ih a)).1 =
      minByFold (mdist pt opts) (marginQual pt opts env) l
        (minStep (mdist pt opts) (marginQual pt opts env) im a)
    rw [← stepIm_eq_minStep]
    exact ihl _ _

/-- When no scanned shape margin-qualifies, the second loop accumulator is the
running minimum by area. -/
theorem candFold_snd_eq (pt : Vec) (opts : HitOpts) (env : HitEnv) :
    ∀ (l : List HShape) (ih : Option (ℚ × HShape)),
      (∀ a ∈ l, marginQual pt opts env a = false) →
      (candFold pt opts env l (none, ih)).2 =
        minByFold (fun s => s.geometry.area) (hollowQual pt opts env) l ih := by
  intro l
  induction l with
  | nil => intro ih h; rfl
  | cons a l ihl =>
    intro ih h
    have hma : marginQual pt opts env a = false := h a (List.mem_cons_self a l)
    have hsi : stepIm pt opts env none a = none := by simp [stepIm, hma]
    show (candFold pt opts env l
        (stepIm pt opts env none a, stepIh pt opts env none ih a)).2 =
      minByFold (fun s => s.geometry.area) (hollowQual pt opts env) l
        (minStep (fun s => s.geometry.area) (hollowQual pt opts env) ih a)
    rw [hsi, ← stepIh_none_eq]
    exact ihl _ (fun b hb => h b (List.mem_cons_of_mem a hb))

/-- Claim C3: when the scan falls through (no filled shape, frame, open shape
or label produced an immediate hit), the result is an in-margin candidate of
least absolute edge distance if any shape margin-qualifies, else a hollow
candidate of least area if any shape hollow-qualifies, else no hit. -/
theorem claim3_fallthrough_tie_break (pt : Vec) (opts : HitOpts) (env : HitEnv)
    (shapes : List HShape) (imf ihf : Option (ℚ × HShape))
    (hfell : hitLoop pt opts env ((shapesToCheck pt opts shapes).reverse) none none =
      LoopRes.fell imf ihf) :
    (∀ r, getShapeAtPoint pt opts env shapes = some r →
      r ∈ shapesToCheck pt opts shapes ∧
      ((marginQual pt opts env r = true ∧
        ∀ c ∈ shapesToCheck pt opts shapes, marginQual pt opts env c = true →
          mdist pt opts r ≤ mdist pt opts c) ∨
       ((∀ c ∈ shapesToCheck pt opts shapes, marginQual pt opts env c = false) ∧
        hollowQual pt opts env r = true ∧
        ∀ c ∈ shapesToCheck pt opts shapes, hollowQual pt opts env c = true →
          r.geometry.area ≤ c.geometry.area))) ∧
    (getShapeAtPoint pt opts env shapes = none →
      ∀ c ∈ shapesToCheck pt opts shapes,
        marginQual pt opts env c = false ∧ hollowQual pt opts env c = false) := by
  have hfold := hitLoop_fell_eq pt opts env _ none none imf ihf hfell
  have hres : getShapeAtPoint pt opts env shapes =
      ((imf.map Prod.snd) <|> (ihf.map Prod.snd)) := by
    unfold getShapeAtPoint
    rw [hfell]
  have hfst : minByFold (mdist pt opts) (marginQual pt opts env)
      ((shapesToCheck pt opts shapes).reverse) none = imf := by
    rw [← candFold_fst_eq pt opts env _ none none, hfold]
  constructor
  · intro r hr
    rw [hres] at hr
    cases imf with
    | some p =>
      obtain ⟨d, c⟩ := p
      simp only [Option.map_some', Option.some_orElse, Option.some.injEq] at hr
      subst hr
      obtain ⟨hm1, hm2, _⟩ := minByFold_some_spec (mdist pt opts)
        (marginQual pt opts env) _ none d c hfst
      rcases hm1 with ⟨hmem, hq, hk⟩ | habs
      · refine ⟨List.mem_reverse.mp hmem, Or.inl ⟨hq, ?_⟩⟩
        intro c' hc' hq'
        have hle := hm2 c' (List.mem_reverse.mpr hc') hq'
        rw [← hk]
        exact hle
      · exact absurd habs (by simp)
    | none =>
      simp only [Option.map_none', Option.none_orElse] at hr
      have hnoqrev : ∀ s ∈ (shapesToCheck pt opts shapes).reverse,
          marginQual pt opts env s = false :=
        (minByFold_eq_none (mdist pt opts) (marginQual pt opts env) _ none hfst).2
      have hsnd : minByFold (fun s => s.geometry.area) (hollowQual pt opts env)
          ((shapesToCheck pt opts shapes).reverse) none = ihf := by
        rw [← candFold_snd_eq pt opts env _ none hnoqrev, hfold]
      cases ihf with
      | none => exact absurd hr (by simp)
      | some q =>
        obtain ⟨x, c⟩ := q
        simp only [Option.map_some', Option.some.injEq] at hr
        subst hr
        obtain ⟨hh1, hh2, _⟩ := minByFold_some_spec (fun s => s.geometry.area)
          (hollowQual pt opts env) _ none x c hsnd
        rcases hh1 with ⟨hmem, hq, hk⟩ | habs
        · refine ⟨List.mem_reverse.mp hmem,
            Or.inr ⟨fun c' hc' => hnoqrev c' (List.mem_reverse.mpr hc'), hq, ?_⟩⟩
          intro c' hc' hq'
          have hle : x ≤ c'.geometry.area := hh2 c' (List.mem_reverse.mpr hc') hq'
          have hk' : x = c.geometry.area := hk
          rw [← hk']
          exact hle
        · exact absurd habs (by simp)
  · intro hnone c hc
    rw [hres] at hnone
    cases imf with
    | some p =>
      obtain ⟨d, c0⟩ := p
      exact absurd hnone (by simp)
    | none =>
      simp only [Option.map_none', Option.none_orElse] at hnone
      have hnoqrev : ∀ s ∈ (shapesToCheck pt opts shapes).reverse,
          marginQual pt opts env s = false :=
        (minByFold_eq_none (mdist pt opts) (marginQual pt opts env) _ none hfst).2
      have hsnd : minByFold (fun s => s.geometry.area) (hollowQual pt opts env)
          ((shapesToCheck pt opts shapes).reverse) none = ihf := by
        rw [← candFold_snd_eq pt opts env _ none hnoqrev, hfold]
      cases ihf with
      | some q =>
        obtain ⟨x, c0⟩ := q
        exact absurd hnone (by simp)
      | none =>
        have hnohrev := (minByFold_eq_none (fun s => s.geometry.area)
          (hollowQual pt opts env) _ none hsnd).2
        exact ⟨hnoqrev c (List.mem_reverse.mpr hc), hnohrev c (List.mem_reverse.mpr hc)⟩

/-- Witness for claim C3: two overlapping hollow shapes of areas 100 and 400
both containing the query point at margin 0 — the scan falls through and the
area-100 shape is returned, and it is a least-area hollow qualifier. -/
theorem claim3_witness :
    getShapeAtPoint pt10 opts10 env10 [hollow400, hollow100] = some hollow100 ∧
    (hollow100 ∈ shapesToCheck pt10 opts10 [hollow400, hollow100] ∧
     ((marginQual pt10 opts10 env10 hollow100 = true ∧
       ∀ c ∈ shapesToCheck pt10 opts10 [hollow400, hollow100],
         marginQual pt10 opts10 env10 c = true →
           mdist pt10 opts10 hollow100 ≤ mdist pt10 opts10 c) ∨
      ((∀ c ∈ shapesToCheck pt10 opts10 [hollow400, hollow100],
          marginQual pt10 opts10 env10 c = false) ∧
       hollowQual pt10 opts10 env10 hollow100 = true ∧
       ∀ c ∈ shapesToCheck pt10 opts10 [hollow400, hollow100],
         hollowQual pt10 opts10 env10 c = true →
           hollow100.geometry.area ≤ c.geometry.area))) :=
  ⟨by with_unfolding_all rfl,
   (claim3_fallthrough_tie_break pt10 opts10 env10 [hollow400, hollow100] none
      (some (100, hollow100)) (by with_unfolding_all rfl)).1 hollow100
     (by with_unfolding_all rfl)⟩

/-- Claim C5: a zero-vertex clip mask (empty ancestor-container intersection)
yields no masked page bounds, and point hit-testing never finds the shape: the
mask filters it out of the `getShapeAtPoint` candidate list, and
`isPointInShape` misses outright — whatever the query point, even one inside
the shape's geometry. -/
theorem claim5_zero_vertex_mask_excluded
    (ipp : List Vec → List Vec → Option (List Vec)) (pb : Box)
    (pt : Vec) (opts : HitOpts) (env : HitEnv) (shapes : List HShape)
    (s : HShape) (m : ℚ) (hi : Bool)
    (hmask : s.mask = some ([] : List Vec)) :
    maskedPageBoundsCalc ipp (some pb) (some []) = none ∧
    getShapeAtPoint pt opts env shapes ≠ some s ∧
    isPointInShape s pt m hi = false := by
  refine ⟨rfl, ?_, ?_⟩
  · intro hcontra
    have hmem := getShapeAtPoint_mem pt opts env shapes s hcontra
    unfold shapesToCheck at hmem
    have hpred := (List.mem_filter.mp hmem).2
    rw [hmask] at hpred
    simp [pointInPolygon] at hpred
  · unfold isPointInShape
    rw [hmask]
    simp [pointInPolygon]

/-- Witness for claim C5: a concrete zero-vertex-masked shape whose geometry
contains the query point is excluded from bounds and from both hit tests. -/
theorem claim5_witness :
    maskedPageBoundsCalc (fun _ _ => none) (some ⟨0, 0, 10, 10⟩) (some []) = none ∧
    getShapeAtPoint pt10 opts10 env10 [maskShape5] ≠ some maskShape5 ∧
    isPointInShape maskShape5 pt10 0 false = false :=
  claim5_zero_vertex_mask_excluded (fun _ _ => none) ⟨0, 0, 10, 10⟩ pt10 opts10 env10
    [maskShape5] maskShape5 0 false rfl

/-- Witness for claim C8: a concretely rotated shape (rotation 3-4-5 triangle)
is moved under a rotated frame and back; its page transform survives the first
move and its local placement survives the round trip. -/
theorem claim8_witness :
    getShapePageTransform (reparentShapes storeW [2] (ParentId.shape 1) none) 2 =
        getShapePageTransform storeW 2 ∧
    ∃ t, getShape (reparentShapes (reparentShapes storeW [2] (ParentId.shape 1) none) [2]
        shapeW.parentId none) 2 = some t ∧
      t.x = shapeW.x ∧ t.y = shapeW.y ∧ t.rot = shapeW.rot :=
  claim8_reparent_preserves_placement storeW (ParentId.shape 1) none none 2 shapeW
    rfl
    (by with_unfolding_all decide)
    (by with_unfolding_all decide)
    (by decide)
    (by decide)
    (by decide)
    trivial

/-- Writing a terminal and reading the same handle back gives the written
terminal (on a record that had that terminal). -/
theorem getTerminal_setTerminal_same (p : Props) (h : HandleId) (t t0 : Terminal)
    (hp : getTerminal p h = some t0) : getTerminal (setTerminal p h t) h = some t := by
  cases p with
  | otherProps => cases h <;> exact absurd hp (by simp [getTerminal])
  | arrowProps a b => cases h <;> rfl

/-- Writing one terminal leaves the other handle's terminal unchanged. -/
theorem getTerminal_setTerminal_ne (p : Props) (h h' : HandleId) (t : Terminal)
    (hne : h' ≠ h) : getTerminal (setTerminal p h' t) h = getTerminal p h := by
  cases p with
  | otherProps => cases h' <;> rfl
  | arrowProps a b =>
    cases h' <;> cases h
    · exact absurd rfl hne
    · rfl
    · rfl
    · exact absurd rfl hne

/-- A rigid matrix undoes its own inverse on any point. -/
theorem Mat.apply_invert_of_isRigid (m : Mat) (hm : m.IsRigid) (p : Vec) :
    m.applyToPoint (m.invert.applyToPoint p) = p := by
  have hinv := Mat.invert_of_isRigid hm
  obtain ⟨hd, hc, hu⟩ := hm
  rw [hinv]
  obtain ⟨px, py⟩ := p
  simp only [Mat.applyToPoint]
  rw [hc, hd]
  refine congrArg₂ Vec.mk ?_ ?_
  · linear_combination (px - m.e) * hu
  · linear_combination (py - m.f) * hu

/-- `store.put` of a single record. -/
theorem getShape_storePut_one (st : Store) (u : Shape) (j : Nat) :
    getShape (storePut st [u]) j = if u.id = j then some u else getShape st j :=
  getShape_putOne st u j

/-- A binding-cleanup step does not change the record fields page transforms
read. -/
theorem unbindStep_core (acc : Store) (pr : Nat × HandleId) (j : Nat) :
    (getShape (unbindStep acc pr) j).map coreOf = (getShape acc j).map coreOf := by
  unfold unbindStep
  cases hg : getShape acc pr.1 with
  | none => rfl
  | some arrow =>
    simp only [unbindArrowTerminal]
    rw [getShape_storePut_one]
    by_cases hj : arrow.id = j
    · rw [if_pos hj]
      have hpr : pr.1 = j := (getShape_id hg).symm.trans hj
      rw [← hpr, hg]
      rfl
    · rw [if_neg hj]

/-- A binding-cleanup step keeps the store size. -/
theorem unbindStep_length (acc : Store) (pr : Nat × HandleId) :
    (unbindStep acc pr).shapes.length = acc.shapes.length := by
  unfold unbindStep
  cases hg : getShape acc pr.1 with
  | none => rfl
  | some arrow =>
    simp only [unbindArrowTerminal]
    show (putOne acc _).shapes.length = acc.shapes.length
    apply putOne_length
    have hany := any_of_getShape_eq_some hg
    have hid : arrow.id = pr.1 := getShape_id hg
    simpa [hid] using hany

/-- The whole binding-cleanup fold changes no record fields page transforms
read. -/
theorem fold_unbind_core :
    ∀ (pairs : List (Nat × HandleId)) (acc : Store) (j : Nat),
      (getShape (pairs.foldl unbindStep acc) j).map coreOf = (getShape acc j).map coreOf := by
  intro pairs
  induction pairs with
  | nil => intro acc j; rfl
  | cons pr rest ih =>
    intro acc j
    show (getShape (rest.foldl unbindStep (unbindStep acc pr)) j).map coreOf = _
    rw [ih (unbindStep acc pr) j, unbindStep_core]

/-- The whole binding-cleanup fold keeps the store size. -/
theorem fold_unbind_length :
    ∀ (pairs : List (Nat × HandleId)) (acc : Store),
      (pairs.foldl unbindStep acc).shapes.length = acc.shapes.length := by
  intro pairs
  induction pairs with
  | nil => intro acc; rfl
  | cons pr rest ih =>
    intro acc
    show (rest.foldl unbindStep (unbindStep acc pr)).shapes.length = _
    rw [ih (unbindStep acc pr), unbindStep_length]

/-- A record whose handle already holds a `point` terminal keeps it across any
single binding-cleanup step (re-unbinding a point terminal rewrites the same
coordinates). -/
theorem unbindStep_keeps_point (acc : Store) (pr : Nat × HandleId) (aId : Nat)
    (h : HandleId) (X Y : ℚ) (ar : Shape)
    (hga : getShape acc aId = some ar)
    (hterm : getTerminal ar.props h = some (Terminal.point X Y)) :
    ∃ ar', getShape (unbindStep acc pr) aId = some ar' ∧
      getTerminal ar'.props h = some (Terminal.point X Y) := by
  unfold unbindStep
  cases hg : getShape acc pr.1 with
  | none => exact ⟨ar, hga, hterm⟩
  | some arrow =>
    have hid : arrow.id = pr.1 := getShape_id hg
    simp only [unbindArrowTerminal]
    by_cases hidA : pr.1 = aId
    · have har : arrow = ar := by
        rw [hidA] at hg
        rw [hga] at hg
        injection hg with he
        exact he.symm
      subst har
      by_cases hh : pr.2 = h
      · have hv : getArrowTerminalsInArrowSpace acc arrow pr.2 = ⟨X, Y⟩ := by
          unfold getArrowTerminalsInArrowSpace
          rw [hh, hterm]
        refine ⟨{ arrow with props := setTerminal arrow.props pr.2 (Terminal.point
            (getArrowTerminalsInArrowSpace acc arrow pr.2).x
            (getArrowTerminalsInArrowSpace acc arrow pr.2).y) }, ?_, ?_⟩
        · rw [getShape_storePut_one, if_pos (hid.trans hidA)]
        · show getTerminal (setTerminal arrow.props pr.2 (Terminal.point
              (getArrowTerminalsInArrowSpace acc arrow pr.2).x
              (getArrowTerminalsInArrowSpace acc arrow pr.2).y)) h =
            some (Terminal.point X Y)
          rw [hv, hh]
          exact getTerminal_setTerminal_same arrow.props h (Terminal.point X Y) _ hterm
      · refine ⟨{ arrow with props := setTerminal arrow.props pr.2 (Terminal.point
            (getArrowTerminalsInArrowSpace acc arrow pr.2).x
            (getArrowTerminalsInArrowSpace acc arrow pr.2).y) }, ?_, ?_⟩
        · rw [getShape_storePut_one, if_pos (hid.trans hidA)]
        · show getTerminal (setTerminal arrow.props pr.2 (Terminal.point
              (getArrowTerminalsInArrowSpace acc arrow pr.2).x
              (getArrowTerminalsInArrowSpace acc arrow pr.2).y)) h =
            some (Terminal.point X Y)
          rw [getTerminal_setTerminal_ne arrow.props h pr.2 _ hh]
          exact hterm
    · refine ⟨ar, ?_, hterm⟩
      rw [getShape_storePut_one, if_neg (fun hc => hidA (hid.symm ▸ hc))]
      exact hga

/-- A `point` terminal survives the whole binding-cleanup fold. -/
theorem fold_unbind_keeps_point (aId : Nat) (h : HandleId) (X Y : ℚ) :
    ∀ (pairs : List (Nat × HandleId)) (acc : Store) (ar : Shape),
      getShape acc aId = some ar →
      getTerminal ar.props h = some (Terminal.point X Y) →
      ∃ ar', getShape (pairs.foldl unbindStep acc) aId = some ar' ∧
        getTerminal ar'.props h = some (Terminal.point X Y) := by
  intro pairs
  induction pairs with
  | nil => intro acc ar h1 h2; exact ⟨ar, h1, h2⟩
  | cons pr rest ih =>
    intro acc ar h1 h2
    obtain ⟨ar1, hg1, ht1⟩ := unbindStep_keeps_point acc pr aId h X Y ar h1 h2
    exact ih (unbindStep acc pr) ar1 hg1 ht1

/-- The binding-cleanup fold converts a handle bound to `tId` into a `point`
terminal at the bound shape's page origin pulled back through the arrow's page
transform — both read from the pre-cleanup store. -/
theorem unbind_fold_point (st : Store) (aId tId : Nat) (h : HandleId)
    (hsome : (getShape st aId).isSome = true) :
    ∀ (pairs : List (Nat × HandleId)) (acc : Store),
      (∀ j, (getShape acc j).map coreOf = (getShape st j).map coreOf) →
      acc.shapes.length = st.shapes.length →
      (aId, h) ∈ pairs →
      (∀ ar, getShape acc aId = some ar →
        getTerminal ar.props h = some (Terminal.binding tId)) →
      ∃ ar', getShape (pairs.foldl unbindStep acc) aId = some ar' ∧
        getTerminal ar'.props h = some (Terminal.point
          ((getShapePageTransform st aId).invert.applyToPoint
            ((getShapePageTransform st tId).point)).x
          ((getShapePageTransform st aId).invert.applyToPoint
            ((getShapePageTransform st tId).point)).y) := by
  intro pairs
  induction pairs with
  | nil => intro acc _ _ hmem _; exact absurd hmem (List.not_mem_nil _)
  | cons pr rest ih =>
    obtain ⟨p1, p2⟩ := pr
    intro acc hcore hlen hmem hbind
    by_cases hpr : (p1, p2) = (aId, h)
    · injection hpr with hp1 hp2
      have hp1' := hp1.symm
      have hp2' := hp2.symm
      subst hp1'
      subst hp2'
      have hex : (getShape acc aId).isSome = true := by
        have hcj := hcore aId
        cases hg : getShape acc aId with
        | some ar => rfl
        | none =>
          rw [hg] at hcj
          cases hgs : getShape st aId with
          | none => rw [hgs] at hsome; exact absurd hsome (by simp)
          | some s0 => rw [hgs] at hcj; exact absurd hcj (by simp)
      obtain ⟨ar0, hg0⟩ := Option.isSome_iff_exists.mp hex
      have hid0 : ar0.id = aId := getShape_id hg0
      have hterm0 := hbind ar0 hg0
      have hPTa : getShapePageTransform acc aId = getShapePageTransform st aId :=
        getShapePageTransform_congr_chain st acc hlen aId (fun j _ => (hcore j).symm)
      have hPTt : getShapePageTransform acc tId = getShapePageTransform st tId :=
        getShapePageTransform_congr_chain st acc hlen tId (fun j _ => (hcore j).symm)
      have hv : getArrowTerminalsInArrowSpace acc ar0 h =
          (getShapePageTransform st aId).invert.applyToPoint
            ((getShapePageTransform st tId).point) := by
        unfold getArrowTerminalsInArrowSpace
        rw [hterm0]
        show (getShapePageTransform acc ar0.id).invert.applyToPoint
          ((getShapePageTransform acc tId).point) = _
        rw [hid0, hPTa, hPTt]
      have hstep : unbindStep acc (aId, h) = unbindArrowTerminal acc ar0 h := by
        unfold unbindStep
        rw [show getShape acc (aId, h).1 = some ar0 from hg0]
      have hput : getShape (unbindStep acc (aId, h)) aId = some { ar0 with
          props := setTerminal ar0.props h (Terminal.point
            (getArrowTerminalsInArrowSpace acc ar0 h).x
            (getArrowTerminalsInArrowSpace acc ar0 h).y) } := by
        rw [hstep]
        simp only [unbindArrowTerminal]
        rw [getShape_storePut_one, if_pos hid0]
      have hterm1 : getTerminal ({ ar0 with
          props := setTerminal ar0.props h (Terminal.point
            (getArrowTerminalsInArrowSpace acc ar0 h).x
            (getArrowTerminalsInArrowSpace acc ar0 h).y) } : Shape).props h =
          some (Terminal.point
            ((getShapePageTransform st aId).invert.applyToPoint
              ((getShapePageTransform st tId).point)).x
            ((getShapePageTransform st aId).invert.applyToPoint
              ((getShapePageTransform st tId).point)).y) := by
        show getTerminal (setTerminal ar0.props h (Terminal.point
            (getArrowTerminalsInArrowSpace acc ar0 h).x
            (getArrowTerminalsInArrowSpace acc ar0 h).y)) h = _
        rw [hv]
        exact getTerminal_setTerminal_same ar0.props h _ _ hterm0
      exact fold_unbind_keeps_point aId h _ _ rest (unbindStep acc (aId, h)) _ hput hterm1
    · have hmem' : (aId, h) ∈ rest := by
        rcases List.mem_cons.mp hmem with heq | hr
        · exact absurd heq.symm hpr
        · exact hr
      have hcore1 : ∀ j, (getShape (unbindStep acc (p1, p2)) j).map coreOf =
          (getShape st j).map coreOf :=
        fun j => (unbindStep_core acc (p1, p2) j).trans (hcore j)
      have hlen1 : (unbindStep acc (p1, p2)).shapes.length = st.shapes.length :=
        (unbindStep_length acc (p1, p2)).trans hlen
      have hbind1 : ∀ ar1, getShape (unbindStep acc (p1, p2)) aId = some ar1 →
          getTerminal ar1.props h = some (Terminal.binding tId) := by
        intro ar1 hg1
        unfold unbindStep at hg1
        cases hg : getShape acc (p1, p2).1 with
        | none =>
          rw [hg] at hg1
          exact hbind ar1 hg1
        | some arrow =>
          rw [hg] at hg1
          have hg1' : getShape (storePut acc [{ arrow with
              props := setTerminal arrow.props (p1, p2).2 (Terminal.point
                (getArrowTerminalsInArrowSpace acc arrow (p1, p2).2).x
                (getArrowTerminalsInArrowSpace acc arrow (p1, p2).2).y) }]) aId =
              some ar1 := hg1
          rw [getShape_storePut_one] at hg1'
          by_cases hidA : arrow.id = aId
          · rw [if_pos hidA] at hg1'
            have hp1A : p1 = aId := (getShape_id hg).symm.trans hidA
            have hp2h : (p1, p2).2 ≠ h := by
              intro hcontra
              exact hpr (by rw [hp1A, show p2 = h from hcontra])
            have hga : getShape acc aId = some arrow := by rw [← hp1A]; exact hg
            have htarrow := hbind arrow hga
            have har1 : ({ arrow with
                props := setTerminal arrow.props (p1, p2).2 (Terminal.point
                  (getArrowTerminalsInArrowSpace acc arrow (p1, p2).2).x
                  (getArrowTerminalsInArrowSpace acc arrow (p1, p2).2).y) } : Shape) =
                ar1 := by injection hg1'
            rw [← har1]
            show getTerminal (setTerminal arrow.props (p1, p2).2 _) h = _
            rw [getTerminal_setTerminal_ne arrow.props h (p1, p2).2 _ hp2h]
            exact htarrow
          · rw [if_neg hidA] at hg1'
            exact hbind ar1 hg1'
      exact ih (unbindStep acc (p1, p2)) hcore1 hlen1 hmem' hbind1

/-- Any record's binding contribution lands in the bindings index. -/
theorem mem_foldr_contrib (target : Nat) :
    ∀ (l : List Shape) (s : Shape), s ∈ l →
      ∀ pr ∈ bindingContrib target s,
        pr ∈ l.foldr (fun s acc => bindingContrib target s ++ acc) [] := by
  intro l
  induction l with
  | nil => intro s hs; exact absurd hs (List.not_mem_nil s)
  | cons a l ih =>
    intro s hs pr hpr
    rcases List.mem_cons.mp hs with rfl | hs'
    · exact List.mem_append.mpr (Or.inl hpr)
    · exact List.mem_append.mpr (Or.inr (ih s hs' pr hpr))

/-- A bound terminal shows up in its record's binding contribution. -/
theorem pair_mem_contrib (target : Nat) (s : Shape) (h : HandleId)
    (hat : s.stype = SType.arrow)
    (hterm : getTerminal s.props h = some (Terminal.binding target)) :
    (s.id, h) ∈ bindingContrib target s := by
  unfold bindingContrib
  rw [hat]
  cases hp : s.props with
  | otherProps =>
    rw [hp] at hterm
    cases h <;> exact absurd hterm (by simp [getTerminal])
  | arrowProps a b =>
    rw [hp] at hterm
    cases h with
    | hstart =>
      have ha : a = Terminal.binding target := by
        have hx : getTerminal (Props.arrowProps a b) HandleId.hstart = some a := rfl
        rw [hx] at hterm
        injection hterm
      simp [ha]
    | hend =>
      have hb : b = Terminal.binding target := by
        have hx : getTerminal (Props.arrowProps a b) HandleId.hend = some b := rfl
        rw [hx] at hterm
        injection hterm
      simp [hb]

/-- A bound terminal appears in the arrow-bindings index of its target. -/
theorem mem_bindingsTo (st : Store) (target : Nat) (s : Shape) (h : HandleId)
    (hs : s ∈ st.shapes) (hat : s.stype = SType.arrow)
    (hterm : getTerminal s.props h = some (Terminal.binding target)) :
    (s.id, h) ∈ bindingsTo st target :=
  mem_foldr_contrib target st.shapes s hs (s.id, h) (pair_mem_contrib target s h hat hterm)

/-- Removing other ids does not change a lookup. -/
theorem getShape_storeRemove_ne (st : Store) (ids : List Nat) (j : Nat)
    (hj : j ∉ ids) : getShape (storeRemove st ids) j = getShape st j := by
  show (st.shapes.filter (fun s => !(ids.contains s.id))).find? (fun s => s.id == j) =
    st.shapes.find? (fun s => s.id == j)
  have hgen : ∀ l : List Shape,
      (l.filter (fun s => !(ids.contains s.id))).find? (fun s => s.id == j) =
      l.find? (fun s => s.id == j) := by
    intro l
    induction l with
    | nil => rfl
    | cons a l ih =>
      by_cases ha : (ids.contains a.id) = true
      · have hmem : a.id ∈ ids := by simpa using ha
        have hfa : (!(ids.contains a.id)) = false := by rw [ha]; rfl
        have hajf : (a.id == j) = false :=
          beq_eq_false_iff_ne.mpr (fun heq => hj (heq ▸ hmem))
        rw [List.filter_cons, hfa]
        simp only [Bool.false_eq_true, if_false]
        simp only [List.find?_cons, hajf]
        exact ih
      · simp only [Bool.not_eq_true] at ha
        have hfa : (!(ids.contains a.id)) = true := by rw [ha]; rfl
        rw [List.filter_cons, hfa]
        simp only [if_true]
        simp only [List.find?_cons]
        cases a.id == j with
        | true => rfl
        | false => exact ih
  exact hgen st.shapes

/-- The insertion-ordered dedup appends a selection of the scanned elements to
the seed. -/
theorem uniqFirst_structure :
    ∀ (l : List Nat) (acc : List Nat),
      ∃ extra, l.foldl (fun acc a => if a ∈ acc then acc else acc ++ [a]) acc =
          acc ++ extra ∧
        ∀ x ∈ extra, x ∈ l := by
  intro l
  induction l with
  | nil =>
    intro acc
    exact ⟨[], by simp, by intro x hx; exact absurd hx (List.not_mem_nil x)⟩
  | cons a l ih =>
    intro acc
    by_cases ha : a ∈ acc
    · obtain ⟨extra, h1, h2⟩ := ih acc
      refine ⟨extra, ?_, fun x hx => List.mem_cons_of_mem a (h2 x hx)⟩
      show l.foldl _ (if a ∈ acc then acc else acc ++ [a]) = acc ++ extra
      rw [if_pos ha]
      exact h1
    · obtain ⟨extra, h1, h2⟩ := ih (acc ++ [a])
      refine ⟨a :: extra, ?_, ?_⟩
      · show l.foldl _ (if a ∈ acc then acc else acc ++ [a]) = acc ++ a :: extra
        rw [if_neg ha, h1]
        simp
      · intro x hx
        rcases List.mem_cons.mp hx with rfl | hx'
        · exact List.mem_cons_self _ _
        · exact List.mem_cons_of_mem a (h2 x hx')

/-- A `point` terminal on a record not slated for deletion survives the whole
per-record delete fold of `deleteShapes`. -/
theorem delete_fold_keeps_point (aId : Nat) (h : HandleId) (X Y : ℚ) :
    ∀ (ids : List Nat) (acc : Store) (ar : Shape),
      aId ∉ ids →
      getShape acc aId = some ar →
      getTerminal ar.props h = some (Terminal.point X Y) →
      ∃ ar', getShape (ids.foldl (fun acc i =>
          match getShape acc i with
          | none => acc
          | some r => storeRemove (beforeDeleteShape acc r) [i]) acc) aId = some ar' ∧
        getTerminal ar'.props h = some (Terminal.point X Y) := by
  intro ids
  induction ids with
  | nil => intro acc ar _ h1 h2; exact ⟨ar, h1, h2⟩
  | cons i ids ih =>
    intro acc ar hna h1 h2
    have hnai : aId ≠ i := fun hc => hna (hc ▸ List.mem_cons_self i ids)
    have hna' : aId ∉ ids := fun hc => hna (List.mem_cons_of_mem i hc)
    have hkeep : ∃ ar1, getShape (match getShape acc i with
        | none => acc
        | some r => storeRemove (beforeDeleteShape acc r) [i]) aId = some ar1 ∧
        getTerminal ar1.props h = some (Terminal.point X Y) := by
      cases hg : getShape acc i with
      | none => exact ⟨ar, h1, h2⟩
      | some r =>
        obtain ⟨ar1, hg1, ht1⟩ :=
          fold_unbind_keeps_point aId h X Y (bindingsTo acc r.id) acc ar h1 h2
        refine ⟨ar1, ?_, ht1⟩
        show getShape (storeRemove (beforeDeleteShape acc r) [i]) aId = some ar1
        rw [getShape_storeRemove_ne _ _ _ (by simp [hnai])]
        exact hg1
    obtain ⟨ar1, hg1, ht1⟩ := hkeep
    exact ih _ ar1 hna' hg1 ht1

/-- Claim C6: deleting the bound target of a connector endpoint converts that
endpoint from a `binding` terminal into a `point` terminal whose coordinates
are the target's page origin pulled back through the arrow's page transform —
so its page image (the arrow transform applied back) is exactly the endpoint's
last resolved page-space position — and the connector itself survives the
deletion. -/
theorem claim6_delete_unbinds_to_point (st : Store) (tId aId : Nat)
    (tgt arrow : Shape) (h : HandleId)
    (hro : st.isReadonly = false)
    (ht : getShape st tId = some tgt)
    (hlock : tgt.isLocked = false)
    (ha : getShape st aId = some arrow)
    (hat : arrow.stype = SType.arrow)
    (hterm : getTerminal arrow.props h = some (Terminal.binding tId))
    (hne : aId ≠ tId)
    (hdesc : aId ∉ descendantIdsF st st.shapes.length tId)
    (hunit : ∀ t ∈ st.shapes, t.rot.IsUnit) :
    ∃ arrow', getShape (deleteShapes st [tId]) aId = some arrow' ∧
      getTerminal arrow'.props h = some (Terminal.point
        ((getShapePageTransform st aId).invert.applyToPoint
          ((getShapePageTransform st tId).point)).x
        ((getShapePageTransform st aId).invert.applyToPoint
          ((getShapePageTransform st tId).point)).y) ∧
      (getShapePageTransform st aId).applyToPoint
        ((getShapePageTransform st aId).invert.applyToPoint
          ((getShapePageTransform st tId).point)) =
        (getShapePageTransform st tId).point := by
  have hfilter : ([tId].filter
      (fun i => !(((getShape st i).map (fun s => s.isLocked)).getD false))) = [tId] := by
    simp [List.filter_cons, ht, hlock]
  have hlist : [tId] ++ [tId].flatMap (fun i => descendantIdsF st st.shapes.length i) =
      tId :: descendantIdsF st st.shapes.length tId := by
    simp
  obtain ⟨extra, hstruct, hsub⟩ :=
    uniqFirst_structure (descendantIdsF st st.shapes.length tId) [tId]
  have huniq : uniqFirst (tId :: descendantIdsF st st.shapes.length tId) = tId :: extra := by
    show (descendantIdsF st st.shapes.length tId).foldl
        (fun acc a => if a ∈ acc then acc else acc ++ [a])
        (if tId ∈ ([] : List Nat) then [] else [] ++ [tId]) = tId :: extra
    rw [if_neg (List.not_mem_nil tId)]
    rw [show ([] : List Nat) ++ [tId] = [tId] from rfl]
    rw [hstruct]
    rfl
  have hexp : deleteShapes st [tId] =
      (tId :: extra).foldl
        (fun acc i =>
          match getShape acc i with
          | none => acc
          | some r => storeRemove (beforeDeleteShape acc r) [i]) st := by
    unfold deleteShapes
    rw [hfilter, hro]
    simp only [Bool.false_eq_true, if_false, List.isEmpty_cons]
    rw [hlist, huniq]
  -- the first processed id is the target
  have hb := unbind_fold_point st aId tId h (by rw [ha]; rfl) (bindingsTo st tId) st
    (fun j => rfl) rfl
    (by
      have harrmem : arrow ∈ st.shapes := List.mem_of_find?_eq_some ha
      have hidar : arrow.id = aId := getShape_id ha
      have hmm := mem_bindingsTo st tId arrow h harrmem hat hterm
      rw [hidar] at hmm
      exact hmm)
    (by
      intro ar har
      rw [ha] at har
      injection har with hh
      rw [← hh]
      exact hterm)
  obtain ⟨ar1, hg1, ht1⟩ := hb
  have hg1' : getShape (beforeDeleteShape st tgt) aId = some ar1 := by
    show getShape ((bindingsTo st tgt.id).foldl unbindStep st) aId = some ar1
    rw [getShape_id ht]
    exact hg1
  have hg2 : getShape (storeRemove (beforeDeleteShape st tgt) [tId]) aId = some ar1 := by
    rw [getShape_storeRemove_ne _ _ _ (by simp [hne])]
    exact hg1'
  have hnextra : aId ∉ extra := fun hc => hdesc (hsub aId hc)
  obtain ⟨arrow', hgF, htF⟩ := delete_fold_keeps_point aId h _ _ extra
    (storeRemove (beforeDeleteShape st tgt) [tId]) ar1 hnextra hg2 ht1
  refine ⟨arrow', ?_, htF, ?_⟩
  · rw [hexp]
    show getShape (extra.foldl (fun acc i =>
        match getShape acc i with
        | none => acc
        | some r => storeRemove (beforeDeleteShape acc r) [i])
      (match getShape st tId with
        | none => st
        | some r => storeRemove (beforeDeleteShape st r) [tId])) aId = some arrow'
    rw [show (match getShape st tId with
        | none => st
        | some r => storeRemove (beforeDeleteShape st r) [tId]) =
        storeRemove (beforeDeleteShape st tgt) [tId] by rw [ht]]
    exact hgF
  · exact Mat.apply_invert_of_isRigid _ (getShapePageTransform_isRigid st hunit aId) _

/-- Witness for claim C6: deleting the target of a bound arrow start terminal
leaves the arrow in the store with its start converted to a point terminal at
the target's pulled-back page origin. -/
theorem claim6_witness :
    ∃ arrow', getShape (deleteShapes storeC6 [5]) 6 = some arrow' ∧
      getTerminal arrow'.props HandleId.hstart = some (Terminal.point
        ((getShapePageTransform storeC6 6).invert.applyToPoint
          ((getShapePageTransform storeC6 5).point)).x
        ((getShapePageTransform storeC6 6).invert.applyToPoint
          ((getShapePageTransform storeC6 5).point)).y) ∧
      (getShapePageTransform storeC6 6).applyToPoint
        ((getShapePageTransform storeC6 6).invert.applyToPoint
          ((getShapePageTransform storeC6 5).point)) =
        (getShapePageTransform storeC6 5).point :=
  claim6_delete_unbinds_to_point storeC6 5 6 tgtC6 arrowC6 HandleId.hstart
    rfl
    (by with_unfolding_all decide)
    rfl
    (by with_unfolding_all decide)
    rfl
    rfl
    (by decide)
    (by with_unfolding_all decide)
    (by with_unfolding_all decide)

/-- A terminating parent chain stays terminating with more fuel. -/
theorem chainOk_mono (st : Store) :
    ∀ (fuel : Nat) (p : ParentId), chainOk st fuel p = true →
      ∀ f', fuel ≤ f' → chainOk st f' p = true := by
  intro fuel
  induction fuel with
  | zero =>
    intro p h f' _
    cases p with
    | page pg => cases f' <;> rfl
    | shape i =>
      have hnone : getShape st i = none := by
        have h0 : (getShape st i).isNone = true := h
        cases hg : getShape st i with
        | none => rfl
        | some s => rw [hg] at h0; exact absurd h0 (by simp)
      cases f' with
      | zero => exact h
      | succ g => simp [chainOk, hnone]
  | succ g ih =>
    intro p h f' hf
    cases p with
    | page pg => cases f' <;> rfl
    | shape i =>
      obtain ⟨f'', rfl⟩ : ∃ f'', f' = f'' + 1 :=
        ⟨f' - 1, (Nat.succ_pred_eq_of_pos (lt_of_lt_of_le (Nat.succ_pos g) hf)).symm⟩
      cases hg : getShape st i with
      | none => simp [chainOk, hg]
      | some s =>
        have h' : chainOk st g s.parentId = true := by
          have hh : chainOk st (g + 1) (ParentId.shape i) = true := h
          simpa [chainOk, hg] using hh
        have := ih s.parentId h' f'' (Nat.le_of_succ_le_succ hf)
        simp [chainOk, hg, this]

/-- Along a chain certified to terminate within the fuel, `hasAncestorF` does
not depend on any larger fuel. -/
theorem hasAncestorF_stable (st : Store) (anc : Nat) :
    ∀ (fuel : Nat) (i : Nat), chainOk st fuel (ParentId.shape i) = true →
      ∀ f1, fuel ≤ f1 →
        hasAncestorF st f1 (some i) anc = hasAncestorF st fuel (some i) anc := by
  intro fuel
  induction fuel with
  | zero =>
    intro i h f1 _
    have hnone : getShape st i = none := by
      have h0 : (getShape st i).isNone = true := h
      cases hg : getShape st i with
      | none => rfl
      | some s => rw [hg] at h0; exact absurd h0 (by simp)
    simp [hasAncestorF, hnone]
  | succ g ih =>
    intro i h f1 hf
    obtain ⟨f1', rfl⟩ : ∃ f1', f1 = f1' + 1 :=
      ⟨f1 - 1, (Nat.succ_pred_eq_of_pos (lt_of_lt_of_le (Nat.succ_pos g) hf)).symm⟩
    cases hg : getShape st i with
    | none => simp [hasAncestorF, hg]
    | some s =>
      have h' : chainOk st g s.parentId = true := by
        have hh : chainOk st (g + 1) (ParentId.shape i) = true := h
        simpa [chainOk, hg] using hh
      simp only [hasAncestorF, hg]
      by_cases hhead : (s.parentId == ParentId.shape anc) = true
      · simp [hhead]
      · simp only [Bool.not_eq_true] at hhead
        simp only [hhead, Bool.false_eq_true, if_false]
        cases hpar : s.parentId with
        | page pg => simp [getShapeParentOf, getShapeP, hpar, hasAncestorF]
        | shape p =>
          rw [hpar] at h'
          cases hgp : getShape st p with
          | none => simp [getShapeParentOf, getShapeP, hpar, hgp, hasAncestorF]
          | some prec =>
            have hpid : prec.id = p := getShape_id hgp
            simp only [getShapeParentOf, getShapeP, hpar, hgp, Option.map_some', hpid]
            exact ih p h' f1' (Nat.le_of_succ_le_succ hf)

/-- Climbing one parent edge from a known ancestor: the parent of an ancestor
is an ancestor (with one more unit of fuel). -/
theorem hasAncestor_step (st : Store) (aI q : Nat) (anc : Shape)
    (hanc : getShape st aI = some anc)
    (hq : anc.parentId = ParentId.shape q) :
    ∀ (f1 : Nat) (x : Nat), hasAncestorF st f1 (some x) aI = true →
      hasAncestorF st (f1 + 1) (some x) q = true := by
  intro f1
  induction f1 with
  | zero =>
    intro x h
    cases hg : getShape st x with
    | none => rw [hasAncestorF, hg] at h; exact absurd h (by simp)
    | some s =>
      rw [hasAncestorF, hg] at h
      have h' : (if (s.parentId == ParentId.shape aI) = true then true else false) = true := h
      have hhead : (s.parentId == ParentId.shape aI) = true := by
        by_cases hh : (s.parentId == ParentId.shape aI) = true
        · exact hh
        · rw [if_neg hh] at h'
          exact absurd h' (by simp)
      have hpar : s.parentId = ParentId.shape aI := by simpa using hhead
      rw [hasAncestorF, hg]
      by_cases hh2 : (s.parentId == ParentId.shape q) = true
      · simp [hh2]
      · simp only [Bool.not_eq_true] at hh2
        simp only [hh2, Bool.false_eq_true, if_false]
        simp only [getShapeParentOf, getShapeP, hpar, hanc, Option.map_some',
          getShape_id hanc]
        rw [hasAncestorF, hanc]
        simp [hq]
  | succ g ih =>
    intro x h
    cases hg : getShape st x with
    | none => rw [hasAncestorF, hg] at h; exact absurd h (by simp)
    | some s =>
      rw [hasAncestorF, hg] at h
      have h' : (if (s.parentId == ParentId.shape aI) = true then true
          else hasAncestorF st g ((getShapeParentOf st s).map (fun p => p.id)) aI) = true := h
      by_cases hhead : (s.parentId == ParentId.shape aI) = true
      · have hpar : s.parentId = ParentId.shape aI := by simpa using hhead
        rw [hasAncestorF, hg]
        by_cases hh2 : (s.parentId == ParentId.shape q) = true
        · simp [hh2]
        · simp only [Bool.not_eq_true] at hh2
          simp only [hh2, Bool.false_eq_true, if_false]
          simp only [getShapeParentOf, getShapeP, hpar, hanc, Option.map_some',
            getShape_id hanc]
          rw [hasAncestorF, hanc]
          simp [hq]
      · rw [if_neg hhead] at h'
        cases hpar : s.parentId with
        | page pg =>
          simp only [getShapeParentOf, getShapeP, hpar] at h'
          simp [hasAncestorF] at h'
        | shape p =>
          cases hgp : getShape st p with
          | none =>
            simp only [getShapeParentOf, getShapeP, hpar, hgp] at h'
            simp [hasAncestorF] at h'
          | some prec =>
            simp only [getShapeParentOf, getShapeP, hpar, hgp, Option.map_some',
              getShape_id hgp] at h'
            have hstep := ih p h'
            rw [hasAncestorF, hg]
            by_cases hh2 : (s.parentId == ParentId.shape q) = true
            · simp [hh2]
            · simp only [Bool.not_eq_true] at hh2
              simp only [hh2, Bool.false_eq_true, if_false]
              simp only [getShapeParentOf, getShapeP, hpar, hgp, Option.map_some',
                getShape_id hgp]
              exact hstep

/-- Extract the parent-present fact for one record. -/
theorem parentsPresent_elim (st : Store) (hP : parentsPresent st = true)
    (s : Shape) (hs : s ∈ st.shapes) (p : Nat) (hp : s.parentId = ParentId.shape p) :
    (getShape st p).isSome = true := by
  have := List.all_eq_true.mp hP s hs
  rw [hp] at this
  exact this

/-- The ancestor walk stops at a missing candidate. -/
theorem findCommonAncestorWalk_none (st : Store) (others : List Nat)
    (pred : Option (Shape → Bool)) :
    ∀ fuel, findCommonAncestorWalk st others pred fuel none = none := by
  intro fuel
  cases fuel with
  | zero => rfl
  | succ g => rfl

/-- The `while (ancestor)` walk of `findCommonAncestor`, on a store whose
parents are all present: starting from a candidate that is an ancestor of `x`
and below every common ancestor of `x` and `y`, the walk returns a common
ancestor of `x` and `y` that every common ancestor sits at or above, and
returns nothing exactly when no common ancestor exists. -/
theorem walk_lca (st : Store) (x y : Nat)
    (hP : parentsPresent st = true)
    (hokx : chainOk st st.shapes.length (ParentId.shape x) = true) :
    ∀ (fuel : Nat) (cand : Option Shape),
      fuel ≤ st.shapes.length →
      (∀ anc, cand = some anc → getShape st anc.id = some anc) →
      (∀ anc, cand = some anc → chainOk st fuel (ParentId.shape anc.id) = true) →
      (∀ anc, cand = some anc → hasAncestor st x anc.id = true) →
      (∀ c, hasAncestor st x c = true → hasAncestor st y c = true →
        (match cand with
         | some anc => c = anc.id ∨ hasAncestor st anc.id c = true
         | none => False)) →
      (match findCommonAncestorWalk st [y] none fuel cand with
       | some r => hasAncestor st x r = true ∧ hasAncestor st y r = true ∧
           ∀ c, hasAncestor st x c = true → hasAncestor st y c = true →
             c = r ∨ hasAncestor st r c = true
       | none => ∀ c, ¬(hasAncestor st x c = true ∧ hasAncestor st y c = true)) := by
  intro fuel
  induction fuel with
  | zero =>
    intro cand hfuel hrec hchain hx hinv
    cases cand with
    | none =>
      show ∀ c, ¬(hasAncestor st x c = true ∧ hasAncestor st y c = true)
      intro c hc
      exact hinv c hc.1 hc.2
    | some anc =>
      have h1 := hrec anc rfl
      have h2 : (getShape st anc.id).isNone = true := hchain anc rfl
      rw [h1] at h2
      exact absurd h2 (by simp)
  | succ g ih =>
    intro cand hfuel hrec hchain hx hinv
    cases cand with
    | none =>
      show ∀ c, ¬(hasAncestor st x c = true ∧ hasAncestor st y c = true)
      intro c hc
      exact hinv c hc.1 hc.2
    | some anc =>
      have hrecA := hrec anc rfl
      have hchA : chainOk st (g + 1) (ParentId.shape anc.id) = true := hchain anc rfl
      have hxA := hx anc rfl
      by_cases hy : hasAncestor st y anc.id = true
      · have hall : ([y].all (fun o => hasAncestor st o anc.id)) = true := by simp [hy]
        rw [findCommonAncestorWalk, if_neg (by simp), if_pos hall]
        refine ⟨hxA, hy, ?_⟩
        intro c hc1 hc2
        exact hinv c hc1 hc2
      · simp only [Bool.not_eq_true] at hy
        rw [findCommonAncestorWalk, if_neg (by simp), if_neg (by simp [hy])]
        cases hpar : anc.parentId with
        | page pg =>
          have hparent : getShapeParentOf st anc = none := by
            simp [getShapeParentOf, getShapeP, hpar]
          rw [hparent, findCommonAncestorWalk_none]
          show ∀ c, ¬(hasAncestor st x c = true ∧ hasAncestor st y c = true)
          intro c hc
          obtain ⟨hc1, hc2⟩ := hc
          rcases hinv c hc1 hc2 with hceq | hcanc
          · rw [hceq, hy] at hc2
            exact absurd hc2 (by simp)
          · have h1 : hasAncestorF st st.shapes.length (some anc.id) c = true := hcanc
            rw [hasAncestorF, hrecA] at h1
            have h2 : (if (anc.parentId == ParentId.shape c) = true then true
                else match st.shapes.length with
                  | 0 => false
                  | f + 1 =>
                    hasAncestorF st f ((getShapeParentOf st anc).map (fun p => p.id)) c) =
                true := h1
            rw [if_neg (by simp [hpar])] at h2
            cases hN : st.shapes.length with
            | zero => rw [hN] at h2; exact absurd h2 (by simp)
            | succ f =>
              rw [hN, hparent] at h2
              simp [hasAncestorF] at h2
        | shape p =>
          have hmem : anc ∈ st.shapes := List.mem_of_find?_eq_some hrecA
          have hpsome := parentsPresent_elim st hP anc hmem p hpar
          obtain ⟨prec, hprec⟩ := Option.isSome_iff_exists.mp hpsome
          have hpid : prec.id = p := getShape_id hprec
          have hparent : getShapeParentOf st anc = some prec := by
            simp [getShapeParentOf, getShapeP, hpar, hprec]
          rw [hparent]
          have hchp : chainOk st g (ParentId.shape p) = true := by
            have hc : chainOk st (g + 1) (ParentId.shape anc.id) = true := hchA
            rw [chainOk, hrecA] at hc
            have hc3 : chainOk st g anc.parentId = true := hc
            rw [hpar] at hc3
            exact hc3
          have hxp : hasAncestor st x p = true := by
            have hstep := hasAncestor_step st anc.id p anc hrecA hpar st.shapes.length x hxA
            have hs1 := hasAncestorF_stable st p st.shapes.length x hokx
              (st.shapes.length + 1) (by omega)
            show hasAncestorF st st.shapes.length (some x) p = true
            rw [← hs1]
            exact hstep
          have hinv' : ∀ c, hasAncestor st x c = true → hasAncestor st y c = true →
              c = prec.id ∨ hasAncestor st prec.id c = true := by
            intro c hc1 hc2
            rcases hinv c hc1 hc2 with hceq | hcanc
            · exfalso
              rw [hceq, hy] at hc2
              exact absurd hc2 (by simp)
            · have h1 : hasAncestorF st st.shapes.length (some anc.id) c = true := hcanc
              rw [hasAncestorF, hrecA] at h1
              have h2 : (if (anc.parentId == ParentId.shape c) = true then true
                  else match st.shapes.length with
                    | 0 => false
                    | f + 1 =>
                      hasAncestorF st f ((getShapeParentOf st anc).map (fun p => p.id)) c) =
                  true := h1
              by_cases hhead : (anc.parentId == ParentId.shape c) = true
              · left
                have hpc : anc.parentId = ParentId.shape c := by simpa using hhead
                rw [hpar] at hpc
                injection hpc with hpc'
                rw [hpid]
                exact hpc'.symm
              · rw [if_neg hhead] at h2
                cases hN : st.shapes.length with
                | zero => rw [hN] at h2; exact absurd h2 (by simp)
                | succ f =>
                  rw [hN, hparent] at h2
                  have h4 : hasAncestorF st f (some prec.id) c = true := by simpa using h2
                  right
                  have hgle : g ≤ f := by omega
                  have hchp' : chainOk st g (ParentId.shape prec.id) = true := by
                    rw [hpid]; exact hchp
                  have hs1 := hasAncestorF_stable st c g prec.id hchp' f hgle
                  have hs2 := hasAncestorF_stable st c g prec.id hchp' st.shapes.length
                    (by omega)
                  show hasAncestorF st st.shapes.length (some prec.id) c = true
                  rw [hs2, ← hs1]
                  exact h4
          exact ih (some prec) (by omega)
            (fun a ha => by injection ha with he; subst he; rw [hpid]; exact hprec)
            (fun a ha => by injection ha with he; subst he; rw [hpid]; exact hchp)
            (fun a ha => by injection ha with he; subst he; rw [hpid]; exact hxp)
            (fun c hc1 hc2 => hinv' c hc1 hc2)

/-- `findCommonAncestor` on two existing shapes computes a lowest common
ancestor: a returned ancestor is a common ancestor below every common
ancestor, and nothing is returned only when no common ancestor exists. -/
theorem findCommonAncestor_two_lca (st : Store) (x y : Nat) (sx sy : Shape)
    (hP : parentsPresent st = true)
    (hsx : getShape st x = some sx) (hsy : getShape st y = some sy)
    (hokx : chainOk st st.shapes.length (ParentId.shape x) = true) :
    (∀ r, findCommonAncestor st [x, y] none = some r →
       hasAncestor st x r = true ∧ hasAncestor st y r = true ∧
       ∀ c, hasAncestor st x c = true → hasAncestor st y c = true →
         c = r ∨ hasAncestor st r c = true) ∧
    (findCommonAncestor st [x, y] none = none →
       ∀ c, ¬(hasAncestor st x c = true ∧ hasAncestor st y c = true)) := by
  have hfm : [x, y].filterMap (getShape st) = [sx, sy] := by
    simp [List.filterMap_cons, hsx, hsy]
  have hfc : findCommonAncestor st [x, y] none =
      findCommonAncestorWalk st [y] none st.shapes.length (getShapeParentOf st sx) := by
    unfold findCommonAncestor
    rw [hfm]
    show findCommonAncestorWalk st ([sy].map (fun s => s.id)) none st.shapes.length
        (getShapeParentOf st sx) = _
    rw [show [sy].map (fun s => s.id) = [y] by simp [getShape_id hsy]]
  have hmain : (match findCommonAncestorWalk st [y] none st.shapes.length
      (getShapeParentOf st sx) with
    | some r => hasAncestor st x r = true ∧ hasAncestor st y r = true ∧
        ∀ c, hasAncestor st x c = true → hasAncestor st y c = true →
          c = r ∨ hasAncestor st r c = true
    | none => ∀ c, ¬(hasAncestor st x c = true ∧ hasAncestor st y c = true)) := by
    cases hpar : sx.parentId with
    | page pg =>
      have hparent : getShapeParentOf st sx = none := by
        simp [getShapeParentOf, getShapeP, hpar]
      rw [hparent, findCommonAncestorWalk_none]
      show ∀ c, ¬(hasAncestor st x c = true ∧ hasAncestor st y c = true)
      intro c hc
      obtain ⟨hc1, hc2⟩ := hc
      have h1 : hasAncestorF st st.shapes.length (some x) c = true := hc1
      rw [hasAncestorF, hsx] at h1
      have h2 : (if (sx.parentId == ParentId.shape c) = true then true
          else match st.shapes.length with
            | 0 => false
            | f + 1 => hasAncestorF st f ((getShapeParentOf st sx).map (fun p => p.id)) c) =
          true := h1
      rw [if_neg (by simp [hpar])] at h2
      cases hN : st.shapes.length with
      | zero => rw [hN] at h2; exact absurd h2 (by simp)
      | succ f =>
        rw [hN, hparent] at h2
        simp [hasAncestorF] at h2
    | shape p1 =>
      have hmem : sx ∈ st.shapes := List.mem_of_find?_eq_some hsx
      have hpsome := parentsPresent_elim st hP sx hmem p1 hpar
      obtain ⟨prec, hprec⟩ := Option.isSome_iff_exists.mp hpsome
      have hpid : prec.id = p1 := getShape_id hprec
      have hparent : getShapeParentOf st sx = some prec := by
        simp [getShapeParentOf, getShapeP, hpar, hprec]
      rw [hparent]
      have hpos : 0 < st.shapes.length := List.length_pos.mpr (fun hnil => by
        rw [hnil] at hmem
        exact absurd hmem (List.not_mem_nil sx))
      obtain ⟨m, hm⟩ : ∃ m, st.shapes.length = m + 1 := ⟨st.shapes.length - 1, by omega⟩
      have hchm : chainOk st m (ParentId.shape p1) = true := by
        have hc : chainOk st (m + 1) (ParentId.shape x) = true := by rw [← hm]; exact hokx
        rw [chainOk, hsx] at hc
        have hc3 : chainOk st m sx.parentId = true := hc
        rw [hpar] at hc3
        exact hc3
      have hch1 : chainOk st st.shapes.length (ParentId.shape p1) = true := by
        rw [hm]
        exact chainOk_mono st m _ hchm (m + 1) (by omega)
      have hxp : hasAncestor st x p1 = true := by
        show hasAncestorF st st.shapes.length (some x) p1 = true
        rw [hasAncestorF, hsx]
        show (if (sx.parentId == ParentId.shape p1) = true then true
            else match st.shapes.length with
              | 0 => false
              | f + 1 =>
                hasAncestorF st f ((getShapeParentOf st sx).map (fun p => p.id)) p1) = true
        rw [if_pos (by simp [hpar])]
      have hinv0 : ∀ c, hasAncestor st x c = true → hasAncestor st y c = true →
          c = prec.id ∨ hasAncestor st prec.id c = true := by
        intro c hc1 hc2
        have h1 : hasAncestorF st st.shapes.length (some x) c = true := hc1
        rw [hasAncestorF, hsx] at h1
        have h2 : (if (sx.parentId == ParentId.shape c) = true then true
            else match st.shapes.length with
              | 0 => false
              | f + 1 =>
                hasAncestorF st f ((getShapeParentOf st sx).map (fun p => p.id)) c) =
            true := h1
        by_cases hhead : (sx.parentId == ParentId.shape c) = true
        · left
          have hpc : sx.parentId = ParentId.shape c := by simpa using hhead
          rw [hpar] at hpc
          injection hpc with hpc'
          rw [hpid]
          exact hpc'.symm
        · rw [if_neg hhead] at h2
          cases hN : st.shapes.length with
          | zero => rw [hN] at h2; exact absurd h2 (by simp)
          | succ f =>
            rw [hN, hparent] at h2
            have h4 : hasAncestorF st f (some prec.id) c = true := by simpa using h2
            right
            have hmf : f = m := by omega
            have hchf : chainOk st f (ParentId.shape prec.id) = true := by
              rw [hpid, hmf]
              exact hchm
            have hstab := hasAncestorF_stable st c f prec.id hchf st.shapes.length
              (by omega)
            show hasAncestorF st st.shapes.length (some prec.id) c = true
            rw [hstab]
            exact h4
      exact walk_lca st x y hP hokx st.shapes.length (some prec) (le_refl _)
        (fun a ha => by injection ha with he; subst he; rw [hpid]; exact hprec)
        (fun a ha => by injection ha with he; subst he; rw [hpid]; exact hch1)
        (fun a ha => by injection ha with he; subst he; rw [hpid]; exact hxp)
        (fun c hc1 hc2 => hinv0 c hc1 hc2)
  constructor
  · intro r hr
    rw [hfc] at hr
    rw [hr] at hmain
    exact hmain
  · intro hr
    rw [hfc] at hr
    rw [hr] at hmain
    exact hmain

/-- The moved shape's committed parent is the requested parent. -/
theorem reparentShapes_parent (st : Store) (P : ParentId) (idx : Option ℚ) (i : Nat)
    (s : Shape) (hro : st.isReadonly = false) (hs : getShape st i = some s) :
    ∃ t, getShape (reparentShapes st [i] P idx) i = some t ∧ t.parentId = P := by
  have hsid := getShape_id hs
  simp only [reparentShapes]
  have hSH : [i].filterMap (getShape st) = [s] := by simp [List.filterMap_cons, hs]
  rw [hSH]
  have hro1 : (reparentUnlockedStore st [s]).isReadonly = false := by
    rw [reparentUnlockedStore_isReadonly]
    exact hro
  have hsome1 : (getShape (reparentUnlockedStore st [s]) i).isSome = true :=
    reparentUnlockedStore_isSome st [s] i (by rw [hs]; rfl)
  obtain ⟨s1, idx', hs1, hfinal⟩ := changes_lookup (reparentUnlockedStore st [s])
    (match P with
      | .page _ => Mat.identity
      | .shape p => getShapePageTransform st p).invert
    (match P with
      | .page _ => Mat.identity
      | .shape p => getShapePageTransform st p).rotation
    P [s]
    (reparentIndices ((getSortedChildIdsForParent st P).filterMap (getShape st)) idx
      [i].length)
    s i hro1 (by simp) (List.mem_singleton_self s) hsid
    (by rw [reparentIndices_length]; simp) hsome1
  refine ⟨_, hfinal, ?_⟩
  simp [applyPartialToShape, reparentChange]

/-- Core-field agreement at an id gives parent agreement there. -/
theorem coreEq_parent (st st' : Store) (i : Nat) (h : coreEq st st' i) :
    (getShape st i).map (fun t => t.parentId) =
      (getShape st' i).map (fun t => t.parentId) := by
  unfold coreEq at h
  cases hg1 : getShape st i with
  | none =>
    rw [hg1] at h
    cases hg2 : getShape st' i with
    | none => rfl
    | some t => rw [hg2] at h; exact absurd h (by simp)
  | some t1 =>
    rw [hg1] at h
    cases hg2 : getShape st' i with
    | none => rw [hg2] at h; exact absurd h (by simp)
    | some t2 =>
      rw [hg2] at h
      simp only [Option.map_some', Option.some.injEq] at h ⊢
      exact congrArg (fun q => q.2.1) h

/-- The index-fixing tail returns the input store or an index-only update. -/
theorem arrowIndexTail_cases (st1 : Store) (arrowId : Nat) (sSh eSh : Option Shape)
    (st' : Store) (h : arrowIndexTail st1 arrowId sSh eSh = some st') :
    st' = st1 ∨ ∃ fi : ℚ, st' = updateShapes st1 [{ id := arrowId, index := some fi }] := by
  unfold arrowIndexTail at h
  split at h
  · exact absurd h (by simp)
  · split at h
    · exact Or.inl (Option.some_injective _ h).symm
    · split at h
      · split at h
        · exact Or.inr ⟨_, (Option.some_injective _ h).symm⟩
        · exact Or.inl (Option.some_injective _ h).symm
      · split at h
        · exact Or.inl (Option.some_injective _ h).symm
        · split at h
          · exact Or.inr ⟨_, (Option.some_injective _ h).symm⟩
          · exact Or.inl (Option.some_injective _ h).symm

/-- The arrow's parent after the commit tail, from its parent in the committed
store. -/
theorem commit_cases (st1 : Store) (arrowId : Nat) (P : ParentId) (st' : Store)
    (hpar : (getShape st1 arrowId).map (fun t => t.parentId) = some P)
    (hcases : st' = st1 ∨
      ∃ fi : ℚ, st' = updateShapes st1 [{ id := arrowId, index := some fi }]) :
    ∃ arrow', getShape st' arrowId = some arrow' ∧ arrow'.parentId = P := by
  have hfrom : ∀ (st2 : Store),
      (getShape st2 arrowId).map (fun t => t.parentId) = some P →
      ∃ arrow', getShape st2 arrowId = some arrow' ∧ arrow'.parentId = P := by
    intro st2 hp
    cases hg : getShape st2 arrowId with
    | none => rw [hg] at hp; exact absurd hp (by simp)
    | some t =>
      rw [hg] at hp
      simp only [Option.map_some', Option.some.injEq] at hp
      exact ⟨t, rfl, hp⟩
  rcases hcases with rfl | ⟨fi, rfl⟩
  · exact hfrom _ hpar
  · apply hfrom
    have hc := updateShapes_coreEq st1 [{ id := arrowId, index := some fi }]
      (by
        intro p hp
        rw [List.mem_singleton] at hp
        subst hp
        exact ⟨rfl, rfl, rfl, rfl⟩)
      arrowId
    rw [← coreEq_parent _ _ _ hc]
    exact hpar

/-- Claim C7: after the connector create/update side effect `reparentArrow`,
with both endpoints bound to existing shapes the connector's parent is
`findCommonAncestor` of the two bound shapes — a lowest common ancestor (it is
an ancestor of both, every common ancestor sits at or above it, and it is
missing only when no common ancestor exists), the page when there is none;
with exactly one endpoint bound, the connector keeps its current parent when it
already equals the bound shape's parent and otherwise moves to the page. -/
theorem claim7_arrow_parent (st : Store) (arrowId : Nat) (arrow : Shape) (pg : Nat)
    (st' : Store)
    (hro : st.isReadonly = false)
    (hP : parentsPresent st = true)
    (ha : getShape st arrowId = some arrow)
    (hpg : getAncestorPageId st arrowId = some pg)
    (hres : reparentArrow st arrowId = some st') :
    (∀ sId eId ss es,
      arrow.props = Props.arrowProps (Terminal.binding sId) (Terminal.binding eId) →
      getShape st sId = some ss → getShape st eId = some es →
      chainOk st st.shapes.length (ParentId.shape ss.id) = true →
      ∃ arrow', getShape st' arrowId = some arrow' ∧
        arrow'.parentId = ((findCommonAncestor st [ss.id, es.id] none).map
          ParentId.shape).getD (ParentId.page pg) ∧
        (∀ r, findCommonAncestor st [ss.id, es.id] none = some r →
          hasAncestor st ss.id r = true ∧ hasAncestor st es.id r = true ∧
          ∀ c, hasAncestor st ss.id c = true → hasAncestor st es.id c = true →
            c = r ∨ hasAncestor st r c = true) ∧
        (findCommonAncestor st [ss.id, es.id] none = none →
          ∀ c, ¬(hasAncestor st ss.id c = true ∧ hasAncestor st es.id c = true))) ∧
    (∀ sId px py ss,
      arrow.props = Props.arrowProps (Terminal.binding sId) (Terminal.point px py) →
      getShape st sId = some ss →
      ∃ arrow', getShape st' arrowId = some arrow' ∧
        arrow'.parentId = (if ss.parentId == arrow.parentId then arrow.parentId
          else ParentId.page pg)) ∧
    (∀ eId px py es,
      arrow.props = Props.arrowProps (Terminal.point px py) (Terminal.binding eId) →
      getShape st eId = some es →
      ∃ arrow', getShape st' arrowId = some arrow' ∧
        arrow'.parentId = (if es.parentId == arrow.parentId then arrow.parentId
          else ParentId.page pg)) := by
  have hcommit : ∀ (P : ParentId) (so eo : Option Shape),
      arrowIndexTail
        (if (P != arrow.parentId) = true then reparentShapes st [arrowId] P none else st)
        arrowId so eo = some st' →
      ∃ arrow', getShape st' arrowId = some arrow' ∧ arrow'.parentId = P := by
    intro P so eo htail
    by_cases hne : (P != arrow.parentId) = true
    · rw [if_pos hne] at htail
      obtain ⟨t, hgt, hpt⟩ := reparentShapes_parent st P none arrowId arrow hro ha
      have hpar : (getShape (reparentShapes st [arrowId] P none) arrowId).map
          (fun t => t.parentId) = some P := by
        rw [hgt]
        simp [hpt]
      exact commit_cases _ arrowId P st' hpar (arrowIndexTail_cases _ _ _ _ _ htail)
    · rw [if_neg hne] at htail
      simp only [Bool.not_eq_true] at hne
      have hPeq : P = arrow.parentId := by
        have h2 : ¬(P ≠ arrow.parentId) := by
          intro hcon
          rw [← bne_iff_ne] at hcon
          exact absurd hne (by simp [hcon])
        exact not_not.mp h2
      have hpar : (getShape st arrowId).map (fun t => t.parentId) = some P := by
        rw [ha]
        simp [hPeq]
      exact commit_cases st arrowId P st' hpar (arrowIndexTail_cases _ _ _ _ _ htail)
  refine ⟨?_, ?_, ?_⟩
  · intro sId eId ss es hprops hss hes hok
    have hres1 := hres
    simp only [reparentArrow, ha, hprops, hpg, hss, hes, arrowNextParentId] at hres1
    have hssid : getShape st ss.id = some ss := by rw [getShape_id hss]; exact hss
    have hesid : getShape st es.id = some es := by rw [getShape_id hes]; exact hes
    have hlca := findCommonAncestor_two_lca st ss.id es.id ss es hP hssid hesid hok
    obtain ⟨arrow', hga', hpa'⟩ := hcommit
      (((findCommonAncestor st [ss.id, es.id] none).map ParentId.shape).getD
        (ParentId.page pg))
      (some ss) (some es) hres1
    exact ⟨arrow', hga', hpa', hlca.1, hlca.2⟩
  · intro sId px py ss hprops hss
    have hres1 := hres
    simp only [reparentArrow, ha, hprops, hpg, hss, arrowNextParentId] at hres1
    obtain ⟨arrow', hga', hpa'⟩ := hcommit
      (if ss.parentId == arrow.parentId then arrow.parentId else ParentId.page pg)
      (some ss) none hres1
    exact ⟨arrow', hga', hpa'⟩
  · intro eId px py es hprops hes
    have hres1 := hres
    simp only [reparentArrow, ha, hprops, hpg, hes, arrowNextParentId] at hres1
    obtain ⟨arrow', hga', hpa'⟩ := hcommit
      (if es.parentId == arrow.parentId then arrow.parentId else ParentId.page pg)
      none (some es) hres1
    exact ⟨arrow', hga', hpa'⟩

/-- Witness for C7: for the concrete store `storeArr` (frame 1 on page 0 with
children 2 and 3, arrow 4 bound to shapes 2 and 3), `reparentArrow` moves the
arrow under `findCommonAncestor` of the two bound shapes, which is frame 1. -/
theorem claim7_witness :
    ∃ arrow', getShape ((reparentArrow storeArr 4).getD storeArr) 4 = some arrow' ∧
      arrow'.parentId = ((findCommonAncestor storeArr [shapeSS.id, shapeES.id]
        none).map ParentId.shape).getD (ParentId.page 0) := by
  obtain ⟨arrow', hg, hp, _, _⟩ :=
    (claim7_arrow_parent storeArr 4 arrow7 0 ((reparentArrow storeArr 4).getD storeArr)
      rfl (by with_unfolding_all decide) (by with_unfolding_all decide)
      (by with_unfolding_all decide) (by with_unfolding_all decide)).1
      2 3 shapeSS shapeES rfl (by with_unfolding_all decide)
      (by with_unfolding_all decide) (by with_unfolding_all decide)
  exact ⟨arrow', hg, hp⟩

end Tldraw
